import Mathlib

/-!
Verification development for the Jira markup preprocessing engine
(`jira_prompts_mcp_server/jira_utils/preprocessing.py`).

Text is modelled as `List Char` (Python `str`).  Each regular-expression
rewrite of the source is embedded as an executable function that mirrors the
Python `re` semantics actually exercised by that pattern: left-to-right
non-overlapping global substitution, greedy and lazy quantifiers with
backtracking, `MULTILINE` line anchors (handled by splitting on `'\n'`),
and the fact that `.` does not match a newline.  Scanning drivers use an
explicit fuel argument (always instantiated with the string length, which
bounds the number of scanning steps since every match consumes at least one
character) so that all definitions reduce inside the kernel.
-/

namespace JiraPrep

/-- Text: Python `str` as a list of characters. -/
abbrev Str := List Char

/-! ## Generic string machinery -/

/-- Match a literal at the head of the text, returning the remainder. -/
def matchLit : Str → Str → Option Str
  | [], s => some s
  | _ :: _, [] => none
  | l :: ls, c :: cs => if c = l then matchLit ls cs else none

/-- Greedy character-class span (`[...]*`): longest prefix satisfying `p`,
together with the remainder. -/
def spanP (p : Char → Bool) : Str → Str × Str
  | [] => ([], [])
  | c :: cs =>
    if p c then
      let r := spanP p cs
      (c :: r.1, r.2)
    else ([], c :: cs)

/-- Lazy `[\s\S]*?NEEDLE`: split at the first occurrence of the (nonempty)
`needle`, returning the content before it and the remainder after it. -/
def findSplit (needle : Str) : Str → Option (Str × Str)
  | [] => none
  | c :: cs =>
    if needle.isPrefixOf (c :: cs) then some ([], List.drop needle.length (c :: cs))
    else
      match findSplit needle cs with
      | some (pre, rest) => some (c :: pre, rest)
      | none => none

/-- Lazy `[\s\S]+?NEEDLE` (at least one character of content). -/
def findSplitMin1 (needle : Str) : Str → Option (Str × Str)
  | [] => none
  | c :: cs =>
    match findSplit needle cs with
    | some (pre, rest) => some (c :: pre, rest)
    | none => none

/-- Lazy `(.*?)NEEDLE`: as `findSplit`, but the content may not contain a
newline (Python `.` does not match `'\n'`). -/
def findSplitNoNL (needle : Str) : Str → Option (Str × Str)
  | [] => none
  | c :: cs =>
    if needle.isPrefixOf (c :: cs) then some ([], List.drop needle.length (c :: cs))
    else if c = '\n' then none
    else
      match findSplitNoNL needle cs with
      | some (pre, rest) => some (c :: pre, rest)
      | none => none

/-- Lazy `(.+?)NEEDLE` (at least one character, no newline). -/
def findSplitNoNLMin1 (needle : Str) : Str → Option (Str × Str)
  | [] => none
  | c :: cs =>
    if c = '\n' then none
    else
      match findSplitNoNL needle cs with
      | some (pre, rest) => some (c :: pre, rest)
      | none => none

/-- Greedy `([\s\S]*)NEEDLE`: split at the last occurrence of `needle`. -/
def rFindSplitF (needle : Str) : Nat → Str → Option (Str × Str)
  | 0, _ => none
  | fuel + 1, s =>
    match findSplit needle s with
    | none => none
    | some (pre, rest) =>
      match rFindSplitF needle fuel rest with
      | some (pre2, rest2) => some (pre ++ needle ++ pre2, rest2)
      | none => some (pre, rest)

/-- Greedy split at the last occurrence of `needle`. -/
def rFindSplit (needle : Str) (s : Str) : Option (Str × Str) :=
  rFindSplitF needle s.length s

/-- Positions (ascending) at which `needle` occurs in the text. -/
def positionsOfSub (needle : Str) : Str → List Nat
  | [] => []
  | c :: cs =>
    (if needle.isPrefixOf (c :: cs) then [0] else []) ++ (positionsOfSub needle cs).map (· + 1)

/-- Whether the (nonempty) `needle` occurs in the text: Python `needle in s`. -/
def containsSub (needle : Str) : Str → Bool
  | [] => false
  | c :: cs => needle.isPrefixOf (c :: cs) || containsSub needle cs

/-- Python `s.count(ch)` for a single character. -/
def countC (x : Char) : Str → Nat
  | [] => 0
  | c :: cs => (if c = x then 1 else 0) + countC x cs

/-- One global `re.sub` pass: scan left to right; when `tm` matches at the
current position it returns the replacement text and the remainder after the
matched span (every successful match consumes at least one character). -/
def substF (tm : Str → Option (Str × Str)) : Nat → Str → Str
  | 0, s => s
  | _ + 1, [] => []
  | fuel + 1, c :: cs =>
    match tm (c :: cs) with
    | some (repl, rest) => repl ++ substF tm fuel rest
    | none => c :: substF tm fuel cs

/-- Global substitution with fuel instantiated to the text length. -/
def subst (tm : Str → Option (Str × Str)) (s : Str) : Str := substF tm s.length s

/-- The match step of Python `str.replace`: the literal `needle` at the
current position. -/
def replTM (needle repl : Str) (s : Str) : Option (Str × Str) :=
  if needle.isPrefixOf s then some (repl, List.drop needle.length s) else none

/-- Python `s.replace(needle, repl)` (nonempty needle): left-to-right,
non-overlapping global replacement. -/
def replaceAll (needle repl s : Str) : Str := substF (replTM needle repl) s.length s

/-- Python `text.split("\n")`. -/
def splitLines : Str → List Str
  | [] => [[]]
  | c :: cs =>
    match splitLines cs with
    | l :: ls => if c = '\n' then [] :: l :: ls else (c :: l) :: ls
    | [] => [[]]

/-- Python `"\n".join(lines)`. -/
def joinLines : List Str → Str
  | [] => []
  | [l] => l
  | l :: l2 :: ls => l ++ '\n' :: joinLines (l2 :: ls)

/-- Whether a global pass would find at least one match. -/
def hasMatchF (tm : Str → Option (Str × Str)) : Nat → Str → Bool
  | 0, _ => false
  | _ + 1, [] => false
  | fuel + 1, c :: cs =>
    match tm (c :: cs) with
    | some _ => true
    | none => hasMatchF tm fuel cs

/-- Whether a global pass would find at least one match. -/
def hasMatch (tm : Str → Option (Str × Str)) (s : Str) : Bool := hasMatchF tm s.length s

/-- Apply a full-line rewrite (`re.MULTILINE` pattern anchored with `^...$`)
to every line. -/
def lineApply (f : Str → Option Str) (l : Str) : Str := (f l).getD l

/-- `re.sub` with a `MULTILINE` whole-line pattern. -/
def onLines (f : Str → Option Str) (s : Str) : Str :=
  joinLines ((splitLines s).map (lineApply f))

/-- Python ASCII `\s` characters (the inputs considered here are ASCII). -/
def pyWs (c : Char) : Bool :=
  c = ' ' || c = '\t' || c = '\n' || c = '\r' || c = '\x0b' || c = '\x0c'

/-- Python `[a-zA-Z0-9]`. -/
def alnum (c : Char) : Bool := c.isAlpha || c.isDigit

/-- Python `\w` for the ASCII inputs considered here. -/
def wordChar (c : Char) : Bool := c.isAlpha || c.isDigit || c = '_'

/-- Python `str.strip()` (ASCII whitespace). -/
def stripChars (s : Str) : Str := ((s.dropWhile pyWs).reverse.dropWhile pyWs).reverse

/-- Decimal rendering of a natural number (Python `str(n)` / f-string). -/
def natToStrF : Nat → Nat → Str
  | 0, _ => []
  | f + 1, n =>
    if n < 10 then [Char.ofNat (48 + n)]
    else natToStrF f (n / 10) ++ [Char.ofNat (48 + n % 10)]

/-- Decimal rendering of a natural number. -/
def natToStr (n : Nat) : Str := natToStrF (n + 1) n

/-! ## `jira_to_markdown` (Dialect-to-Markdown converter)

The rules appear below in exactly the order of the source
(`preprocessing.py`, lines 251-360). -/

/-- Rule 1, `^bq\.(.*?)$` → `"> \1\n"` (per line). -/
def bqLineOpt (l : Str) : Option Str :=
  match matchLit ("bq.".toList) l with
  | some rest => some ('>' :: ' ' :: rest ++ ['\n'])
  | none => none

/-- `(.*?)X` content for the emphasis rule: text before the next occurrence of
the marker `m`, failing on a newline. -/
def spanUntil (m : Char) : Str → Option (Str × Str)
  | [] => none
  | c :: cs =>
    if c = m then some ([], cs)
    else if c = '\n' then none
    else
      match spanUntil m cs with
      | some (pre, rest) => some (c :: pre, rest)
      | none => none

/-- Lookbehind test of rule 2 (`(?<![a-zA-Z0-9])`). -/
def prevAlnum : Option Char → Bool
  | none => false
  | some c => alnum c

/-- Rule 2, `(?<![a-zA-Z0-9])([*_])(.*?)\1` with its swap-to-Markdown
replacement; `prev` is the character before the current scan position in the
original text. -/
def jiraBoldF : Nat → Option Char → Str → Str
  | 0, _, s => s
  | _ + 1, _, [] => []
  | fuel + 1, prev, c :: cs =>
    if (c = '*' || c = '_') && !prevAlnum prev then
      match spanUntil c cs with
      | some (content, rest) =>
        (if c = '*' then '*' :: '*' :: content ++ ['*', '*'] else '*' :: content ++ ['*'])
          ++ jiraBoldF fuel (some c) rest
      | none => c :: jiraBoldF fuel (some c) cs
    else c :: jiraBoldF fuel (some c) cs

/-- Rule 2 as a whole-text pass. -/
def jiraBold (s : Str) : Str := jiraBoldF s.length none s

/-- Bullet characters of rule 3. -/
def bulletChar (c : Char) : Bool := c = '#' || c = '-' || c = '+' || c = '*'

/-- Rule 3, `^((?:#|-|\+|\*)+) (.*)$` with `_convert_jira_list_to_markdown`:
indent is two spaces per extra bullet, marker `1.` when the last bullet is
`#`, else `-`. -/
def listLineOpt (l : Str) : Option Str :=
  match spanP bulletChar l with
  | (run, rest) =>
    if run.isEmpty then none
    else
      match rest with
      | ' ' :: content =>
        some (List.replicate ((run.length - 1) * 2) ' ' ++
          (if run.getLast? = some '#' then ['1', '.'] else ['-']) ++ ' ' :: content)
      | _ => none

/-- Rule 4, `^h([0-6])\.(.*)$` → `"#" * N + rest` (per line). -/
def headerLineOpt (l : Str) : Option Str :=
  match l with
  | c :: d :: c2 :: rest =>
    if c = 'h' && ('0' ≤ d && d ≤ '6') && c2 = '.' then
      some (List.replicate (d.toNat - 48) '#' ++ rest)
    else none
  | _ => none

/-- `OPEN([^X]*)CLOSE` (or `[^X]+` when `min1`): maximal run of characters
other than `excl` after the literal `openL`, then the literal `closeL`. -/
def trySpanNot (openL : Str) (excl : Char) (min1 : Bool) (closeL : Str)
    (mk : Str → Str) (s : Str) : Option (Str × Str) :=
  match matchLit openL s with
  | none => none
  | some r1 =>
    match spanP (fun c => !(c = excl)) r1 with
    | (content, rest) =>
      if min1 && content.isEmpty then none
      else
        match matchLit closeL rest with
        | some r2 => some (mk content, r2)
        | none => none

/-- Rule 5, `\{\{([^}]+)\}\}` → backtick inline code. -/
def tryInlineCode : Str → Option (Str × Str) :=
  trySpanNot ("\x7b\x7b".toList) '}' true ("\x7d\x7d".toList)
    (fun content => '`' :: content ++ ['`'])

/-- One two-character unit of the citation pattern `(?:.[^?]|[^?].)`. -/
def citPairOk (c1 c2 : Char) : Bool :=
  (!(c1 = '\n') && !(c2 = '?')) || (!(c1 = '?') && !(c2 = '\n'))

/-- Greedy `((?:.[^?]|[^?].)+)\?\?`: consumes two-character units, preferring
more units (backtracking to fewer), then the closing `??`. -/
def citPairs : Str → Option (Str × Str)
  | c1 :: c2 :: rest =>
    if citPairOk c1 c2 then
      match citPairs rest with
      | some (content, r) => some (c1 :: c2 :: content, r)
      | none =>
        match matchLit ("??".toList) rest with
        | some r => some ([c1, c2], r)
        | none => none
    else none
  | _ => none

/-- Rule 6, `\?\?((?:.[^?]|[^?].)+)\?\?` → `<cite>` wrapper. -/
def tryCitation (s : Str) : Option (Str × Str) :=
  match matchLit ("??".toList) s with
  | none => none
  | some r1 =>
    match citPairs r1 with
    | some (content, rest) =>
      some (("<cite>".toList) ++ content ++ ("</cite>".toList), rest)
    | none => none

/-- Rule 7, `\+([^+]*)\+` → `<ins>` wrapper. -/
def tryIns : Str → Option (Str × Str) :=
  trySpanNot (['+']) '+' false (['+'])
    (fun content => ("<ins>".toList) ++ content ++ ("</ins>".toList))

/-- Rule 8, `\^([^^]*)\^` → `<sup>` wrapper. -/
def trySup : Str → Option (Str × Str) :=
  trySpanNot (['^']) '^' false (['^'])
    (fun content => ("<sup>".toList) ++ content ++ ("</sup>".toList))

/-- Rule 9, `~([^~]*)~` → `<sub>` wrapper. -/
def trySub : Str → Option (Str × Str) :=
  trySpanNot (['~']) '~' false (['~'])
    (fun content => ("<sub>".toList) ++ content ++ ("</sub>".toList))

/-- Rule 10, `-([^-]*)-` → `-\1-` (a textual identity, kept faithfully). -/
def tryStrike : Str → Option (Str × Str) :=
  trySpanNot (['-']) '-' false (['-'])
    (fun content => '-' :: content ++ ['-'])

/-- Rule 11, `\{code(?::([a-z]+))?\}([\s\S]*?)\{code\}` → fenced block with
language tag (`re.sub` template `"```\1\n\2\n```"`). -/
def tryCodeBlock (s : Str) : Option (Str × Str) :=
  match matchLit ("\x7bcode".toList) s with
  | none => none
  | some r1 =>
    match
      (match r1 with
       | ':' :: r2 =>
         (match spanP Char.isLower r2 with
          | (lang, r3) =>
            if lang.isEmpty then none
            else match r3 with
              | '}' :: r4 => some (lang, r4)
              | _ => none)
       | '}' :: r2 => some (([] : Str), r2)
       | _ => none) with
    | none => none
    | some (lang, r4) =>
      match findSplit ("\x7bcode\x7d".toList) r4 with
      | some (content, rest) =>
        some ('`' :: '`' :: '`' :: lang ++ '\n' :: content ++ '\n' :: '`' :: '`' :: '`' :: [],
          rest)
      | none => none

/-- `OPEN([\s\S]*?)CLOSE` lazy block. -/
def tryLazyBlock (openL closeL : Str) (mk : Str → Str) (s : Str) : Option (Str × Str) :=
  match matchLit openL s with
  | none => none
  | some r1 =>
    match findSplit closeL r1 with
    | some (content, rest) => some (mk content, rest)
    | none => none

/-- Rule 12, `\{noformat\}([\s\S]*?)\{noformat\}` → plain fence. -/
def tryNoformat : Str → Option (Str × Str) :=
  tryLazyBlock ("\x7bnoformat\x7d".toList) ("\x7bnoformat\x7d".toList)
    (fun content => '`' :: '`' :: '`' :: '\n' :: content ++ '\n' :: '`' :: '`' :: '`' :: [])

/-- Rule 13, `\{quote\}([\s\S]*)\{quote\}` (greedy) → every interior line
prefixed with `"> "`. -/
def tryQuote (s : Str) : Option (Str × Str) :=
  match matchLit ("\x7bquote\x7d".toList) s with
  | none => none
  | some r1 =>
    match rFindSplit ("\x7bquote\x7d".toList) r1 with
    | some (content, rest) =>
      some (joinLines ((splitLines content).map (fun l => '>' :: ' ' :: l)), rest)
    | none => none

/-- Closing part `([^\n!\,]+?)(,([^\n!]*))?!` of the image-with-alt rule,
scanning lazily for the earliest closing position. -/
def imgAltScan : Str → Option (Str × Str)
  | [] => none
  | c :: cs =>
    if c = ',' then
      match spanP (fun x => !(x = '\n') && !(x = '!')) cs with
      | (_, '!' :: rest) => some ([], rest)
      | _ => none
    else if c = '!' then some ([], cs)
    else if c = '\n' then none
    else
      match imgAltScan cs with
      | some (alt, rest) => some (c :: alt, rest)
      | none => none

/-- Try the tail of the image-with-alt rule at one `alt=` candidate. -/
def tryImgAltAt (url : Str) : Str → Option (Str × Str)
  | [] => none
  | c :: cs =>
    if c = '\n' || c = '!' || c = ',' then none
    else
      match imgAltScan cs with
      | some (altTail, rest) =>
        some ('!' :: '[' :: (c :: altTail) ++ ']' :: '(' :: url ++ [')'], rest)
      | none => none

/-- Iterate `alt=` candidates (greedy `([^\n!]*)alt=`: last occurrence first). -/
def tryImgAltCands (url bodyR bodyT : Str) : List Nat → Option (Str × Str)
  | [] => none
  | i :: more =>
    match tryImgAltAt url (List.drop (i + 4) bodyR ++ bodyT) with
    | some res => some res
    | none => tryImgAltCands url bodyR bodyT more

/-- Rule 14, `!([^|\n\s]+)\|([^\n!]*)alt=([^\n!\,]+?)(,([^\n!]*))?!` →
`![alt](url)`. -/
def tryImgAlt (s : Str) : Option (Str × Str) :=
  match s with
  | [] => none
  | c0 :: r1 =>
    if c0 = '!' then
      match spanP (fun c => !(c = '|') && !(c = '\n') && !pyWs c) r1 with
      | (url, '|' :: r2) =>
        if url.isEmpty then none
        else
          (match spanP (fun c => !(c = '\n') && !(c = '!')) r2 with
           | (bodyR, bodyT) =>
             tryImgAltCands url bodyR bodyT ((positionsOfSub ("alt=".toList) bodyR).reverse))
      | _ => none
    else none

/-- Rule 15, `!([^|\n\s]+)\|([^\n!]*)!` → `![](url)`. -/
def tryImgParams (s : Str) : Option (Str × Str) :=
  match s with
  | [] => none
  | c0 :: r1 =>
    if c0 = '!' then
      match spanP (fun c => !(c = '|') && !(c = '\n') && !pyWs c) r1 with
      | (url, '|' :: r2) =>
        if url.isEmpty then none
        else
          (match spanP (fun c => !(c = '\n') && !(c = '!')) r2 with
           | (_, '!' :: rest) => some ('!' :: '[' :: ']' :: '(' :: url ++ [')'], rest)
           | _ => none)
      | _ => none
    else none

/-- Rule 16, `!([^\n\s!]+)!` → `![](url)`. -/
def tryImgPlain (s : Str) : Option (Str × Str) :=
  match s with
  | [] => none
  | c0 :: r1 =>
    if c0 = '!' then
      match spanP (fun c => !(c = '\n') && !pyWs c && !(c = '!')) r1 with
      | (inner, '!' :: rest) =>
        if inner.isEmpty then none else some ('!' :: '[' :: ']' :: '(' :: inner ++ [')'], rest)
      | _ => none
    else none

/-- Rule 17a, `\[([^|]+)\|(.+?)\]` → `[text](url)`. -/
def tryLinkPiped (s : Str) : Option (Str × Str) :=
  match s with
  | [] => none
  | c0 :: r1 =>
    if c0 = '[' then
      match spanP (fun c => !(c = '|')) r1 with
      | (t, '|' :: r2) =>
        if t.isEmpty then none
        else
          (match findSplitNoNLMin1 ([']']) r2 with
           | some (u, rest) => some ('[' :: t ++ ']' :: '(' :: u ++ [')'], rest)
           | none => none)
      | _ => none
    else none

/-- Lazy `(.+?)\]([^\(]+)` search of rule 17b: find the earliest `]` whose
following `[^\(]+` group is nonempty; the skipped text becomes group 1. -/
def linkBareScan : Str → Option (Str × Str × Str)
  | [] => none
  | c :: cs =>
    if c = ']' then
      match spanP (fun x => !(x = '(')) cs with
      | (g2, rest) =>
        if g2.isEmpty then
          match linkBareScan cs with
          | some (t, g2', rest') => some (']' :: t, g2', rest')
          | none => none
        else some ([], g2, rest)
    else if c = '\n' then none
    else
      match linkBareScan cs with
      | some (t, g2', rest') => some (c :: t, g2', rest')
      | none => none

/-- Rule 17b, `\[(.+?)\]([^\(]+)` → `<\1>\2`. -/
def tryLinkBare (s : Str) : Option (Str × Str) :=
  match s with
  | cb :: c0 :: r1 =>
    if cb = '[' && !(c0 = '\n') then
      match linkBareScan r1 with
      | some (t, g2, rest) => some ('<' :: (c0 :: t) ++ '>' :: g2, rest)
      | none => none
    else none
  | _ => none

/-- Rule 18, `\{color:([^}]+)\}([\s\S]*?)\{color\}` → inline-styled span.  The
replacement template is the raw string `<span style=\"color:\1\">\2</span>`,
and `re.sub` keeps the backslash of the unknown escape `\"`, so the emitted
text contains a literal backslash before each quote. -/
def tryColor (s : Str) : Option (Str × Str) :=
  match matchLit ("\x7bcolor:".toList) s with
  | none => none
  | some r1 =>
    match spanP (fun c => !(c = '}')) r1 with
    | (spec, rest1) =>
      if spec.isEmpty then none
      else
        match rest1 with
        | '}' :: r2 =>
          (match findSplit ("\x7bcolor\x7d".toList) r2 with
           | some (content, rest) =>
             some (("<span style=\\\"color:".toList) ++ spec ++ '\\' :: '\"' :: '>' ::
               content ++ ("</span>".toList), rest)
           | none => none)
        | _ => none

/-- `"|" + "---|" * cells` separator row of the table pass. -/
def sepDashes : Nat → Str
  | 0 => []
  | n + 1 => '-' :: '-' :: '-' :: '|' :: sepDashes n

/-- Markdown table separator row. -/
def sepLine (n : Nat) : Str := '|' :: sepDashes n

/-- Rule 19 (table pass): for each line containing `||`, halve the delimiters
and insert a separator row below, skipping the inserted row. -/
def convertJiraTables : List Str → List Str
  | [] => []
  | l :: rest =>
    if containsSub ("||".toList) l then
      let l2 := replaceAll ("||".toList) (['|']) l
      let cells := countC '|' l2 - 1
      if 0 < cells then l2 :: sepLine cells :: convertJiraTables rest
      else l2 :: convertJiraTables rest
    else l :: convertJiraTables rest

/-- `jira_to_markdown`: the full ordered pipeline of the source. -/
def jira_to_markdown (s : Str) : Str :=
  if s = [] then []
  else
    let o1 := onLines bqLineOpt s
    let o2 := jiraBold o1
    let o3 := onLines listLineOpt o2
    let o4 := onLines headerLineOpt o3
    let o5 := subst tryInlineCode o4
    let o6 := subst tryCitation o5
    let o7 := subst tryIns o6
    let o8 := subst trySup o7
    let o9 := subst trySub o8
    let o10 := subst tryStrike o9
    let o11 := subst tryCodeBlock o10
    let o12 := subst tryNoformat o11
    let o13 := subst tryQuote o12
    let o14 := subst tryImgAlt o13
    let o15 := subst tryImgParams o14
    let o16 := subst tryImgPlain o15
    let o17 := subst tryLinkPiped o16
    let o18 := subst tryLinkBare o17
    let o19 := subst tryColor o18
    joinLines (convertJiraTables (splitLines o19))

/-! ## `markdown_to_jira` (Markdown-to-Dialect converter)

Rules in source order (`preprocessing.py`, lines 364-507).  The
`save_code_block` / `save_inline_code` callbacks append the Jira-formatted
code to the bookkeeping lists `code_blocks` / `inline_codes` and return that
same text as the substitution result; the lists are never read again, so the
embedded rules produce the substitution text directly (the state of the two
lists is observationally irrelevant to the returned string). -/

/-- Rule 1, ``` ```(\w*)\n([\s\S]+?)``` ``` with `save_code_block`:
`"{code[:lang]}" + content + "{code}"`. -/
def tryMdCodeBlock (s : Str) : Option (Str × Str) :=
  match matchLit ("```".toList) s with
  | none => none
  | some r1 =>
    match spanP wordChar r1 with
    | (lang, rest1) =>
      match rest1 with
      | '\n' :: r2 =>
        (match findSplitMin1 ("```".toList) r2 with
         | some (content, rest) =>
           some (("\x7bcode".toList) ++ (if lang.isEmpty then [] else ':' :: lang) ++
             '}' :: content ++ ("\x7bcode\x7d".toList), rest)
         | none => none)
      | _ => none

/-- Rule 2, `` `([^`]+)` `` with `save_inline_code`: `"{{" + content + "}}"`. -/
def tryMdInline : Str → Option (Str × Str) :=
  trySpanNot (['`']) '`' true (['`'])
    (fun content => '{' :: '{' :: content ++ ['}', '}'])

/-- Characters of a setext underline (`([=-])+`). -/
def setextChar (c : Char) : Bool := c = '=' || c = '-'

/-- Rule 3, `^(.*?)\n([=-])+$` (MULTILINE) → `hN. text`; the level is decided
by the last underline character (the last repetition captured by group 2). -/
def setextPass : List Str → List Str
  | l1 :: l2 :: rest =>
    if !l2.isEmpty && l2.all setextChar then
      ('h' :: (if l2.getLast? = some '=' then '1' else '2') :: '.' :: ' ' :: l1) :: setextPass rest
    else l1 :: setextPass (l2 :: rest)
  | ls => ls

/-- Rule 4, `^([#]+)(.*?)$` → `h<N>.<rest>` (per line). -/
def atxLineOpt (l : Str) : Option Str :=
  match spanP (fun c => c = '#') l with
  | (run, rest) =>
    if run.isEmpty then none
    else some ('h' :: natToStr run.length ++ '.' :: rest)

/-- Emphasis marker characters (`[*_]`). -/
def emChar (c : Char) : Bool := c = '*' || c = '_'

/-- Backtracking of `([*_]+)(.*?)\1`: delimiter lengths from the greedy
maximum down to 1; for each, lazily search for the next occurrence of the
same delimiter (the content cannot span a newline). -/
def mdBoldIter (run rest : Str) : List Nat → Option (Str × Str)
  | [] => none
  | k :: ks =>
    match findSplitNoNL (run.take k) (run.drop k ++ rest) with
    | some (content, after) =>
      some ((if k = 1 then '_' :: content ++ ['_'] else '*' :: content ++ ['*']), after)
    | none => mdBoldIter run rest ks

/-- Rule 5, `([*_]+)(.*?)\1` with the swap-to-Jira replacement. -/
def tryMdBold (s : Str) : Option (Str × Str) :=
  match spanP emChar s with
  | (run, rest) =>
    if run.isEmpty then none
    else mdBoldIter run rest (((List.range run.length).reverse).map (· + 1))

/-- Rule 6, `^(\s*)- (.*)$` → Jira bullet with collapsed indent. -/
def bulletLineOpt (l : Str) : Option Str :=
  match spanP pyWs l with
  | (ws, rest) =>
    match matchLit ("- ".toList) rest with
    | some content =>
      if ws.isEmpty then some ('*' :: ' ' :: content)
      else some (List.replicate (ws.length / 2 * 2) ' ' ++ '*' :: ' ' :: content)
    | none => none

/-- Rule 7, `^(\s+)1\. (.*)$` → `#`-repeated Jira numbered item. -/
def numberedLineOpt (l : Str) : Option Str :=
  match spanP pyWs l with
  | (ws, rest) =>
    if ws.isEmpty then none
    else
      match matchLit ("1. ".toList) rest with
      | some content => some (List.replicate (ws.length / 4 + 2) '#' ++ ' ' :: content)
      | none => none

/-- One entry of the `tag_map` loop, `<tag>(.*?)</tag>` → `X\1X`. -/
def tryTag (openL closeL wrap : Str) (s : Str) : Option (Str × Str) :=
  match matchLit openL s with
  | none => none
  | some r1 =>
    match findSplitNoNL closeL r1 with
    | some (content, rest) => some (wrap ++ content ++ wrap, rest)
    | none => none

/-- Rule 9, `<span style="color:(#[^"]+)">([\s\S]*?)</span>` →
`{color:#...}...{color}`. -/
def tryMdColor (s : Str) : Option (Str × Str) :=
  match matchLit ("<span style=\"color:".toList) s with
  | none => none
  | some r1 =>
    match r1 with
    | '#' :: r2 =>
      (match spanP (fun c => !(c = '\"')) r2 with
       | (spec, rest1) =>
         if spec.isEmpty then none
         else
           match matchLit ("\">".toList) rest1 with
           | some r3 =>
             (match findSplit ("</span>".toList) r3 with
              | some (content, rest) =>
                some (("\x7bcolor:#".toList) ++ spec ++ '}' :: content ++
                  ("\x7bcolor\x7d".toList), rest)
              | none => none)
           | none => none)
    | _ => none

/-- Rule 10, `~~(.*?)~~` → `-\1-`. -/
def tryMdStrike : Str → Option (Str × Str) :=
  tryTag ("~~".toList) ("~~".toList) (['-'])

/-- Rule 11, `!\[\]\(([^)\n\s]+)\)` → `!url!`. -/
def tryMdImgNoAlt (s : Str) : Option (Str × Str) :=
  match matchLit ("![](".toList) s with
  | none => none
  | some r1 =>
    match spanP (fun c => !(c = ')') && !(c = '\n') && !pyWs c) r1 with
    | (url, ')' :: rest) =>
      if url.isEmpty then none else some ('!' :: url ++ ['!'], rest)
    | _ => none

/-- Rule 12, `!\[([^\]\n]+)\]\(([^)\n\s]+)\)` → `!url|alt=text!`. -/
def tryMdImgAlt (s : Str) : Option (Str × Str) :=
  match matchLit ("![".toList) s with
  | none => none
  | some r1 =>
    match spanP (fun c => !(c = ']') && !(c = '\n')) r1 with
    | (alt, rest1) =>
      if alt.isEmpty then none
      else
        match matchLit ("](".toList) rest1 with
        | some r2 =>
          (match spanP (fun c => !(c = ')') && !(c = '\n') && !pyWs c) r2 with
           | (url, ')' :: rest) =>
             if url.isEmpty then none
             else some ('!' :: url ++ ("|alt=".toList) ++ alt ++ ['!'], rest)
           | _ => none)
        | none => none

/-- Rule 13, `\[([^\]]+)\]\(([^)]+)\)` → `[text|url]`. -/
def tryMdLink (s : Str) : Option (Str × Str) :=
  match s with
  | [] => none
  | c0 :: r1 =>
    if c0 = '[' then
      match spanP (fun c => !(c = ']')) r1 with
      | (t, rest1) =>
        if t.isEmpty then none
        else
          match matchLit ("](".toList) rest1 with
          | some r2 =>
            (match spanP (fun c => !(c = ')')) r2 with
             | (u, ')' :: rest) =>
               if u.isEmpty then none else some ('[' :: t ++ '|' :: u ++ [']'], rest)
             | _ => none)
          | none => none
    else none

/-- Rule 14, `<([^>]+)>` → `[\1]`. -/
def tryMdAuto : Str → Option (Str × Str) :=
  trySpanNot (['<']) '>' true (['>'])
    (fun content => '[' :: content ++ [']'])

/-- `re.match(r"\|[-\s|]+\|", line)` of the table pass (anchored at the line
start only): after the leading `|`, at least one `[-\s|]` character followed
by another `|`. -/
def sepRowScan : Str → Bool → Bool
  | [], _ => false
  | c :: cs, started =>
    if c = '|' then (if started then true else sepRowScan cs true)
    else if c = '-' || pyWs c then sepRowScan cs true
    else false

/-- Separator-row test of the Markdown table pass. -/
def sepRowMatch : Str → Bool
  | '|' :: rest => sepRowScan rest false
  | _ => false

/-- Rule 15 (table pass): a header line whose successor is a separator row
has its `|` delimiters doubled; the separator row is removed. -/
def mdTablePass : List Str → List Str
  | l1 :: l2 :: rest =>
    if sepRowMatch l2 then replaceAll (['|']) ("||".toList) l1 :: mdTablePass rest
    else l1 :: mdTablePass (l2 :: rest)
  | ls => ls

/-- `markdown_to_jira`: the full ordered pipeline of the source. -/
def markdown_to_jira (s : Str) : Str :=
  if s = [] then []
  else
    let o1 := subst tryMdCodeBlock s
    let o2 := subst tryMdInline o1
    let o3 := joinLines (setextPass (splitLines o2))
    let o4 := onLines atxLineOpt o3
    let o5 := subst tryMdBold o4
    let o6 := onLines bulletLineOpt o5
    let o7 := onLines numberedLineOpt o6
    let o8 := subst (tryTag ("<cite>".toList) ("</cite>".toList) ("??".toList)) o7
    let o9 := subst (tryTag ("<del>".toList) ("</del>".toList) (['-'])) o8
    let o10 := subst (tryTag ("<ins>".toList) ("</ins>".toList) (['+'])) o9
    let o11 := subst (tryTag ("<sup>".toList) ("</sup>".toList) (['^'])) o10
    let o12 := subst (tryTag ("<sub>".toList) ("</sub>".toList) (['~'])) o11
    let o13 := subst tryMdColor o12
    let o14 := subst tryMdStrike o13
    let o15 := subst tryMdImgNoAlt o14
    let o16 := subst tryMdImgAlt o15
    let o17 := subst tryMdLink o16
    let o18 := subst tryMdAuto o17
    joinLines (mdTablePass (splitLines o18))

/-! ## Mention and smart-link text resolvers -/

/-- The literal mention token `[~accountid:<id>]`. -/
def mentionTok (id : Str) : Str := ("[~accountid:".toList) ++ id ++ [']']

/-- `re.findall(r"\[~accountid:(.*?)\]", text)`: the captured account ids,
left to right, non-overlapping. -/
def findMentionIdsF : Nat → Str → List Str
  | 0, _ => []
  | _ + 1, [] => []
  | fuel + 1, c :: cs =>
    match matchLit ("[~accountid:".toList) (c :: cs) with
    | some r1 =>
      (match findSplitNoNL ([']']) r1 with
       | some (id, rest) => id :: findMentionIdsF fuel rest
       | none => findMentionIdsF fuel cs)
    | none => findMentionIdsF fuel cs

/-- All account ids found by the mention pattern. -/
def findMentionIds (s : Str) : List Str := findMentionIdsF s.length s

/-- `_process_mentions`: for each found id, `jira_client.user(id).displayName`
is consulted (`lookup` returns `none` when that call raises); on success every
occurrence of the token is replaced by `@<displayName>`, on failure the error
is logged and the token is left in place.  The loop never propagates an
exception. -/
def processMentions (lookup : Str → Option Str) (text : Str) : Str :=
  (findMentionIds text).foldl
    (fun t id =>
      match lookup id with
      | some name => replaceAll (mentionTok id) ('@' :: '<' :: name ++ ['>']) t
      | none => t)
    text

/-- `_process_mentions` with its external calls made explicit: every loop
iteration evaluates `self.jira_client.user(account_id)` exactly once (line
200 of the source, whether it succeeds or raises) — the `lru_cache`-wrapped
`_find_user` created in `__init__` is never consulted.  Returns the rewritten
text together with the number of external calls. -/
def processMentionsC (lookup : Str → Option Str) (text : Str) : Str × Nat :=
  (findMentionIds text).foldl
    (fun acc id =>
      match lookup id with
      | some name => (replaceAll (mentionTok id) ('@' :: '<' :: name ++ ['>']) acc.1,
          acc.2 + 1)
      | none => (acc.1, acc.2 + 1))
    (text, 0)

/-- One attempt of `\[(.*?)\|(.*?)\|smart-link\]` anchored at a `[`: group 1
runs to the first `|`, group 2 to the first following `|smart-link]`, neither
crossing a newline. -/
def trySmartLink (s : Str) : Option (Str × Str × Str) :=
  match s with
  | [] => none
  | c0 :: r1 =>
    if c0 = '[' then
      match findSplitNoNL (['|']) r1 with
      | some (t, r2) =>
        (match findSplitNoNL ("|smart-link]".toList) r2 with
         | some (u, rest) => some (t, u, rest)
         | none => none)
      | none => none
    else none

/-- `re.finditer` for the smart-link pattern: the `(text, url)` groups of all
matches, left to right, non-overlapping. -/
def findSmartLinksF : Nat → Str → List (Str × Str)
  | 0, _ => []
  | _ + 1, [] => []
  | fuel + 1, c :: cs =>
    match trySmartLink (c :: cs) with
    | some (t, u, rest) => (t, u) :: findSmartLinksF fuel rest
    | none => findSmartLinksF fuel cs

/-- All smart-link matches in the text. -/
def findSmartLinks (s : Str) : List (Str × Str) := findSmartLinksF s.length s

/-- `browse/([A-Z]+-\d+)` anchored at the current position. -/
def issueKeyAt (s : Str) : Option Str :=
  match matchLit ("browse/".toList) s with
  | none => none
  | some r1 =>
    match spanP Char.isUpper r1 with
    | (proj, rest1) =>
      if proj.isEmpty then none
      else
        match rest1 with
        | '-' :: r2 =>
          (match spanP Char.isDigit r2 with
           | (num, _) => if num.isEmpty then none else some (proj ++ '-' :: num))
        | _ => none

/-- `re.search(r"browse/([A-Z]+-\d+)", url)`: leftmost match's group. -/
def searchIssueKeyF : Nat → Str → Option Str
  | 0, _ => none
  | _ + 1, [] => none
  | fuel + 1, c :: cs =>
    match issueKeyAt (c :: cs) with
    | some k => some k
    | none => searchIssueKeyF fuel cs

/-- Leftmost issue key in a url. -/
def searchIssueKey (s : Str) : Option Str := searchIssueKeyF s.length s

/-- Closing `(.+?)(?:\?|$)` of the Confluence pattern, after its first
(`.`-matchable) character `c`: lazily close at the first `?`, at the end of
the string, or just before a single trailing newline. -/
def lazyTitleAux (c : Char) : Str → Option Str
  | [] => some [c]
  | '?' :: _ => some [c]
  | ['\n'] => some [c]
  | d :: ds => if d = '\n' then none else (lazyTitleAux d ds).map (c :: ·)

/-- Lazy `(.+?)(?:\?|$)` group. -/
def lazyTitle : Str → Option Str
  | [] => none
  | c :: cs => if c = '\n' then none else lazyTitleAux c cs

/-- Lazy `.+?/pages/\d+/` middle of the Confluence pattern: scan candidate
`/pages/` occurrences left to right (at offset at least one), requiring
digits, a slash and a lazily-closed title after each. -/
def confluencePagesScan : Nat → Str → Option Str
  | 0, _ => none
  | _ + 1, [] => none
  | fuel + 1, c :: cs =>
    if c = '\n' then none
    else
      match matchLit ("/pages/".toList) cs with
      | some r2 =>
        (match spanP Char.isDigit r2 with
         | (num, rest2) =>
           if num.isEmpty then confluencePagesScan fuel cs
           else
             match rest2 with
             | '/' :: r3 =>
               (match lazyTitle r3 with
                | some title => some title
                | none => confluencePagesScan fuel cs)
             | _ => confluencePagesScan fuel cs)
      | none => confluencePagesScan fuel cs

/-- `wiki/spaces/.+?/pages/\d+/(.+?)(?:\?|$)` anchored at the current
position; returns the title group. -/
def confluenceAt (s : Str) : Option Str :=
  match matchLit ("wiki/spaces/".toList) s with
  | none => none
  | some r1 => confluencePagesScan r1.length r1

/-- `re.search` for the Confluence wiki-link pattern. -/
def searchConfluenceF : Nat → Str → Option Str
  | 0, _ => none
  | _ + 1, [] => none
  | fuel + 1, c :: cs =>
    match confluenceAt (c :: cs) with
    | some t => some t
    | none => searchConfluenceF fuel cs

/-- Leftmost Confluence page title in a url. -/
def searchConfluence (s : Str) : Option Str := searchConfluenceF s.length s

/-- `re.sub(r"^[A-Z]+-\d+\s+", "", title)`: strip one leading issue key and
the following whitespace (anchored at the start of the string). -/
def stripIssuePre (s : Str) : Str :=
  match spanP Char.isUpper s with
  | (proj, rest1) =>
    if proj.isEmpty then s
    else
      match rest1 with
      | '-' :: r2 =>
        (match spanP Char.isDigit r2 with
         | (num, r3) =>
           if num.isEmpty then s
           else
             match spanP pyWs r3 with
             | (ws, r4) => if ws.isEmpty then s else r4)
      | _ => s

/-- The full matched smart-link literal. -/
def smartLinkFull (t u : Str) : Str := '[' :: t ++ '|' :: u ++ ("|smart-link]".toList)

/-- `_process_smart_links`: matches are located on the input text; each match
is classified (issue link / Confluence wiki link / generic) and every
occurrence of its literal is replaced accordingly.  `baseUrl` is the stored
`self.base_url`. -/
def processSmartLinks (baseUrl : Str) (text : Str) : Str :=
  (findSmartLinks text).foldl
    (fun acc tu =>
      let full := smartLinkFull tu.1 tu.2
      match searchIssueKey tu.2 with
      | some key =>
        replaceAll full
          ('[' :: key ++ ("](".toList) ++ baseUrl ++ ("/browse/".toList) ++ key ++ [')']) acc
      | none =>
        match searchConfluence tu.2 with
        | some title =>
          let readable := stripIssuePre (replaceAll (['+']) ([' ']) title)
          replaceAll full ('[' :: readable ++ ("](".toList) ++ tu.2 ++ [')']) acc
        | none =>
          let cleanUrl := (spanP (fun c => !(c = '?')) tu.2).1
          replaceAll full ('[' :: tu.1 ++ ("](".toList) ++ cleanUrl ++ [')']) acc)
    text

/-- `re.search(r"<[^>]+>", text)` of `_convert_html_to_markdown`. -/
def hasHtmlTag : Str → Bool
  | [] => false
  | c :: cs =>
    (if c = '<' then
      match spanP (fun x => !(x = '>')) cs with
      | (inner, '>' :: _) => !inner.isEmpty
      | _ => false
     else false) || hasHtmlTag cs

/-- `clean_jira_text`: mention pass, smart-link pass, wiki-to-Markdown pass,
embedded-HTML pass, final strip.  The external HTML-to-Markdown collaborator
(`BeautifulSoup` + `markdownify`) is abstracted as the parameter `md`; it is
only consulted when the tag pattern matches. -/
def clean_jira_text (lookup : Str → Option Str) (baseUrl : Str) (md : Str → Str)
    (text : Str) : Str :=
  if text = [] then []
  else
    let t1 := processMentions lookup text
    let t2 := processSmartLinks baseUrl t1
    let t3 := jira_to_markdown t2
    let t4 := if hasHtmlTag t3 then md t3 else t3
    stripChars t4

/-! ## User-reference cache (`_create_cached_find_user`)

`functools.lru_cache(maxsize=100)` semantics: a bounded map from the argument
to the result, most-recently-used first; a hit moves the key to the front and
performs no external call; a miss issues exactly one external call, inserts
at the front and evicts the least-recently-used entry beyond 100 keys. -/

/-- The cache state: entries most-recently-used first. -/
structure UserCache where
  entries : List (Str × Str)

/-- One call of the `lru_cache`-wrapped `cached_find_user`: the value, the
updated cache, and the number of external `jira_client.user` calls. -/
def cachedFindUser (user : Str → Str) (st : UserCache) (id : Str) : Str × UserCache × Nat :=
  match st.entries.lookup id with
  | some v => (v, ⟨(id, v) :: st.entries.filter (fun p => !(p.1 = id : Bool))⟩, 0)
  | none =>
    let v := user id
    (v, ⟨((id, v) :: st.entries).take 100⟩, 1)

/-- Sequential cache lookups. -/
def resolveMany (user : Str → Str) (st : UserCache) (ks : List Str) : UserCache :=
  ks.foldl (fun s k => (cachedFindUser user s k).2.1) st

/-! ## HTML mention resolver (`_process_user_mentions_in_soup`)

The parsed document is a tree of elements and text nodes.  BeautifulSoup
operations are embedded with an explicit fuel (instantiated with `sizeOf`,
which bounds the number of visited nodes): `find(name)` is the first
descendant element with that name in document (pre-)order, and
`get_text(strip=True)` concatenates the stripped text descendants. -/

/-- A parsed HTML/XML node. -/
inductive HNode where
  | elem (name : String) (attrs : List (String × String)) (children : List HNode)
  | htext (s : String)

/-- BeautifulSoup `find(name)`: first descendant element named `nm`, document
order (a node before its descendants before its siblings). -/
def findElemF (nm : String) : Nat → List HNode → Option HNode
  | 0, _ => none
  | _ + 1, [] => none
  | fuel + 1, HNode.htext _ :: rest => findElemF nm fuel rest
  | fuel + 1, HNode.elem n a ch :: rest =>
    if n = nm then some (HNode.elem n a ch)
    else
      match findElemF nm fuel ch with
      | some e => some e
      | none => findElemF nm fuel rest

/-- All text-node strings under a node list, document order. -/
def allTextF : Nat → List HNode → List String
  | 0, _ => []
  | _ + 1, [] => []
  | fuel + 1, HNode.htext s :: rest => s :: allTextF fuel rest
  | fuel + 1, HNode.elem _ _ ch :: rest => allTextF fuel ch ++ allTextF fuel rest

/-- Python `str.strip()` on a `String`. -/
def stripString (s : String) : String := String.mk (stripChars s.toList)

/-- BeautifulSoup `get_text(strip=True)`. -/
def getTextStrip (fuel : Nat) (ch : List HNode) : String :=
  String.join ((allTextF fuel ch).map stripString)

/-- Case 2 of `_process_user_mentions_in_soup`: a `ac:link-body` descendant
whose trimmed text contains `@`, and then the (re-found) first `ri:user`
descendant's `ri:account-id` attribute. -/
def linkMentionCase2F (fuel : Nat) (ch : List HNode) : Option String :=
  match findElemF "ac:link-body" fuel ch with
  | some (HNode.elem _ _ lbCh) =>
    if (getTextStrip fuel lbCh).toList.contains '@' then
      match findElemF "ri:user" fuel ch with
      | some (HNode.elem _ attrs _) => attrs.lookup "ri:account-id"
      | _ => none
    else none
  | _ => none

/-- The replacement decision of `_process_user_mentions_in_soup` for one
`ac:link` element with children `ch`: case 1 uses the first `ri:user`
descendant's `ri:account-id` attribute; otherwise case 2 applies. -/
def linkMentionF (fuel : Nat) (ch : List HNode) : Option String :=
  match findElemF "ri:user" fuel ch with
  | some (HNode.elem _ attrs _) =>
    (match attrs.lookup "ri:account-id" with
     | some accountId => some accountId
     | none => linkMentionCase2F fuel ch)
  | _ => linkMentionCase2F fuel ch

/-- The tree transformation of `_process_user_mentions_in_soup`: every
`ac:link` element for which a mention account id is found is replaced by the
plain text node `@user_<id>` (`_use_fallback_user_mention`); all other nodes
are kept, their children processed recursively. -/
def procSoupF : Nat → List HNode → List HNode
  | 0, ns => ns
  | _ + 1, [] => []
  | fuel + 1, HNode.htext s :: rest => HNode.htext s :: procSoupF fuel rest
  | fuel + 1, HNode.elem n a ch :: rest =>
    (if n = "ac:link" then
      match linkMentionF fuel ch with
      | some id => HNode.htext ("@user_" ++ id)
      | none => HNode.elem n a (procSoupF fuel ch)
     else HNode.elem n a (procSoupF fuel ch)) :: procSoupF fuel rest

/-- Modelled from the claim's wording (C9), shape 1: a direct user-reference
child carrying an account-id attribute. -/
def claimShapeDirect (ch : List HNode) : Bool :=
  ch.any fun n =>
    match n with
    | HNode.elem nm attrs _ => nm == "ri:user" && (attrs.lookup "ri:account-id").isSome
    | _ => false

/-- Modelled from the claim's wording (C9), shape 2: a link-body child whose
trimmed text contains `@`, plus a sibling user-reference child with an
account-id attribute. -/
def claimShapeSibling (fuel : Nat) (ch : List HNode) : Bool :=
  (ch.any fun n =>
    match n with
    | HNode.elem nm _ lbCh => nm == "ac:link-body" && (getTextStrip fuel lbCh).toList.contains '@'
    | _ => false) &&
  claimShapeDirect ch

/-- Modelled from the amended claim wording (C9): a "link" element encodes a
user mention exactly when its first document-order user-reference descendant
carries an account-id attribute, whose value is the mention's account id. -/
def specLinkMentionF (fuel : Nat) (ch : List HNode) : Option String :=
  match findElemF "ri:user" fuel ch with
  | some (HNode.elem _ attrs _) => attrs.lookup "ri:account-id"
  | _ => none

/-! ## Auxiliary predicates used by the theorem statements -/

/-- Inert characters (letters, digits, spaces): they start no rewrite rule
and appear in no rule's trigger literal. -/
def plainChar (c : Char) : Bool := alnum c || c = ' '

/-- Whether the emphasis rule (rule 2 of `jira_to_markdown`) would fire
anywhere in the text. -/
def jiraBoldHasF : Nat → Option Char → Str → Bool
  | 0, _, _ => false
  | _ + 1, _, [] => false
  | fuel + 1, prev, c :: cs =>
    if (c = '*' || c = '_') && !prevAlnum prev then
      match spanUntil c cs with
      | some _ => true
      | none => jiraBoldHasF fuel (some c) cs
    else jiraBoldHasF fuel (some c) cs

/-- "Contains no wiki-markup tokens": no pattern of `jira_to_markdown`
matches anywhere in the text (the strikethrough rule 10 is exempt: it is a
textual identity, and the dash convention is shared by both dialects). -/
def noWikiTokens (y : Str) : Bool :=
  ((splitLines y).all fun l =>
    (bqLineOpt l).isNone && (listLineOpt l).isNone && (headerLineOpt l).isNone &&
      !containsSub ("||".toList) l) &&
  !jiraBoldHasF y.length none y &&
  !hasMatch tryInlineCode y && !hasMatch tryCitation y && !hasMatch tryIns y &&
  !hasMatch trySup y && !hasMatch trySub y && !hasMatch tryCodeBlock y &&
  !hasMatch tryNoformat y && !hasMatch tryQuote y && !hasMatch tryImgAlt y &&
  !hasMatch tryImgParams y && !hasMatch tryImgPlain y && !hasMatch tryLinkPiped y &&
  !hasMatch tryLinkBare y && !hasMatch tryColor y

/-! ## General lemmas about the string machinery -/

theorem matchLit_eq_some_iff {lit s r : Str} : matchLit lit s = some r ↔ s = lit ++ r := by
  induction lit generalizing s with
  | nil => simp [matchLit]
  | cons l ls ih =>
    cases s with
    | nil => simp [matchLit]
    | cons c cs =>
      by_cases h : c = l
      · subst h
        simp [matchLit, ih]
      · rw [show matchLit (l :: ls) (c :: cs) = none from by simp [matchLit, h]]
        constructor
        · intro hh
          exact absurd hh (by simp)
        · intro hh
          rw [List.cons_append] at hh
          injection hh with h1 _
          exact absurd h1 h

theorem matchLit_append (lit r : Str) : matchLit lit (lit ++ r) = some r :=
  matchLit_eq_some_iff.mpr rfl

theorem matchLit_cons_none {l : Char} {ls : Str} {c : Char} {cs : Str} (h : c ≠ l) :
    matchLit (l :: ls) (c :: cs) = none := by
  simp [matchLit, h]

theorem isPrefixOf_cons_false {n0 : Char} {nt : Str} {c : Char} {cs : Str} (h : c ≠ n0) :
    (n0 :: nt).isPrefixOf (c :: cs) = false := by
  simp [List.isPrefixOf]
  intro hh
  exact absurd hh.symm h

theorem isPrefixOf_append_self (l r : Str) : l.isPrefixOf (l ++ r) = true := by
  induction l with
  | nil => simp [List.isPrefixOf]
  | cons x xs ih => simp [List.isPrefixOf, ih]

theorem substF_nil (tm : Str → Option (Str × Str)) (fuel : Nat) : substF tm fuel [] = [] := by
  cases fuel <;> rfl

theorem substF_cons_none {tm : Str → Option (Str × Str)} (fuel : Nat) {c : Char} {cs : Str}
    (h : tm (c :: cs) = none) : substF tm (fuel + 1) (c :: cs) = c :: substF tm fuel cs := by
  simp [substF, h]

theorem substF_cons_some {tm : Str → Option (Str × Str)} (fuel : Nat) {c : Char} {cs : Str}
    {repl rest : Str} (h : tm (c :: cs) = some (repl, rest)) :
    substF tm (fuel + 1) (c :: cs) = repl ++ substF tm fuel rest := by
  simp [substF, h]

/-- Every nonempty suffix failing to match makes a pass the identity. -/
theorem substF_eq_self {tm : Str → Option (Str × Str)} :
    ∀ (fuel : Nat) (s : Str), (∀ c cs, (c :: cs) <:+ s → tm (c :: cs) = none) →
      substF tm fuel s = s := by
  intro fuel
  induction fuel with
  | zero => intro s _; rfl
  | succ f ih =>
    intro s h
    cases s with
    | nil => rfl
    | cons c cs =>
      rw [substF_cons_none f (h c cs (List.suffix_refl _))]
      rw [ih cs (fun c' cs' hs => h c' cs' (hs.trans (List.suffix_cons c cs)))]

/-- Head-character form of `substF_eq_self`. -/
theorem substF_eq_self_of_head {tm : Str → Option (Str × Str)} {P : Char → Prop}
    (hP : ∀ c cs, P c → tm (c :: cs) = none) (fuel : Nat) (s : Str) (hs : ∀ c ∈ s, P c) :
    substF tm fuel s = s :=
  substF_eq_self fuel s (fun c cs hsuf => hP c cs (hs c (hsuf.subset (by simp))))

/-- Scanning passes over a match-free prefix. -/
theorem substF_append_none {tm : Str → Option (Str × Str)} :
    ∀ (a s : Str) (fuel : Nat), (∀ c cs, (c :: cs) <:+ a → tm (c :: cs ++ s) = none) →
      substF tm (a.length + fuel) (a ++ s) = a ++ substF tm fuel s := by
  intro a
  induction a with
  | nil => intro s fuel _; simp
  | cons x a' ih =>
    intro s fuel h
    have hx : tm (x :: (a' ++ s)) = none := h x a' (List.suffix_refl _)
    have hlen : (x :: a').length + fuel = (a'.length + fuel) + 1 := by
      simp [List.length_cons]
      omega
    rw [hlen]
    rw [show (x :: a') ++ s = x :: (a' ++ s) from rfl]
    rw [substF_cons_none _ hx]
    rw [ih s fuel (fun c cs hs => h c cs (hs.trans (List.suffix_cons x a')))]
    simp

/-- Head-character form of `substF_append_none`. -/
theorem substF_append_head {tm : Str → Option (Str × Str)} {P : Char → Prop}
    (hP : ∀ c cs, P c → tm (c :: cs) = none) (a s : Str) (fuel : Nat)
    (ha : ∀ c ∈ a, P c) :
    substF tm (a.length + fuel) (a ++ s) = a ++ substF tm fuel s :=
  substF_append_none a s fuel
    (fun c cs hsuf => hP c (cs ++ s) (ha c (hsuf.subset (by simp))))

/-- A pass whose every match replaces the consumed span by itself is the
identity. -/
theorem substF_eq_self_of_replSelf {tm : Str → Option (Str × Str)}
    (h : ∀ s repl rest, tm s = some (repl, rest) → repl ++ rest = s) :
    ∀ (fuel : Nat) (s : Str), substF tm fuel s = s := by
  intro fuel
  induction fuel with
  | zero => intro s; rfl
  | succ f ih =>
    intro s
    cases s with
    | nil => rfl
    | cons c cs =>
      cases htm : tm (c :: cs) with
      | none => rw [substF_cons_none f htm, ih]
      | some pr =>
        obtain ⟨repl, rest⟩ := pr
        rw [substF_cons_some f htm, ih, h _ _ _ htm]

/-- A pass with no match anywhere is the identity. -/
theorem substF_eq_self_of_not_hasMatch {tm : Str → Option (Str × Str)} :
    ∀ (fuel : Nat) (s : Str), hasMatchF tm fuel s = false → substF tm fuel s = s := by
  intro fuel
  induction fuel with
  | zero => intro s _; rfl
  | succ f ih =>
    intro s h
    cases s with
    | nil => rfl
    | cons c cs =>
      cases htm : tm (c :: cs) with
      | none =>
        rw [substF_cons_none f htm, ih cs (by simpa [hasMatchF, htm] using h)]
      | some pr =>
        exfalso
        simp [hasMatchF, htm] at h

theorem spanP_parts_append {p : Char → Bool} : ∀ s : Str, (spanP p s).1 ++ (spanP p s).2 = s := by
  intro s
  induction s with
  | nil => rfl
  | cons c cs ih =>
    by_cases h : p c
    · simp [spanP, h, ih]
    · simp [spanP, h]

theorem spanP_cons_false {p : Char → Bool} {c : Char} {cs : Str} (h : p c = false) :
    spanP p (c :: cs) = ([], c :: cs) := by
  simp [spanP, h]

theorem spanP_append_all {p : Char → Bool} (a : Str) (ha : ∀ c ∈ a, p c = true) (s : Str) :
    spanP p (a ++ s) = (a ++ (spanP p s).1, (spanP p s).2) := by
  induction a with
  | nil => simp
  | cons x a' ih =>
    have hx : p x = true := ha x (by simp)
    rw [show (x :: a') ++ s = x :: (a' ++ s) from rfl]
    rw [show spanP p (x :: (a' ++ s)) =
        (x :: (spanP p (a' ++ s)).1, (spanP p (a' ++ s)).2) from by simp [spanP, hx]]
    rw [ih (fun c hc => ha c (by simp [hc]))]
    simp

theorem spanP_all_none {p : Char → Bool} (a : Str) (ha : ∀ c ∈ a, p c = true) :
    spanP p a = (a, []) := by
  have := spanP_append_all a ha []
  simpa [spanP] using this

theorem findSplit_append_self {needle : Str} (hne : needle ≠ []) (r : Str) :
    findSplit needle (needle ++ r) = some ([], r) := by
  cases needle with
  | nil => exact absurd rfl hne
  | cons n0 nt =>
    have h1 : (n0 :: nt).isPrefixOf (n0 :: (nt ++ r)) = true :=
      isPrefixOf_append_self (n0 :: nt) r
    have h2 : List.drop (n0 :: nt).length (n0 :: (nt ++ r)) = r :=
      List.drop_left nt r
    show findSplit (n0 :: nt) (n0 :: (nt ++ r)) = some ([], r)
    simp [findSplit, h1, h2]

theorem findSplit_cons_cons {needle : Str} {n0 : Char} {nt : Str} (hn : needle = n0 :: nt)
    {c : Char} {cs : Str} (h : c ≠ n0) {pre rest : Str}
    (hrec : findSplit needle cs = some (pre, rest)) :
    findSplit needle (c :: cs) = some (c :: pre, rest) := by
  subst hn
  simp [findSplit, isPrefixOf_cons_false h, hrec]

theorem findSplit_append_plain {needle : Str} {n0 : Char} {nt : Str} (hn : needle = n0 :: nt)
    (a : Str) (ha : ∀ x ∈ a, x ≠ n0) {s : Str} {pre rest : Str}
    (h : findSplit needle s = some (pre, rest)) :
    findSplit needle (a ++ s) = some (a ++ pre, rest) := by
  induction a with
  | nil => simpa using h
  | cons x a' ih =>
    have := findSplit_cons_cons hn (ha x (by simp)) (ih (fun c hc => ha c (by simp [hc])))
    simpa using this

theorem findSplitNoNL_append_self {needle : Str} (hne : needle ≠ []) (r : Str) :
    findSplitNoNL needle (needle ++ r) = some ([], r) := by
  cases needle with
  | nil => exact absurd rfl hne
  | cons n0 nt =>
    have h1 : (n0 :: nt).isPrefixOf (n0 :: (nt ++ r)) = true :=
      isPrefixOf_append_self (n0 :: nt) r
    have h2 : List.drop (n0 :: nt).length (n0 :: (nt ++ r)) = r :=
      List.drop_left nt r
    show findSplitNoNL (n0 :: nt) (n0 :: (nt ++ r)) = some ([], r)
    simp [findSplitNoNL, h1, h2]

theorem findSplitNoNL_cons_cons {needle : Str} {n0 : Char} {nt : Str} (hn : needle = n0 :: nt)
    {c : Char} {cs : Str} (h : c ≠ n0) (hnl : c ≠ '\n') {pre rest : Str}
    (hrec : findSplitNoNL needle cs = some (pre, rest)) :
    findSplitNoNL needle (c :: cs) = some (c :: pre, rest) := by
  subst hn
  simp [findSplitNoNL, isPrefixOf_cons_false h, hnl, hrec]

theorem findSplitNoNL_append_plain {needle : Str} {n0 : Char} {nt : Str} (hn : needle = n0 :: nt)
    (a : Str) (ha : ∀ x ∈ a, x ≠ n0 ∧ x ≠ '\n') {s : Str} {pre rest : Str}
    (h : findSplitNoNL needle s = some (pre, rest)) :
    findSplitNoNL needle (a ++ s) = some (a ++ pre, rest) := by
  induction a with
  | nil => simpa using h
  | cons x a' ih =>
    have hx := ha x (by simp)
    have := findSplitNoNL_cons_cons hn hx.1 hx.2 (ih (fun c hc => ha c (by simp [hc])))
    simpa using this

theorem joinLines_cons_cons (c : Char) (l : Str) (ls : List Str) :
    joinLines ((c :: l) :: ls) = c :: joinLines (l :: ls) := by
  cases ls <;> rfl

theorem splitLines_ne_nil : ∀ s : Str, splitLines s ≠ [] := by
  intro s
  cases s with
  | nil => simp [splitLines]
  | cons c cs =>
    simp only [splitLines]
    cases h : splitLines cs with
    | nil => simp
    | cons l ls =>
      by_cases hc : c = '\n' <;> simp [hc]

theorem joinLines_splitLines : ∀ s : Str, joinLines (splitLines s) = s := by
  intro s
  induction s with
  | nil => rfl
  | cons c cs ih =>
    cases h : splitLines cs with
    | nil => exact absurd h (splitLines_ne_nil cs)
    | cons l ls =>
      by_cases hc : c = '\n'
      · subst hc
        rw [show splitLines ('\n' :: cs) = [] :: l :: ls from by simp [splitLines, h]]
        show '\n' :: joinLines (l :: ls) = '\n' :: cs
        rw [← h, ih]
      · rw [show splitLines (c :: cs) = (c :: l) :: ls from by simp [splitLines, h, hc]]
        rw [joinLines_cons_cons]
        rw [← h, ih]

theorem splitLines_no_nl : ∀ s : Str, '\n' ∉ s → splitLines s = [s] := by
  intro s
  induction s with
  | nil => intro _; rfl
  | cons c cs ih =>
    intro h
    have hc : c ≠ '\n' := fun hh => h (by simp [hh])
    have hcs := ih (fun hh => h (by simp [hh]))
    simp only [splitLines, hcs]
    simp [hc]

theorem splitLines_append_nl (a : Str) (ha : '\n' ∉ a) (b : Str) :
    splitLines (a ++ '\n' :: b) = a :: splitLines b := by
  induction a with
  | nil =>
    simp only [List.nil_append, splitLines]
    cases h : splitLines b with
    | nil => exact absurd h (splitLines_ne_nil b)
    | cons l ls => simp
  | cons x a' ih =>
    have hx : x ≠ '\n' := fun hh => ha (by simp [hh])
    have h' := ih (fun hh => ha (by simp [hh]))
    rw [show (x :: a') ++ '\n' :: b = x :: (a' ++ '\n' :: b) from rfl]
    simp only [splitLines, h']
    simp [hx]

theorem containsSub_eq_false_of_head {n0 : Char} {nt : Str} :
    ∀ s : Str, (∀ x ∈ s, x ≠ n0) → containsSub (n0 :: nt) s = false := by
  intro s
  induction s with
  | nil => intro _; rfl
  | cons c cs ih =>
    intro h
    simp only [containsSub]
    rw [isPrefixOf_cons_false (h c (by simp))]
    simpa using ih (fun x hx => h x (by simp [hx]))

theorem containsSub_of_here (needle r : Str) (hne : needle ≠ []) :
    containsSub needle (needle ++ r) = true := by
  cases needle with
  | nil => exact absurd rfl hne
  | cons n0 nt =>
    show containsSub (n0 :: nt) (n0 :: (nt ++ r)) = true
    simp only [containsSub]
    rw [show (n0 :: nt).isPrefixOf (n0 :: (nt ++ r)) = true from
      isPrefixOf_append_self (n0 :: nt) r]
    simp

theorem countC_append (x : Char) (a b : Str) : countC x (a ++ b) = countC x a + countC x b := by
  induction a with
  | nil => simp [countC]
  | cons c cs ih =>
    simp [countC, ih]
    omega

theorem countC_eq_zero (x : Char) (s : Str) (h : ∀ c ∈ s, c ≠ x) : countC x s = 0 := by
  induction s with
  | nil => rfl
  | cons c cs ih =>
    have hc : c ≠ x := h c (by simp)
    have h2 := ih (fun c' hc' => h c' (by simp [hc']))
    simp [countC, hc, h2]

/-! ## Per-rule "no match at this position" lemmas -/

theorem plainChar_ne {x t : Char} (hx : plainChar x = true) (ht : plainChar t = false) :
    x ≠ t := by
  intro h
  rw [h, ht] at hx
  exact Bool.noConfusion hx

theorem trySpanNot_none {openL : Str} {excl : Char} {min1 : Bool} {closeL : Str}
    {mk : Str → Str} {s : Str} (h : matchLit openL s = none) :
    trySpanNot openL excl min1 closeL mk s = none := by
  simp [trySpanNot, h]

theorem tryInlineCode_none {c : Char} {cs : Str} (h : c ≠ '{') :
    tryInlineCode (c :: cs) = none := by
  apply trySpanNot_none
  rw [show ("\x7b\x7b".toList) = '{' :: '{' :: [] from rfl]
  exact matchLit_cons_none h

theorem tryInlineCode_none2 {c2 : Char} {cs : Str} (h : c2 ≠ '{') :
    tryInlineCode ('{' :: c2 :: cs) = none := by
  apply trySpanNot_none
  rw [show ("\x7b\x7b".toList) = '{' :: '{' :: [] from rfl]
  simp [matchLit, h]

theorem tryCitation_none {c : Char} {cs : Str} (h : c ≠ '?') : tryCitation (c :: cs) = none := by
  rw [tryCitation, show ("??".toList) = '?' :: '?' :: [] from rfl,
    matchLit_cons_none h]

theorem tryIns_none {c : Char} {cs : Str} (h : c ≠ '+') : tryIns (c :: cs) = none :=
  trySpanNot_none (matchLit_cons_none h)

theorem trySup_none {c : Char} {cs : Str} (h : c ≠ '^') : trySup (c :: cs) = none :=
  trySpanNot_none (matchLit_cons_none h)

theorem trySub_none {c : Char} {cs : Str} (h : c ≠ '~') : trySub (c :: cs) = none :=
  trySpanNot_none (matchLit_cons_none h)

theorem tryCodeBlock_none {c : Char} {cs : Str} (h : c ≠ '{') : tryCodeBlock (c :: cs) = none := by
  rw [tryCodeBlock, show ("\x7bcode".toList) = '{' :: 'c' :: 'o' :: 'd' :: 'e' :: [] from rfl,
    matchLit_cons_none h]

theorem tryLazyBlock_none {openL closeL : Str} {mk : Str → Str} {s : Str}
    (h : matchLit openL s = none) : tryLazyBlock openL closeL mk s = none := by
  simp [tryLazyBlock, h]

theorem tryNoformat_none {c : Char} {cs : Str} (h : c ≠ '{') : tryNoformat (c :: cs) = none :=
  tryLazyBlock_none (by
    rw [show ("\x7bnoformat\x7d".toList) =
      '{' :: 'n' :: 'o' :: 'f' :: 'o' :: 'r' :: 'm' :: 'a' :: 't' :: '}' :: [] from rfl]
    exact matchLit_cons_none h)

theorem tryQuote_none {c : Char} {cs : Str} (h : c ≠ '{') : tryQuote (c :: cs) = none := by
  rw [tryQuote, show ("\x7bquote\x7d".toList) =
    '{' :: 'q' :: 'u' :: 'o' :: 't' :: 'e' :: '}' :: [] from rfl, matchLit_cons_none h]

theorem tryImgAlt_none {c : Char} {cs : Str} (h : c ≠ '!') : tryImgAlt (c :: cs) = none := by
  simp [tryImgAlt, h]

theorem tryImgParams_none {c : Char} {cs : Str} (h : c ≠ '!') : tryImgParams (c :: cs) = none := by
  simp [tryImgParams, h]

theorem tryImgPlain_none {c : Char} {cs : Str} (h : c ≠ '!') : tryImgPlain (c :: cs) = none := by
  simp [tryImgPlain, h]

theorem tryLinkPiped_none {c : Char} {cs : Str} (h : c ≠ '[') : tryLinkPiped (c :: cs) = none := by
  simp [tryLinkPiped, h]

theorem tryLinkBare_none {c : Char} {cs : Str} (h : c ≠ '[') : tryLinkBare (c :: cs) = none := by
  cases cs with
  | nil => rfl
  | cons c2 cs2 => simp [tryLinkBare, h]

theorem tryColor_none {c : Char} {cs : Str} (h : c ≠ '{') : tryColor (c :: cs) = none := by
  rw [tryColor, show ("\x7bcolor:".toList) =
    '{' :: 'c' :: 'o' :: 'l' :: 'o' :: 'r' :: ':' :: [] from rfl, matchLit_cons_none h]

theorem tryMdCodeBlock_none {c : Char} {cs : Str} (h : c ≠ '`') :
    tryMdCodeBlock (c :: cs) = none := by
  rw [tryMdCodeBlock, show ("```".toList) = '`' :: '`' :: '`' :: [] from rfl,
    matchLit_cons_none h]

theorem tryMdInline_none {c : Char} {cs : Str} (h : c ≠ '`') : tryMdInline (c :: cs) = none :=
  trySpanNot_none (matchLit_cons_none h)

theorem tryMdBold_none {c : Char} {cs : Str} (h1 : c ≠ '*') (h2 : c ≠ '_') :
    tryMdBold (c :: cs) = none := by
  have : emChar c = false := by simp [emChar, h1, h2]
  simp [tryMdBold, spanP_cons_false this]

theorem tryTag_none {openL closeL wrap : Str} {s : Str} (h : matchLit openL s = none) :
    tryTag openL closeL wrap s = none := by
  simp [tryTag, h]

theorem tryTag_none_head {o0 : Char} {ot closeL wrap : Str} {c : Char} {cs : Str} (h : c ≠ o0) :
    tryTag (o0 :: ot) closeL wrap (c :: cs) = none :=
  tryTag_none (matchLit_cons_none h)

theorem tryMdColor_none {c : Char} {cs : Str} (h : c ≠ '<') : tryMdColor (c :: cs) = none := by
  rw [tryMdColor, show ("<span style=\"color:".toList) =
    '<' :: 's' :: 'p' :: 'a' :: 'n' :: ' ' :: 's' :: 't' :: 'y' :: 'l' :: 'e' :: '=' ::
      '\"' :: 'c' :: 'o' :: 'l' :: 'o' :: 'r' :: ':' :: [] from rfl, matchLit_cons_none h]

theorem tryMdStrike_none {c : Char} {cs : Str} (h : c ≠ '~') : tryMdStrike (c :: cs) = none :=
  tryTag_none (by rw [show ("~~".toList) = '~' :: '~' :: [] from rfl]
                  exact matchLit_cons_none h)

theorem tryMdImgNoAlt_none {c : Char} {cs : Str} (h : c ≠ '!') :
    tryMdImgNoAlt (c :: cs) = none := by
  rw [tryMdImgNoAlt, show ("![](".toList) = '!' :: '[' :: ']' :: '(' :: [] from rfl,
    matchLit_cons_none h]

theorem tryMdImgAlt_none {c : Char} {cs : Str} (h : c ≠ '!') : tryMdImgAlt (c :: cs) = none := by
  rw [tryMdImgAlt, show ("![".toList) = '!' :: '[' :: [] from rfl, matchLit_cons_none h]

theorem tryMdLink_none {c : Char} {cs : Str} (h : c ≠ '[') : tryMdLink (c :: cs) = none := by
  simp [tryMdLink, h]

theorem tryMdAuto_none {c : Char} {cs : Str} (h : c ≠ '<') : tryMdAuto (c :: cs) = none :=
  trySpanNot_none (matchLit_cons_none h)

theorem replTM_none {needle repl : Str} {n0 : Char} {nt : Str} (hn : needle = n0 :: nt)
    {c : Char} {cs : Str} (h : c ≠ n0) : replTM needle repl (c :: cs) = none := by
  subst hn
  simp [replTM, isPrefixOf_cons_false h]

theorem replTM_here (needle repl r : Str) (_hne : needle ≠ []) :
    replTM needle repl (needle ++ r) = some (repl, r) := by
  simp [replTM, isPrefixOf_append_self, List.drop_left]

theorem trySmartLink_none {c : Char} {cs : Str} (h : c ≠ '[') :
    trySmartLink (c :: cs) = none := by
  simp [trySmartLink, h]

/-- Strikethrough (rule 10) always replaces a match by itself. -/
theorem tryStrike_replSelf (s repl rest : Str) (h : tryStrike s = some (repl, rest)) :
    repl ++ rest = s := by
  unfold tryStrike trySpanNot at h
  cases hm : matchLit (['-']) s with
  | none => simp [hm] at h
  | some r1 =>
    simp only [hm] at h
    have hs : s = '-' :: r1 := by simpa using matchLit_eq_some_iff.mp hm
    cases hsp : spanP (fun c => !(c = '-')) r1 with
    | mk content rest1 =>
      simp only [hsp, Bool.false_and, Bool.false_eq_true, if_false] at h
      cases hm2 : matchLit (['-']) rest1 with
      | none => simp [hm2] at h
      | some r2 =>
        simp only [hm2, Option.some.injEq, Prod.mk.injEq] at h
        obtain ⟨h1, h2⟩ := h
        have hr1 : rest1 = '-' :: r2 := by simpa using matchLit_eq_some_iff.mp hm2
        have hparts : content ++ rest1 = r1 := by
          have hp := spanP_parts_append (p := fun c => !(c = '-')) r1
          rw [hsp] at hp
          exact hp
        subst h1
        subst h2
        rw [hs, ← hparts, hr1]
        simp

/-! ## Lemmas about the emphasis pass and the line passes -/

theorem jiraBoldF_nil (fuel : Nat) (prev : Option Char) : jiraBoldF fuel prev [] = [] := by
  cases fuel <;> rfl

theorem jiraBoldF_eq_self : ∀ (s : Str), (∀ x ∈ s, x ≠ '*' ∧ x ≠ '_') →
    ∀ (fuel : Nat) (prev : Option Char), jiraBoldF fuel prev s = s := by
  intro s
  induction s with
  | nil => intro _ fuel prev; exact jiraBoldF_nil fuel prev
  | cons c cs ih =>
    intro h fuel prev
    cases fuel with
    | zero => rfl
    | succ f =>
      have hc := h c (by simp)
      simp only [jiraBoldF]
      rw [if_neg (by simp [hc.1, hc.2])]
      rw [ih (fun x hx => h x (by simp [hx])) f (some c)]

theorem spanUntil_append {m : Char} (w : Str) (hw : ∀ x ∈ w, x ≠ m ∧ x ≠ '\n') (r : Str) :
    spanUntil m (w ++ m :: r) = some (w, r) := by
  induction w with
  | nil => simp [spanUntil]
  | cons x w' ih =>
    have hx := hw x (by simp)
    rw [show (x :: w') ++ m :: r = x :: (w' ++ m :: r) from rfl]
    simp [spanUntil, hx.1, hx.2, ih (fun y hy => hw y (by simp [hy]))]

theorem jiraBoldF_fire (fuel : Nat) (prev : Option Char) (hprev : prevAlnum prev = false)
    (m : Char) (hm : m = '*' ∨ m = '_') (w r : Str) (hw : ∀ x ∈ w, x ≠ m ∧ x ≠ '\n') :
    jiraBoldF (fuel + 1) prev (m :: (w ++ m :: r)) =
      (if m = '*' then '*' :: '*' :: w ++ ['*', '*'] else '*' :: w ++ ['*'])
        ++ jiraBoldF fuel (some m) r := by
  have hspan := spanUntil_append w hw r
  simp only [jiraBoldF]
  rw [if_pos (by rcases hm with h | h <;> simp [h, hprev])]
  rw [hspan]

theorem jiraBoldHasF_eq_self : ∀ (fuel : Nat) (prev : Option Char) (s : Str),
    jiraBoldHasF fuel prev s = false → jiraBoldF fuel prev s = s := by
  intro fuel
  induction fuel with
  | zero => intro prev s _; rfl
  | succ f ih =>
    intro prev s h
    cases s with
    | nil => rfl
    | cons c cs =>
      by_cases hc : ((c = '*' || c = '_') && !prevAlnum prev) = true
      · rw [show jiraBoldHasF (f + 1) prev (c :: cs)
            = (match spanUntil c cs with
               | some _ => true
               | none => jiraBoldHasF f (some c) cs) from by
          simp only [jiraBoldHasF]
          rw [if_pos hc]] at h
        simp only [jiraBoldF]
        rw [if_pos hc]
        cases hs : spanUntil c cs with
        | some pr =>
          rw [hs] at h
          simp at h
        | none =>
          rw [hs] at h
          show c :: jiraBoldF f (some c) cs = c :: cs
          rw [ih (some c) cs h]
      · rw [show jiraBoldHasF (f + 1) prev (c :: cs) = jiraBoldHasF f (some c) cs from by
          simp only [jiraBoldHasF]
          rw [if_neg hc]] at h
        simp only [jiraBoldF]
        rw [if_neg hc]
        rw [ih (some c) cs h]

theorem onLines_no_nl (f : Str → Option Str) (s : Str) (h : '\n' ∉ s) :
    onLines f s = lineApply f s := by
  unfold onLines
  rw [splitLines_no_nl s h]
  rfl

theorem onLines_two (f : Str → Option Str) (a b : Str) (ha : '\n' ∉ a) (hb : '\n' ∉ b) :
    onLines f (a ++ '\n' :: b) = lineApply f a ++ '\n' :: lineApply f b := by
  unfold onLines
  rw [splitLines_append_nl a ha, splitLines_no_nl b hb]
  rfl

theorem map_lineApply_id (f : Str → Option Str) :
    ∀ ls : List Str, (∀ l ∈ ls, f l = none) → ls.map (lineApply f) = ls := by
  intro ls
  induction ls with
  | nil => intro _; rfl
  | cons l rest ih =>
    intro h
    simp only [List.map_cons]
    rw [ih (fun l' hl => h l' (by simp [hl]))]
    simp [lineApply, h l (by simp)]

theorem onLines_eq_self (f : Str → Option Str) (y : Str)
    (h : ∀ l ∈ splitLines y, f l = none) : onLines f y = y := by
  unfold onLines
  rw [map_lineApply_id f _ h, joinLines_splitLines]

theorem convertJiraTables_id (ls : List Str)
    (h : ∀ l ∈ ls, containsSub ("||".toList) l = false) : convertJiraTables ls = ls := by
  induction ls with
  | nil => rfl
  | cons l rest ih =>
    simp only [convertJiraTables]
    rw [h l (by simp)]
    simp only [Bool.false_eq_true, if_false]
    rw [ih (fun l' hl => h l' (by simp [hl]))]

theorem mdTablePass_id (ls : List Str) (h : ∀ l ∈ ls, sepRowMatch l = false) :
    mdTablePass ls = ls := by
  induction ls with
  | nil => rfl
  | cons l1 rest ih =>
    cases rest with
    | nil => rfl
    | cons l2 rest2 =>
      simp only [mdTablePass]
      rw [h l2 (by simp)]
      simp only [Bool.false_eq_true, if_false]
      rw [ih (fun l' hl => h l' (by simp [hl]))]

/-! ## Suffix decomposition (for "no pattern matches anywhere" arguments) -/

theorem suffix_append_cases {α : Type} {t a s : List α} (h : t <:+ a ++ s) :
    t <:+ s ∨ ∃ a1, a1 <:+ a ∧ a1 ≠ [] ∧ t = a1 ++ s := by
  induction a with
  | nil => left; simpa using h
  | cons x a' ih =>
    rw [List.cons_append] at h
    rcases List.suffix_cons_iff.mp h with h1 | h2
    · right
      exact ⟨x :: a', List.suffix_refl _, by simp, by simpa using h1⟩
    · rcases ih h2 with h3 | ⟨a1, h4, h5, h6⟩
      · left; exact h3
      · right
        exact ⟨a1, h4.trans (List.suffix_cons x a'), h5, h6⟩

theorem suffixNone_plain {Q : Str → Prop} (hQ : ∀ x r, plainChar x = true → Q (x :: r))
    (c : Str) (hcp : ∀ x ∈ c, plainChar x = true) (s : Str)
    (hs : ∀ t, t <:+ s → t ≠ [] → Q t) :
    ∀ t, t <:+ (c ++ s) → t ≠ [] → Q t := by
  intro t ht hne
  rcases suffix_append_cases ht with h | ⟨a1, ha1, hne1, rfl⟩
  · exact hs t h hne
  · cases a1 with
    | nil => exact absurd rfl hne1
    | cons x a1' => exact hQ x _ (hcp x (ha1.subset (by simp)))

theorem suffix_mem_tails {t l : Str} (h : t <:+ l) : t ∈ l.tails :=
  (List.mem_tails _ _).mpr h

/-! ## Head lemmas for the line rules -/

theorem lineApply_none {f : Str → Option Str} {l : Str} (h : f l = none) :
    lineApply f l = l := by
  simp [lineApply, h]

theorem bqLineOpt_none {c : Char} {r : Str} (h : c ≠ 'b') : bqLineOpt (c :: r) = none := by
  rw [bqLineOpt, show ("bq.".toList) = 'b' :: 'q' :: '.' :: [] from rfl, matchLit_cons_none h]

theorem listLineOpt_none {c : Char} {r : Str} (h : bulletChar c = false) :
    listLineOpt (c :: r) = none := by
  simp [listLineOpt, spanP_cons_false h]

theorem headerLineOpt_none {c : Char} (h : c ≠ 'h') :
    ∀ r : Str, headerLineOpt (c :: r) = none := by
  intro r
  rcases r with _ | ⟨d, _ | ⟨c2, rest⟩⟩ <;> simp [headerLineOpt, h]

theorem atxLineOpt_none {c : Char} {r : Str} (h : c ≠ '#') : atxLineOpt (c :: r) = none := by
  rw [atxLineOpt, spanP_cons_false (p := fun x => decide (x = '#')) (by simp [h])]
  simp

theorem bulletLineOpt_none {c : Char} {r : Str} (h1 : pyWs c = false) (h2 : c ≠ '-') :
    bulletLineOpt (c :: r) = none := by
  rw [bulletLineOpt, spanP_cons_false h1]
  rw [show ("- ".toList) = '-' :: ' ' :: [] from rfl]
  simp [matchLit_cons_none h2]

theorem numberedLineOpt_none {c : Char} {r : Str} (h : pyWs c = false) :
    numberedLineOpt (c :: r) = none := by
  rw [numberedLineOpt, spanP_cons_false h]
  simp

theorem setextPass_two (l1 l2 : Str) (h : l2.all setextChar = false) :
    setextPass [l1, l2] = [l1, l2] := by
  simp [setextPass, h]

theorem sepRowMatch_false {c : Char} {r : Str} (h : c ≠ '|') : sepRowMatch (c :: r) = false := by
  simp [sepRowMatch, h]

/-! ## Pipeline-shape lemmas and the fenced-code-block computations -/

theorem jira_to_markdown_pipeline (s : Str) (h : s ≠ []) :
    jira_to_markdown s =
      joinLines (convertJiraTables (splitLines
        (subst tryColor
        (subst tryLinkBare
        (subst tryLinkPiped
        (subst tryImgPlain
        (subst tryImgParams
        (subst tryImgAlt
        (subst tryQuote
        (subst tryNoformat
        (subst tryCodeBlock
        (subst tryStrike
        (subst trySub
        (subst trySup
        (subst tryIns
        (subst tryCitation
        (subst tryInlineCode
        (onLines headerLineOpt
        (onLines listLineOpt
        (jiraBold
        (onLines bqLineOpt s))))))))))))))))))))) := by
  unfold jira_to_markdown
  rw [if_neg h]

theorem markdown_to_jira_pipeline (s : Str) (h : s ≠ []) :
    markdown_to_jira s =
      joinLines (mdTablePass (splitLines
        (subst tryMdAuto
        (subst tryMdLink
        (subst tryMdImgAlt
        (subst tryMdImgNoAlt
        (subst tryMdStrike
        (subst tryMdColor
        (subst (tryTag ("<sub>".toList) ("</sub>".toList) (['~']))
        (subst (tryTag ("<sup>".toList) ("</sup>".toList) (['^']))
        (subst (tryTag ("<ins>".toList) ("</ins>".toList) (['+']))
        (subst (tryTag ("<del>".toList) ("</del>".toList) (['-']))
        (subst (tryTag ("<cite>".toList) ("</cite>".toList) ("??".toList))
        (onLines numberedLineOpt
        (onLines bulletLineOpt
        (subst tryMdBold
        (onLines atxLineOpt
        (joinLines (setextPass (splitLines
        (subst tryMdInline
        (subst tryMdCodeBlock s)))))))))))))))))))))) := by
  unfold markdown_to_jira
  rw [if_neg h]

/-- Character trichotomy helper: a character that is one of two specials or
plain differs from any character that is neither. -/
theorem tri_char_ne {x a b : Char} (hx : x = a ∨ x = b ∨ plainChar x = true)
    {t : Char} (h1 : t ≠ a) (h2 : t ≠ b) (h3 : plainChar t = false) : x ≠ t := by
  rcases hx with rfl | rfl | hp
  · exact Ne.symm h1
  · exact Ne.symm h2
  · exact plainChar_ne hp h3

/-- A match at the head that consumes the whole text. -/
theorem subst_head_all {tm : Str → Option (Str × Str)} {c0 : Char} {cs repl : Str}
    (h : tm (c0 :: cs) = some (repl, [])) : subst tm (c0 :: cs) = repl := by
  show substF tm ((c0 :: cs).length) (c0 :: cs) = repl
  rw [List.length_cons]
  rw [substF_cons_some _ h]
  rw [substF_nil, List.append_nil]

/-- The code-block rule at a `{code}` head (specialized equation). -/
theorem tryCodeBlock_at_head (X : Str) :
    tryCodeBlock ('{' :: 'c' :: 'o' :: 'd' :: 'e' :: '}' :: X)
      = (match findSplit ("\x7bcode\x7d".toList) X with
         | some (content, rest) =>
           some ('`' :: '`' :: '`' :: ([] : Str) ++ '\n' :: content ++
             '\n' :: '`' :: '`' :: '`' :: [], rest)
         | none => none) := rfl

/-- No `{{` inline-code match anywhere in `{code}<plain>{code}`. -/
theorem tryInlineCode_noMatch_fence (c : Str) (hc : ∀ x ∈ c, plainChar x = true) :
    ∀ t, t <:+ (("\x7bcode\x7d".toList) ++ c ++ ("\x7bcode\x7d".toList)) → t ≠ [] →
      tryInlineCode t = none := by
  have hlit : ∀ (r : Str), ∀ t, t <:+ ("\x7bcode\x7d".toList) → t ≠ [] →
      tryInlineCode (t ++ r) = none := by
    intro r t ht hne2
    have hmem := suffix_mem_tails ht
    rw [show ("\x7bcode\x7d".toList) = '{' :: 'c' :: 'o' :: 'd' :: 'e' :: '}' :: [] from rfl]
      at hmem
    simp [List.tails] at hmem
    rcases hmem with rfl | rfl | rfl | rfl | rfl | rfl | rfl
    · exact tryInlineCode_none2 (by decide)
    · exact tryInlineCode_none (by decide)
    · exact tryInlineCode_none (by decide)
    · exact tryInlineCode_none (by decide)
    · exact tryInlineCode_none (by decide)
    · exact tryInlineCode_none (by decide)
    · exact absurd rfl hne2
  intro t ht hne2
  rw [List.append_assoc] at ht
  rcases suffix_append_cases ht with h | ⟨a1, ha1, hne1, rfl⟩
  · refine suffixNone_plain (Q := fun t' => tryInlineCode t' = none)
      (fun x r hx => tryInlineCode_none (plainChar_ne hx (by decide)))
      c hc _ ?_ t h hne2
    intro t' ht' hne'
    have := hlit [] t' ht' hne'
    simpa using this
  · exact hlit _ a1 ha1 hne1

/-- `jira_to_markdown` on a `{code}` block with inert content: the only rule
that fires is the code-block rule. -/
theorem fence_j2m (c : Str) (hc : ∀ x ∈ c, plainChar x = true) :
    jira_to_markdown (("\x7bcode\x7d".toList) ++ c ++ ("\x7bcode\x7d".toList))
      = ("```\n".toList) ++ c ++ ("\n```".toList) := by
  have hL : ("\x7bcode\x7d".toList) = '{' :: 'c' :: 'o' :: 'd' :: 'e' :: '}' :: [] := rfl
  have hchar : ∀ x ∈ (("\x7bcode\x7d".toList) ++ c ++ ("\x7bcode\x7d".toList)),
      x = '{' ∨ x = '}' ∨ plainChar x = true := by
    intro x hx
    rcases List.mem_append.mp hx with h1 | h2
    · rcases List.mem_append.mp h1 with h3 | h4
      · rw [hL] at h3
        fin_cases h3 <;> decide
      · exact Or.inr (Or.inr (hc x h4))
    · rw [hL] at h2
      fin_cases h2 <;> decide
  have hneT : ∀ (t : Char), t ≠ '{' → t ≠ '}' → plainChar t = false →
      ∀ x ∈ (("\x7bcode\x7d".toList) ++ c ++ ("\x7bcode\x7d".toList)), x ≠ t :=
    fun t h1 h2 h3 x hx => tri_char_ne (hchar x hx) h1 h2 h3
  have hne : (("\x7bcode\x7d".toList) ++ c ++ ("\x7bcode\x7d".toList)) ≠ [] := by
    rw [hL]
    simp
  have hnl : '\n' ∉ (("\x7bcode\x7d".toList) ++ c ++ ("\x7bcode\x7d".toList)) :=
    fun hmem => (hneT '\n' (by decide) (by decide) (by decide) _ hmem) rfl
  have e1 : onLines bqLineOpt (("\x7bcode\x7d".toList) ++ c ++ ("\x7bcode\x7d".toList))
      = (("\x7bcode\x7d".toList) ++ c ++ ("\x7bcode\x7d".toList)) := by
    rw [onLines_no_nl _ _ hnl]
    exact lineApply_none (bqLineOpt_none (by decide))
  have e2 : jiraBold (("\x7bcode\x7d".toList) ++ c ++ ("\x7bcode\x7d".toList))
      = (("\x7bcode\x7d".toList) ++ c ++ ("\x7bcode\x7d".toList)) :=
    jiraBoldF_eq_self _
      (fun x hx => ⟨hneT '*' (by decide) (by decide) (by decide) x hx,
        hneT '_' (by decide) (by decide) (by decide) x hx⟩) _ _
  have e3 : onLines listLineOpt (("\x7bcode\x7d".toList) ++ c ++ ("\x7bcode\x7d".toList))
      = (("\x7bcode\x7d".toList) ++ c ++ ("\x7bcode\x7d".toList)) := by
    rw [onLines_no_nl _ _ hnl]
    exact lineApply_none (listLineOpt_none (by decide))
  have e4 : onLines headerLineOpt (("\x7bcode\x7d".toList) ++ c ++ ("\x7bcode\x7d".toList))
      = (("\x7bcode\x7d".toList) ++ c ++ ("\x7bcode\x7d".toList)) := by
    rw [onLines_no_nl _ _ hnl]
    exact lineApply_none (headerLineOpt_none (by decide) _)
  have e5 : subst tryInlineCode (("\x7bcode\x7d".toList) ++ c ++ ("\x7bcode\x7d".toList))
      = (("\x7bcode\x7d".toList) ++ c ++ ("\x7bcode\x7d".toList)) :=
    substF_eq_self _ _ (fun c' cs' hsuf => tryInlineCode_noMatch_fence c hc _ hsuf (by simp))
  have e6 : subst tryCitation (("\x7bcode\x7d".toList) ++ c ++ ("\x7bcode\x7d".toList))
      = (("\x7bcode\x7d".toList) ++ c ++ ("\x7bcode\x7d".toList)) :=
    substF_eq_self_of_head
      (fun x cs hx => tryCitation_none (tri_char_ne hx (by decide) (by decide) (by decide)))
      _ _ hchar
  have e7 : subst tryIns (("\x7bcode\x7d".toList) ++ c ++ ("\x7bcode\x7d".toList))
      = (("\x7bcode\x7d".toList) ++ c ++ ("\x7bcode\x7d".toList)) :=
    substF_eq_self_of_head
      (fun x cs hx => tryIns_none (tri_char_ne hx (by decide) (by decide) (by decide)))
      _ _ hchar
  have e8 : subst trySup (("\x7bcode\x7d".toList) ++ c ++ ("\x7bcode\x7d".toList))
      = (("\x7bcode\x7d".toList) ++ c ++ ("\x7bcode\x7d".toList)) :=
    substF_eq_self_of_head
      (fun x cs hx => trySup_none (tri_char_ne hx (by decide) (by decide) (by decide)))
      _ _ hchar
  have e9 : subst trySub (("\x7bcode\x7d".toList) ++ c ++ ("\x7bcode\x7d".toList))
      = (("\x7bcode\x7d".toList) ++ c ++ ("\x7bcode\x7d".toList)) :=
    substF_eq_self_of_head
      (fun x cs hx => trySub_none (tri_char_ne hx (by decide) (by decide) (by decide)))
      _ _ hchar
  have e10 : subst tryStrike (("\x7bcode\x7d".toList) ++ c ++ ("\x7bcode\x7d".toList))
      = (("\x7bcode\x7d".toList) ++ c ++ ("\x7bcode\x7d".toList)) :=
    substF_eq_self_of_replSelf tryStrike_replSelf _ _
  have hfs : findSplit ("\x7bcode\x7d".toList) (c ++ ("\x7bcode\x7d".toList))
      = some (c, []) := by
    have h0 := @findSplit_append_self ("\x7bcode\x7d".toList) (by rw [hL]; simp) []
    rw [List.append_nil] at h0
    have h1 := findSplit_append_plain hL c
      (fun x hx => plainChar_ne (hc x hx) (by decide)) h0
    simpa using h1
  have hfire : tryCodeBlock (("\x7bcode\x7d".toList) ++ c ++ ("\x7bcode\x7d".toList))
      = some (("```\n".toList) ++ c ++ ("\n```".toList), []) := by
    have h1 := tryCodeBlock_at_head (c ++ ("\x7bcode\x7d".toList))
    rw [hfs] at h1
    rw [show (("\x7bcode\x7d".toList) ++ c ++ ("\x7bcode\x7d".toList))
      = '{' :: 'c' :: 'o' :: 'd' :: 'e' :: '}' :: (c ++ ("\x7bcode\x7d".toList)) from by
        rw [hL]; simp]
    rw [h1]
    simp
  have ecode : subst tryCodeBlock (("\x7bcode\x7d".toList) ++ c ++ ("\x7bcode\x7d".toList))
      = ("```\n".toList) ++ c ++ ("\n```".toList) := by
    rw [show (("\x7bcode\x7d".toList) ++ c ++ ("\x7bcode\x7d".toList))
      = '{' :: 'c' :: 'o' :: 'd' :: 'e' :: '}' :: (c ++ ("\x7bcode\x7d".toList)) from by
        rw [hL]; simp] at hfire ⊢
    exact subst_head_all hfire
  have hchar2 : ∀ x ∈ (("```\n".toList) ++ c ++ ("\n```".toList)),
      x = '`' ∨ x = '\n' ∨ plainChar x = true := by
    intro x hx
    rcases List.mem_append.mp hx with h1 | h2
    · rcases List.mem_append.mp h1 with h3 | h4
      · fin_cases h3 <;> decide
      · exact Or.inr (Or.inr (hc x h4))
    · fin_cases h2 <;> decide
  have e12 : subst tryNoformat (("```\n".toList) ++ c ++ ("\n```".toList))
      = (("```\n".toList) ++ c ++ ("\n```".toList)) :=
    substF_eq_self_of_head
      (fun x cs hx => tryNoformat_none (tri_char_ne hx (by decide) (by decide) (by decide)))
      _ _ hchar2
  have e13 : subst tryQuote (("```\n".toList) ++ c ++ ("\n```".toList))
      = (("```\n".toList) ++ c ++ ("\n```".toList)) :=
    substF_eq_self_of_head
      (fun x cs hx => tryQuote_none (tri_char_ne hx (by decide) (by decide) (by decide)))
      _ _ hchar2
  have e14 : subst tryImgAlt (("```\n".toList) ++ c ++ ("\n```".toList))
      = (("```\n".toList) ++ c ++ ("\n```".toList)) :=
    substF_eq_self_of_head
      (fun x cs hx => tryImgAlt_none (tri_char_ne hx (by decide) (by decide) (by decide)))
      _ _ hchar2
  have e15 : subst tryImgParams (("```\n".toList) ++ c ++ ("\n```".toList))
      = (("```\n".toList) ++ c ++ ("\n```".toList)) :=
    substF_eq_self_of_head
      (fun x cs hx => tryImgParams_none (tri_char_ne hx (by decide) (by decide) (by decide)))
      _ _ hchar2
  have e16 : subst tryImgPlain (("```\n".toList) ++ c ++ ("\n```".toList))
      = (("```\n".toList) ++ c ++ ("\n```".toList)) :=
    substF_eq_self_of_head
      (fun x cs hx => tryImgPlain_none (tri_char_ne hx (by decide) (by decide) (by decide)))
      _ _ hchar2
  have e17 : subst tryLinkPiped (("```\n".toList) ++ c ++ ("\n```".toList))
      = (("```\n".toList) ++ c ++ ("\n```".toList)) :=
    substF_eq_self_of_head
      (fun x cs hx => tryLinkPiped_none (tri_char_ne hx (by decide) (by decide) (by decide)))
      _ _ hchar2
  have e18 : subst tryLinkBare (("```\n".toList) ++ c ++ ("\n```".toList))
      = (("```\n".toList) ++ c ++ ("\n```".toList)) :=
    substF_eq_self_of_head
      (fun x cs hx => tryLinkBare_none (tri_char_ne hx (by decide) (by decide) (by decide)))
      _ _ hchar2
  have e19 : subst tryColor (("```\n".toList) ++ c ++ ("\n```".toList))
      = (("```\n".toList) ++ c ++ ("\n```".toList)) :=
    substF_eq_self_of_head
      (fun x cs hx => tryColor_none (tri_char_ne hx (by decide) (by decide) (by decide)))
      _ _ hchar2
  have hcnl : '\n' ∉ c := fun hmem => plainChar_ne (hc _ hmem) (by decide) rfl
  have esplit : splitLines (("```\n".toList) ++ c ++ ("\n```".toList))
      = [("```".toList), c, ("```".toList)] := by
    rw [show (("```\n".toList) ++ c ++ ("\n```".toList))
      = ("```".toList) ++ '\n' :: (c ++ '\n' :: ("```".toList)) from by simp]
    rw [splitLines_append_nl _ (by decide)]
    rw [splitLines_append_nl c hcnl]
    rw [splitLines_no_nl _ (by decide)]
  have etab : convertJiraTables [("```".toList), c, ("```".toList)]
      = [("```".toList), c, ("```".toList)] := by
    apply convertJiraTables_id
    intro l hl
    simp only [List.mem_cons, List.not_mem_nil, or_false] at hl
    rcases hl with rfl | rfl | rfl
    · decide
    · exact containsSub_eq_false_of_head _
        (fun x hx => plainChar_ne (hc x hx) (by decide))
    · decide
  rw [jira_to_markdown_pipeline _ hne]
  rw [e1, e2, e3, e4, e5, e6, e7, e8, e9, e10, ecode, e12, e13, e14, e15, e16, e17,
    e18, e19, esplit, etab]
  simp [joinLines]

theorem quad_char_ne {x a b d : Char} (hx : x = a ∨ x = b ∨ x = d ∨ plainChar x = true)
    {t : Char} (h1 : t ≠ a) (h2 : t ≠ b) (h3 : t ≠ d) (h4 : plainChar t = false) : x ≠ t := by
  rcases hx with rfl | rfl | rfl | hp
  · exact Ne.symm h1
  · exact Ne.symm h2
  · exact Ne.symm h3
  · exact plainChar_ne hp h4

theorem findSplitMin1_cons {needle : Str} {y : Char} {ys pre rest : Str}
    (h : findSplit needle ys = some (pre, rest)) :
    findSplitMin1 needle (y :: ys) = some (y :: pre, rest) := by
  simp [findSplitMin1, h]

/-- The Markdown code-fence rule at a ```` ```\n ```` head (specialized
equation; the language group is empty). -/
theorem tryMdCodeBlock_at_head (X : Str) :
    tryMdCodeBlock ('`' :: '`' :: '`' :: '\n' :: X)
      = (match findSplitMin1 ("```".toList) X with
         | some (content, rest) =>
           some ('{' :: 'c' :: 'o' :: 'd' :: 'e' :: '}' ::
             (content ++ ("\x7bcode\x7d".toList)), rest)
         | none => none) := rfl

/-- `markdown_to_jira` on a fenced block with inert content: the only rule
that fires is the code-extraction rule, whose substitution text is the Jira
block (the saved list is never re-read). -/
theorem fence_m2j (c : Str) (hc : ∀ x ∈ c, plainChar x = true) :
    markdown_to_jira (("```\n".toList) ++ c ++ ("\n```".toList))
      = ("\x7bcode\x7d".toList) ++ c ++ ('\n' :: ("\x7bcode\x7d".toList)) := by
  have hne : (("```\n".toList) ++ c ++ ("\n```".toList)) ≠ [] := by simp
  have hfs : findSplitMin1 ("```".toList) (c ++ ('\n' :: ("```".toList)))
      = some (c ++ ['\n'], []) := by
    have hbase : findSplit ("```".toList) ('\n' :: ("```".toList)) = some (['\n'], []) := by
      have h0 := @findSplit_append_self ("```".toList) (by simp) []
      rw [List.append_nil] at h0
      exact findSplit_cons_cons rfl (by decide) h0
    cases c with
    | nil => simpa using @findSplitMin1_cons ("```".toList) _ _ _ _ (by
        have h0 := @findSplit_append_self ("```".toList) (by simp) []
        rw [List.append_nil] at h0
        exact h0)
    | cons x c' =>
      have h1 := findSplit_append_plain rfl c'
        (fun y hy => plainChar_ne (hc y (by simp [hy])) (by decide)) hbase
      exact findSplitMin1_cons (y := x) h1
  have hfire : tryMdCodeBlock (("```\n".toList) ++ c ++ ("\n```".toList))
      = some (("\x7bcode\x7d".toList) ++ c ++ ('\n' :: ("\x7bcode\x7d".toList)), []) := by
    have h1 := tryMdCodeBlock_at_head (c ++ ('\n' :: ("```".toList)))
    rw [hfs] at h1
    rw [show (("```\n".toList) ++ c ++ ("\n```".toList))
      = '`' :: '`' :: '`' :: '\n' :: (c ++ ('\n' :: ("```".toList))) from by simp]
    rw [h1]
    simp
  have ecode : subst tryMdCodeBlock (("```\n".toList) ++ c ++ ("\n```".toList))
      = ("\x7bcode\x7d".toList) ++ c ++ ('\n' :: ("\x7bcode\x7d".toList)) := by
    rw [show (("```\n".toList) ++ c ++ ("\n```".toList))
      = '`' :: '`' :: '`' :: '\n' :: (c ++ ('\n' :: ("```".toList))) from by simp] at hfire ⊢
    exact subst_head_all hfire
  have hchar : ∀ x ∈ (("\x7bcode\x7d".toList) ++ c ++ ('\n' :: ("\x7bcode\x7d".toList))),
      x = '{' ∨ x = '}' ∨ x = '\n' ∨ plainChar x = true := by
    intro x hx
    rcases List.mem_append.mp hx with h1 | h2
    · rcases List.mem_append.mp h1 with h3 | h4
      · rw [show ("\x7bcode\x7d".toList) = '{' :: 'c' :: 'o' :: 'd' :: 'e' :: '}' :: [] from rfl]
          at h3
        fin_cases h3 <;> decide
      · exact Or.inr (Or.inr (Or.inr (hc x h4)))
    · rcases List.mem_cons.mp h2 with rfl | h5
      · decide
      · rw [show ("\x7bcode\x7d".toList) = '{' :: 'c' :: 'o' :: 'd' :: 'e' :: '}' :: [] from rfl]
          at h5
        fin_cases h5 <;> decide
  have hQ : ∀ (t : Char), t ≠ '{' → t ≠ '}' → t ≠ '\n' → plainChar t = false →
      ∀ x ∈ (("\x7bcode\x7d".toList) ++ c ++ ('\n' :: ("\x7bcode\x7d".toList))), x ≠ t :=
    fun t h1 h2 h3 h4 x hx => quad_char_ne (hchar x hx) h1 h2 h3 h4
  have hcnl : '\n' ∉ c := fun hmem => plainChar_ne (hc _ hmem) (by decide) rfl
  have e2 : subst tryMdInline (("\x7bcode\x7d".toList) ++ c ++ ('\n' :: ("\x7bcode\x7d".toList)))
      = (("\x7bcode\x7d".toList) ++ c ++ ('\n' :: ("\x7bcode\x7d".toList))) :=
    substF_eq_self_of_head
      (fun x cs hx =>
        tryMdInline_none (quad_char_ne hx (by decide) (by decide) (by decide) (by decide)))
      _ _ hchar
  have esplit : splitLines (("\x7bcode\x7d".toList) ++ c ++ ('\n' :: ("\x7bcode\x7d".toList)))
      = [("\x7bcode\x7d".toList) ++ c, ("\x7bcode\x7d".toList)] := by
    rw [show (("\x7bcode\x7d".toList) ++ c ++ ('\n' :: ("\x7bcode\x7d".toList)))
      = (("\x7bcode\x7d".toList) ++ c) ++ '\n' :: ("\x7bcode\x7d".toList) from by simp]
    rw [splitLines_append_nl _ (by
      intro hmem
      rcases List.mem_append.mp hmem with h1 | h2
      · revert h1
        decide
      · exact hcnl h2)]
    rw [splitLines_no_nl _ (by decide)]
  have hl1head : ∃ t, (("\x7bcode\x7d".toList) ++ c) = '{' :: t := ⟨'c' :: 'o' :: 'd' :: 'e' :: '}' :: c, rfl⟩
  have esetext : setextPass [("\x7bcode\x7d".toList) ++ c, ("\x7bcode\x7d".toList)]
      = [("\x7bcode\x7d".toList) ++ c, ("\x7bcode\x7d".toList)] :=
    setextPass_two _ _ (by decide)
  have ejoin : joinLines [("\x7bcode\x7d".toList) ++ c, ("\x7bcode\x7d".toList)]
      = (("\x7bcode\x7d".toList) ++ c ++ ('\n' :: ("\x7bcode\x7d".toList))) := by
    show (("\x7bcode\x7d".toList) ++ c) ++ '\n' :: ("\x7bcode\x7d".toList) = _
    simp
  have e4 : onLines atxLineOpt (("\x7bcode\x7d".toList) ++ c ++ ('\n' :: ("\x7bcode\x7d".toList)))
      = (("\x7bcode\x7d".toList) ++ c ++ ('\n' :: ("\x7bcode\x7d".toList))) := by
    unfold onLines
    rw [esplit]
    rw [show ([("\x7bcode\x7d".toList) ++ c, ("\x7bcode\x7d".toList)]).map (lineApply atxLineOpt)
      = [("\x7bcode\x7d".toList) ++ c, ("\x7bcode\x7d".toList)] from by
        simp only [List.map_cons, List.map_nil]
        rw [lineApply_none (show atxLineOpt (("\x7bcode\x7d".toList) ++ c) = none from
              atxLineOpt_none (by decide)),
          lineApply_none (show atxLineOpt ("\x7bcode\x7d".toList) = none from
              atxLineOpt_none (by decide))]]
    rw [← esplit, joinLines_splitLines]
  have e5 : subst tryMdBold (("\x7bcode\x7d".toList) ++ c ++ ('\n' :: ("\x7bcode\x7d".toList)))
      = (("\x7bcode\x7d".toList) ++ c ++ ('\n' :: ("\x7bcode\x7d".toList))) :=
    substF_eq_self_of_head
      (fun x cs hx =>
        tryMdBold_none (quad_char_ne hx (by decide) (by decide) (by decide) (by decide))
          (quad_char_ne hx (by decide) (by decide) (by decide) (by decide)))
      _ _ hchar
  have e6 : onLines bulletLineOpt
      (("\x7bcode\x7d".toList) ++ c ++ ('\n' :: ("\x7bcode\x7d".toList)))
      = (("\x7bcode\x7d".toList) ++ c ++ ('\n' :: ("\x7bcode\x7d".toList))) := by
    unfold onLines
    rw [esplit]
    rw [show ([("\x7bcode\x7d".toList) ++ c, ("\x7bcode\x7d".toList)]).map
        (lineApply bulletLineOpt)
      = [("\x7bcode\x7d".toList) ++ c, ("\x7bcode\x7d".toList)] from by
        simp only [List.map_cons, List.map_nil]
        rw [lineApply_none (show bulletLineOpt (("\x7bcode\x7d".toList) ++ c) = none from
              bulletLineOpt_none (by decide) (by decide)),
          lineApply_none (show bulletLineOpt ("\x7bcode\x7d".toList) = none from
              bulletLineOpt_none (by decide) (by decide))]]
    rw [← esplit, joinLines_splitLines]
  have e7 : onLines numberedLineOpt
      (("\x7bcode\x7d".toList) ++ c ++ ('\n' :: ("\x7bcode\x7d".toList)))
      = (("\x7bcode\x7d".toList) ++ c ++ ('\n' :: ("\x7bcode\x7d".toList))) := by
    unfold onLines
    rw [esplit]
    rw [show ([("\x7bcode\x7d".toList) ++ c, ("\x7bcode\x7d".toList)]).map
        (lineApply numberedLineOpt)
      = [("\x7bcode\x7d".toList) ++ c, ("\x7bcode\x7d".toList)] from by
        simp only [List.map_cons, List.map_nil]
        rw [lineApply_none (show numberedLineOpt (("\x7bcode\x7d".toList) ++ c) = none from
              numberedLineOpt_none (by decide)),
          lineApply_none (show numberedLineOpt ("\x7bcode\x7d".toList) = none from
              numberedLineOpt_none (by decide))]]
    rw [← esplit, joinLines_splitLines]
  have etagC : subst (tryTag ("<cite>".toList) ("</cite>".toList) ("??".toList))
      (("\x7bcode\x7d".toList) ++ c ++ ('\n' :: ("\x7bcode\x7d".toList)))
      = (("\x7bcode\x7d".toList) ++ c ++ ('\n' :: ("\x7bcode\x7d".toList))) :=
    substF_eq_self_of_head
      (fun x cs hx =>
        tryTag_none_head (quad_char_ne hx (by decide) (by decide) (by decide) (by decide)))
      _ _ hchar
  have etagD : subst (tryTag ("<del>".toList) ("</del>".toList) (['-']))
      (("\x7bcode\x7d".toList) ++ c ++ ('\n' :: ("\x7bcode\x7d".toList)))
      = (("\x7bcode\x7d".toList) ++ c ++ ('\n' :: ("\x7bcode\x7d".toList))) :=
    substF_eq_self_of_head
      (fun x cs hx =>
        tryTag_none_head (quad_char_ne hx (by decide) (by decide) (by decide) (by decide)))
      _ _ hchar
  have etagI : subst (tryTag ("<ins>".toList) ("</ins>".toList) (['+']))
      (("\x7bcode\x7d".toList) ++ c ++ ('\n' :: ("\x7bcode\x7d".toList)))
      = (("\x7bcode\x7d".toList) ++ c ++ ('\n' :: ("\x7bcode\x7d".toList))) :=
    substF_eq_self_of_head
      (fun x cs hx =>
        tryTag_none_head (quad_char_ne hx (by decide) (by decide) (by decide) (by decide)))
      _ _ hchar
  have etagS : subst (tryTag ("<sup>".toList) ("</sup>".toList) (['^']))
      (("\x7bcode\x7d".toList) ++ c ++ ('\n' :: ("\x7bcode\x7d".toList)))
      = (("\x7bcode\x7d".toList) ++ c ++ ('\n' :: ("\x7bcode\x7d".toList))) :=
    substF_eq_self_of_head
      (fun x cs hx =>
        tryTag_none_head (quad_char_ne hx (by decide) (by decide) (by decide) (by decide)))
      _ _ hchar
  have etagB : subst (tryTag ("<sub>".toList) ("</sub>".toList) (['~']))
      (("\x7bcode\x7d".toList) ++ c ++ ('\n' :: ("\x7bcode\x7d".toList)))
      = (("\x7bcode\x7d".toList) ++ c ++ ('\n' :: ("\x7bcode\x7d".toList))) :=
    substF_eq_self_of_head
      (fun x cs hx =>
        tryTag_none_head (quad_char_ne hx (by decide) (by decide) (by decide) (by decide)))
      _ _ hchar
  have ecolor : subst tryMdColor
      (("\x7bcode\x7d".toList) ++ c ++ ('\n' :: ("\x7bcode\x7d".toList)))
      = (("\x7bcode\x7d".toList) ++ c ++ ('\n' :: ("\x7bcode\x7d".toList))) :=
    substF_eq_self_of_head
      (fun x cs hx =>
        tryMdColor_none (quad_char_ne hx (by decide) (by decide) (by decide) (by decide)))
      _ _ hchar
  have estrike : subst tryMdStrike
      (("\x7bcode\x7d".toList) ++ c ++ ('\n' :: ("\x7bcode\x7d".toList)))
      = (("\x7bcode\x7d".toList) ++ c ++ ('\n' :: ("\x7bcode\x7d".toList))) :=
    substF_eq_self_of_head
      (fun x cs hx =>
        tryMdStrike_none (quad_char_ne hx (by decide) (by decide) (by decide) (by decide)))
      _ _ hchar
  have eimg1 : subst tryMdImgNoAlt
      (("\x7bcode\x7d".toList) ++ c ++ ('\n' :: ("\x7bcode\x7d".toList)))
      = (("\x7bcode\x7d".toList) ++ c ++ ('\n' :: ("\x7bcode\x7d".toList))) :=
    substF_eq_self_of_head
      (fun x cs hx =>
        tryMdImgNoAlt_none (quad_char_ne hx (by decide) (by decide) (by decide) (by decide)))
      _ _ hchar
  have eimg2 : subst tryMdImgAlt
      (("\x7bcode\x7d".toList) ++ c ++ ('\n' :: ("\x7bcode\x7d".toList)))
      = (("\x7bcode\x7d".toList) ++ c ++ ('\n' :: ("\x7bcode\x7d".toList))) :=
    substF_eq_self_of_head
      (fun x cs hx =>
        tryMdImgAlt_none (quad_char_ne hx (by decide) (by decide) (by decide) (by decide)))
      _ _ hchar
  have elink : subst tryMdLink
      (("\x7bcode\x7d".toList) ++ c ++ ('\n' :: ("\x7bcode\x7d".toList)))
      = (("\x7bcode\x7d".toList) ++ c ++ ('\n' :: ("\x7bcode\x7d".toList))) :=
    substF_eq_self_of_head
      (fun x cs hx =>
        tryMdLink_none (quad_char_ne hx (by decide) (by decide) (by decide) (by decide)))
      _ _ hchar
  have eauto : subst tryMdAuto
      (("\x7bcode\x7d".toList) ++ c ++ ('\n' :: ("\x7bcode\x7d".toList)))
      = (("\x7bcode\x7d".toList) ++ c ++ ('\n' :: ("\x7bcode\x7d".toList))) :=
    substF_eq_self_of_head
      (fun x cs hx =>
        tryMdAuto_none (quad_char_ne hx (by decide) (by decide) (by decide) (by decide)))
      _ _ hchar
  have etab : mdTablePass [("\x7bcode\x7d".toList) ++ c, ("\x7bcode\x7d".toList)]
      = [("\x7bcode\x7d".toList) ++ c, ("\x7bcode\x7d".toList)] := by
    apply mdTablePass_id
    intro l hl
    simp only [List.mem_cons, List.not_mem_nil, or_false] at hl
    rcases hl with rfl | rfl
    · obtain ⟨t, ht⟩ := hl1head
      rw [ht]
      exact sepRowMatch_false (by decide)
    · decide
  rw [markdown_to_jira_pipeline _ hne]
  rw [ecode, e2, esplit, esetext, ejoin, e4, e5, e6, e7, etagC, etagD, etagI, etagS,
    etagB, ecolor, estrike, eimg1, eimg2, elink, eauto, esplit, etab, ejoin]

/-! ## Header and emphasis computations (for the round-trip claim) -/

theorem lineApply_some {f : Str → Option Str} {l v : Str} (h : f l = some v) :
    lineApply f l = v := by
  simp [lineApply, h]

theorem setextPass_single (l : Str) : setextPass [l] = [l] := rfl

theorem alnum_ne {x t : Char} (hx : alnum x = true) (ht : alnum t = false) : x ≠ t := by
  intro h
  rw [h, ht] at hx
  exact Bool.noConfusion hx

theorem plain_not_bullet {x : Char} (hx : plainChar x = true) (_hsp : x ≠ ' ') :
    bulletChar x = false := by
  have h1 : x ≠ '#' := plainChar_ne hx (by decide)
  have h2 : x ≠ '-' := plainChar_ne hx (by decide)
  have h3 : x ≠ '+' := plainChar_ne hx (by decide)
  have h4 : x ≠ '*' := plainChar_ne hx (by decide)
  simp [bulletChar, h1, h2, h3, h4]

theorem headerLineOpt_fire {d : Char} (hd : ('0' ≤ d && d ≤ '6') = true) (rest : Str) :
    headerLineOpt ('h' :: d :: '.' :: rest)
      = some (List.replicate (d.toNat - 48) '#' ++ rest) := by
  simp [headerLineOpt, hd]

/-- Single-line final table stage of `jira_to_markdown`. -/
theorem jiraTablesStage_single (l : Str) (h1 : '\n' ∉ l)
    (h2 : containsSub ("||".toList) l = false) :
    joinLines (convertJiraTables (splitLines l)) = l := by
  rw [splitLines_no_nl _ h1]
  rw [convertJiraTables_id _ (by
    intro l' hl
    simp only [List.mem_cons, List.not_mem_nil, or_false] at hl
    subst hl
    exact h2)]
  rfl

/-- Single-line final table stage of `markdown_to_jira`. -/
theorem mdTablesStage_single (l : Str) (h1 : '\n' ∉ l) :
    joinLines (mdTablePass (splitLines l)) = l := by
  rw [splitLines_no_nl _ h1]
  rfl

/-- Single-line setext stage of `markdown_to_jira`. -/
theorem setextStage_single (l : Str) (h1 : '\n' ∉ l) :
    joinLines (setextPass (splitLines l)) = l := by
  rw [splitLines_no_nl _ h1, setextPass_single]
  rfl

/-- `jira_to_markdown` on a single-line `h<N>.` header with inert text. -/
theorem header_j2m (d : Char) (hd : d ∈ (['1', '2', '3', '4', '5', '6'] : List Char))
    (rest : Str) (hrest : ∀ x ∈ rest, plainChar x = true) :
    jira_to_markdown ('h' :: d :: '.' :: rest)
      = List.replicate (d.toNat - 48) '#' ++ rest := by
  have hdp : plainChar d = true := by fin_cases hd <;> decide
  have hdcond : ('0' ≤ d && d ≤ '6') = true := by fin_cases hd <;> decide
  have hchar : ∀ x ∈ ('h' :: d :: '.' :: rest), x = '.' ∨ x = '.' ∨ plainChar x = true := by
    intro x hx
    rcases List.mem_cons.mp hx with rfl | hx
    · decide
    rcases List.mem_cons.mp hx with rfl | hx
    · exact Or.inr (Or.inr hdp)
    rcases List.mem_cons.mp hx with rfl | hx
    · decide
    · exact Or.inr (Or.inr (hrest x hx))
  have hneT : ∀ (t : Char), t ≠ '.' → plainChar t = false →
      ∀ x ∈ ('h' :: d :: '.' :: rest), x ≠ t :=
    fun t h1 h2 x hx => tri_char_ne (hchar x hx) h1 h1 h2
  have hnl : '\n' ∉ ('h' :: d :: '.' :: rest) :=
    fun hmem => (hneT '\n' (by decide) (by decide) _ hmem) rfl
  have hchar2 : ∀ x ∈ (List.replicate (d.toNat - 48) '#' ++ rest),
      x = '#' ∨ x = '#' ∨ plainChar x = true := by
    intro x hx
    rcases List.mem_append.mp hx with h1 | h2
    · exact Or.inl (List.eq_of_mem_replicate h1)
    · exact Or.inr (Or.inr (hrest x h2))
  have hneT2 : ∀ (t : Char), t ≠ '#' → plainChar t = false →
      ∀ x ∈ (List.replicate (d.toNat - 48) '#' ++ rest), x ≠ t :=
    fun t h1 h2 x hx => tri_char_ne (hchar2 x hx) h1 h1 h2
  have hnl2 : '\n' ∉ (List.replicate (d.toNat - 48) '#' ++ rest) :=
    fun hmem => (hneT2 '\n' (by decide) (by decide) _ hmem) rfl
  have e1 : onLines bqLineOpt ('h' :: d :: '.' :: rest) = ('h' :: d :: '.' :: rest) := by
    rw [onLines_no_nl _ _ hnl]
    exact lineApply_none (bqLineOpt_none (by decide))
  have e2 : jiraBold ('h' :: d :: '.' :: rest) = ('h' :: d :: '.' :: rest) :=
    jiraBoldF_eq_self _
      (fun x hx => ⟨hneT '*' (by decide) (by decide) x hx,
        hneT '_' (by decide) (by decide) x hx⟩) _ _
  have e3 : onLines listLineOpt ('h' :: d :: '.' :: rest) = ('h' :: d :: '.' :: rest) := by
    rw [onLines_no_nl _ _ hnl]
    exact lineApply_none (listLineOpt_none (by decide))
  have e4 : onLines headerLineOpt ('h' :: d :: '.' :: rest)
      = List.replicate (d.toNat - 48) '#' ++ rest := by
    rw [onLines_no_nl _ _ hnl]
    exact lineApply_some (headerLineOpt_fire hdcond rest)
  have e5 : subst tryInlineCode (List.replicate (d.toNat - 48) '#' ++ rest)
      = List.replicate (d.toNat - 48) '#' ++ rest :=
    substF_eq_self_of_head
      (fun x cs hx => tryInlineCode_none (tri_char_ne hx (by decide) (by decide) (by decide)))
      _ _ hchar2
  have e6 : subst tryCitation (List.replicate (d.toNat - 48) '#' ++ rest)
      = List.replicate (d.toNat - 48) '#' ++ rest :=
    substF_eq_self_of_head
      (fun x cs hx => tryCitation_none (tri_char_ne hx (by decide) (by decide) (by decide)))
      _ _ hchar2
  have e7 : subst tryIns (List.replicate (d.toNat - 48) '#' ++ rest)
      = List.replicate (d.toNat - 48) '#' ++ rest :=
    substF_eq_self_of_head
      (fun x cs hx => tryIns_none (tri_char_ne hx (by decide) (by decide) (by decide)))
      _ _ hchar2
  have e8 : subst trySup (List.replicate (d.toNat - 48) '#' ++ rest)
      = List.replicate (d.toNat - 48) '#' ++ rest :=
    substF_eq_self_of_head
      (fun x cs hx => trySup_none (tri_char_ne hx (by decide) (by decide) (by decide)))
      _ _ hchar2
  have e9 : subst trySub (List.replicate (d.toNat - 48) '#' ++ rest)
      = List.replicate (d.toNat - 48) '#' ++ rest :=
    substF_eq_self_of_head
      (fun x cs hx => trySub_none (tri_char_ne hx (by decide) (by decide) (by decide)))
      _ _ hchar2
  have e10 : subst tryStrike (List.replicate (d.toNat - 48) '#' ++ rest)
      = List.replicate (d.toNat - 48) '#' ++ rest :=
    substF_eq_self_of_replSelf tryStrike_replSelf _ _
  have e11 : subst tryCodeBlock (List.replicate (d.toNat - 48) '#' ++ rest)
      = List.replicate (d.toNat - 48) '#' ++ rest :=
    substF_eq_self_of_head
      (fun x cs hx => tryCodeBlock_none (tri_char_ne hx (by decide) (by decide) (by decide)))
      _ _ hchar2
  have e12 : subst tryNoformat (List.replicate (d.toNat - 48) '#' ++ rest)
      = List.replicate (d.toNat - 48) '#' ++ rest :=
    substF_eq_self_of_head
      (fun x cs hx => tryNoformat_none (tri_char_ne hx (by decide) (by decide) (by decide)))
      _ _ hchar2
  have e13 : subst tryQuote (List.replicate (d.toNat - 48) '#' ++ rest)
      = List.replicate (d.toNat - 48) '#' ++ rest :=
    substF_eq_self_of_head
      (fun x cs hx => tryQuote_none (tri_char_ne hx (by decide) (by decide) (by decide)))
      _ _ hchar2
  have e14 : subst tryImgAlt (List.replicate (d.toNat - 48) '#' ++ rest)
      = List.replicate (d.toNat - 48) '#' ++ rest :=
    substF_eq_self_of_head
      (fun x cs hx => tryImgAlt_none (tri_char_ne hx (by decide) (by decide) (by decide)))
      _ _ hchar2
  have e15 : subst tryImgParams (List.replicate (d.toNat - 48) '#' ++ rest)
      = List.replicate (d.toNat - 48) '#' ++ rest :=
    substF_eq_self_of_head
      (fun x cs hx => tryImgParams_none (tri_char_ne hx (by decide) (by decide) (by decide)))
      _ _ hchar2
  have e16 : subst tryImgPlain (List.replicate (d.toNat - 48) '#' ++ rest)
      = List.replicate (d.toNat - 48) '#' ++ rest :=
    substF_eq_self_of_head
      (fun x cs hx => tryImgPlain_none (tri_char_ne hx (by decide) (by decide) (by decide)))
      _ _ hchar2
  have e17 : subst tryLinkPiped (List.replicate (d.toNat - 48) '#' ++ rest)
      = List.replicate (d.toNat - 48) '#' ++ rest :=
    substF_eq_self_of_head
      (fun x cs hx => tryLinkPiped_none (tri_char_ne hx (by decide) (by decide) (by decide)))
      _ _ hchar2
  have e18 : subst tryLinkBare (List.replicate (d.toNat - 48) '#' ++ rest)
      = List.replicate (d.toNat - 48) '#' ++ rest :=
    substF_eq_self_of_head
      (fun x cs hx => tryLinkBare_none (tri_char_ne hx (by decide) (by decide) (by decide)))
      _ _ hchar2
  have e19 : subst tryColor (List.replicate (d.toNat - 48) '#' ++ rest)
      = List.replicate (d.toNat - 48) '#' ++ rest :=
    substF_eq_self_of_head
      (fun x cs hx => tryColor_none (tri_char_ne hx (by decide) (by decide) (by decide)))
      _ _ hchar2
  have etab := jiraTablesStage_single (List.replicate (d.toNat - 48) '#' ++ rest) hnl2
    (containsSub_eq_false_of_head _ (fun x hx => hneT2 '|' (by decide) (by decide) x hx))
  rw [jira_to_markdown_pipeline _ (by simp)]
  rw [e1, e2, e3, e4, e5, e6, e7, e8, e9, e10, e11, e12, e13, e14, e15, e16, e17, e18,
    e19, etab]

theorem spanP_plain_sharp (rest : Str) (hrest : ∀ x ∈ rest, plainChar x = true) :
    spanP (fun x => decide (x = '#')) rest = ([], rest) := by
  cases rest with
  | nil => rfl
  | cons w0 w' =>
    exact spanP_cons_false (by
      simp only [decide_eq_false_iff_not]
      exact plainChar_ne (hrest w0 (by simp)) (by decide))

theorem atxLineOpt_fire (n : Nat) (hn : 1 ≤ n) (rest : Str)
    (hrest : ∀ x ∈ rest, plainChar x = true) :
    atxLineOpt (List.replicate n '#' ++ rest) = some ('h' :: natToStr n ++ '.' :: rest) := by
  have hspan : spanP (fun x => decide (x = '#')) (List.replicate n '#' ++ rest)
      = (List.replicate n '#', rest) := by
    rw [spanP_append_all _ (fun c hc => by
      rw [List.eq_of_mem_replicate hc]
      decide)]
    rw [spanP_plain_sharp rest hrest]
    simp
  rw [atxLineOpt, hspan]
  obtain ⟨m, rfl⟩ : ∃ m, n = m + 1 := ⟨n - 1, by omega⟩
  simp [List.replicate_succ]

/-- `markdown_to_jira` on a single-line ATX header with inert text. -/
theorem header_m2j (n : Nat) (hn : 1 ≤ n) (rest : Str)
    (hrest : ∀ x ∈ rest, plainChar x = true)
    (hdig : ∀ x ∈ natToStr n, plainChar x = true) :
    markdown_to_jira (List.replicate n '#' ++ rest) = 'h' :: natToStr n ++ '.' :: rest := by
  have hchar : ∀ x ∈ (List.replicate n '#' ++ rest), x = '#' ∨ x = '#' ∨ plainChar x = true := by
    intro x hx
    rcases List.mem_append.mp hx with h1 | h2
    · exact Or.inl (List.eq_of_mem_replicate h1)
    · exact Or.inr (Or.inr (hrest x h2))
  have hneT : ∀ (t : Char), t ≠ '#' → plainChar t = false →
      ∀ x ∈ (List.replicate n '#' ++ rest), x ≠ t :=
    fun t h1 h2 x hx => tri_char_ne (hchar x hx) h1 h1 h2
  have hnl : '\n' ∉ (List.replicate n '#' ++ rest) :=
    fun hmem => (hneT '\n' (by decide) (by decide) _ hmem) rfl
  have hne : (List.replicate n '#' ++ rest) ≠ [] := by
    obtain ⟨m, rfl⟩ : ∃ m, n = m + 1 := ⟨n - 1, by omega⟩
    simp [List.replicate_succ]
  have hchar2 : ∀ x ∈ ('h' :: natToStr n ++ '.' :: rest),
      x = '.' ∨ x = '.' ∨ plainChar x = true := by
    intro x hx
    rcases List.mem_cons.mp hx with rfl | hx
    · decide
    rcases List.mem_append.mp hx with h1 | h2
    · exact Or.inr (Or.inr (hdig x h1))
    rcases List.mem_cons.mp h2 with rfl | h3
    · decide
    · exact Or.inr (Or.inr (hrest x h3))
  have hneT2 : ∀ (t : Char), t ≠ '.' → plainChar t = false →
      ∀ x ∈ ('h' :: natToStr n ++ '.' :: rest), x ≠ t :=
    fun t h1 h2 x hx => tri_char_ne (hchar2 x hx) h1 h1 h2
  have hnl2 : '\n' ∉ ('h' :: natToStr n ++ '.' :: rest) :=
    fun hmem => (hneT2 '\n' (by decide) (by decide) _ hmem) rfl
  have e1 : subst tryMdCodeBlock (List.replicate n '#' ++ rest)
      = List.replicate n '#' ++ rest :=
    substF_eq_self_of_head
      (fun x cs hx => tryMdCodeBlock_none (tri_char_ne hx (by decide) (by decide) (by decide)))
      _ _ hchar
  have e2 : subst tryMdInline (List.replicate n '#' ++ rest)
      = List.replicate n '#' ++ rest :=
    substF_eq_self_of_head
      (fun x cs hx => tryMdInline_none (tri_char_ne hx (by decide) (by decide) (by decide)))
      _ _ hchar
  have e3 := setextStage_single _ hnl
  have e4 : onLines atxLineOpt (List.replicate n '#' ++ rest)
      = 'h' :: natToStr n ++ '.' :: rest := by
    rw [onLines_no_nl _ _ hnl]
    exact lineApply_some (atxLineOpt_fire n hn rest hrest)
  have e5 : subst tryMdBold ('h' :: natToStr n ++ '.' :: rest)
      = 'h' :: natToStr n ++ '.' :: rest :=
    substF_eq_self_of_head
      (fun x cs hx =>
        tryMdBold_none (tri_char_ne hx (by decide) (by decide) (by decide))
          (tri_char_ne hx (by decide) (by decide) (by decide)))
      _ _ hchar2
  have e6 : onLines bulletLineOpt ('h' :: natToStr n ++ '.' :: rest)
      = 'h' :: natToStr n ++ '.' :: rest := by
    rw [onLines_no_nl _ _ hnl2]
    exact lineApply_none (bulletLineOpt_none (by decide) (by decide))
  have e7 : onLines numberedLineOpt ('h' :: natToStr n ++ '.' :: rest)
      = 'h' :: natToStr n ++ '.' :: rest := by
    rw [onLines_no_nl _ _ hnl2]
    exact lineApply_none (numberedLineOpt_none (by decide))
  have etagC : subst (tryTag ("<cite>".toList) ("</cite>".toList) ("??".toList))
      ('h' :: natToStr n ++ '.' :: rest) = 'h' :: natToStr n ++ '.' :: rest :=
    substF_eq_self_of_head
      (fun x cs hx => tryTag_none_head (tri_char_ne hx (by decide) (by decide) (by decide)))
      _ _ hchar2
  have etagD : subst (tryTag ("<del>".toList) ("</del>".toList) (['-']))
      ('h' :: natToStr n ++ '.' :: rest) = 'h' :: natToStr n ++ '.' :: rest :=
    substF_eq_self_of_head
      (fun x cs hx => tryTag_none_head (tri_char_ne hx (by decide) (by decide) (by decide)))
      _ _ hchar2
  have etagI : subst (tryTag ("<ins>".toList) ("</ins>".toList) (['+']))
      ('h' :: natToStr n ++ '.' :: rest) = 'h' :: natToStr n ++ '.' :: rest :=
    substF_eq_self_of_head
      (fun x cs hx => tryTag_none_head (tri_char_ne hx (by decide) (by decide) (by decide)))
      _ _ hchar2
  have etagS : subst (tryTag ("<sup>".toList) ("</sup>".toList) (['^']))
      ('h' :: natToStr n ++ '.' :: rest) = 'h' :: natToStr n ++ '.' :: rest :=
    substF_eq_self_of_head
      (fun x cs hx => tryTag_none_head (tri_char_ne hx (by decide) (by decide) (by decide)))
      _ _ hchar2
  have etagB : subst (tryTag ("<sub>".toList) ("</sub>".toList) (['~']))
      ('h' :: natToStr n ++ '.' :: rest) = 'h' :: natToStr n ++ '.' :: rest :=
    substF_eq_self_of_head
      (fun x cs hx => tryTag_none_head (tri_char_ne hx (by decide) (by decide) (by decide)))
      _ _ hchar2
  have ecolor : subst tryMdColor ('h' :: natToStr n ++ '.' :: rest)
      = 'h' :: natToStr n ++ '.' :: rest :=
    substF_eq_self_of_head
      (fun x cs hx => tryMdColor_none (tri_char_ne hx (by decide) (by decide) (by decide)))
      _ _ hchar2
  have estrike : subst tryMdStrike ('h' :: natToStr n ++ '.' :: rest)
      = 'h' :: natToStr n ++ '.' :: rest :=
    substF_eq_self_of_head
      (fun x cs hx => tryMdStrike_none (tri_char_ne hx (by decide) (by decide) (by decide)))
      _ _ hchar2
  have eimg1 : subst tryMdImgNoAlt ('h' :: natToStr n ++ '.' :: rest)
      = 'h' :: natToStr n ++ '.' :: rest :=
    substF_eq_self_of_head
      (fun x cs hx => tryMdImgNoAlt_none (tri_char_ne hx (by decide) (by decide) (by decide)))
      _ _ hchar2
  have eimg2 : subst tryMdImgAlt ('h' :: natToStr n ++ '.' :: rest)
      = 'h' :: natToStr n ++ '.' :: rest :=
    substF_eq_self_of_head
      (fun x cs hx => tryMdImgAlt_none (tri_char_ne hx (by decide) (by decide) (by decide)))
      _ _ hchar2
  have elink : subst tryMdLink ('h' :: natToStr n ++ '.' :: rest)
      = 'h' :: natToStr n ++ '.' :: rest :=
    substF_eq_self_of_head
      (fun x cs hx => tryMdLink_none (tri_char_ne hx (by decide) (by decide) (by decide)))
      _ _ hchar2
  have eauto : subst tryMdAuto ('h' :: natToStr n ++ '.' :: rest)
      = 'h' :: natToStr n ++ '.' :: rest :=
    substF_eq_self_of_head
      (fun x cs hx => tryMdAuto_none (tri_char_ne hx (by decide) (by decide) (by decide)))
      _ _ hchar2
  have etab := mdTablesStage_single _ hnl2
  rw [markdown_to_jira_pipeline _ hne]
  rw [e1, e2, e3, e4, e5, e6, e7, etagC, etagD, etagI, etagS, etagB, ecolor, estrike,
    eimg1, eimg2, elink, eauto, etab]

theorem alnum_plain {x : Char} (h : alnum x = true) : plainChar x = true := by
  simp [plainChar, h]

theorem listLineOpt_none_noSpace (l : Str) (h : ' ' ∉ l) : listLineOpt l = none := by
  unfold listLineOpt
  split
  rename_i run rest hsp
  by_cases hrun : run.isEmpty
  · rw [if_pos hrun]
  · rw [if_neg hrun]
    split
    · rename_i content
      have hparts2 : run ++ (' ' :: content) = l := by
        have hp := spanP_parts_append (p := bulletChar) l
        rw [hsp] at hp
        exact hp
      exact absurd
        (hparts2 ▸ List.mem_append.mpr (Or.inr (List.mem_cons_self ' ' content))) h
    · rfl

/-- The emphasis pass on a whole-string single match. -/
theorem jiraBold_fire_single (m : Char) (hm : m = '*' ∨ m = '_') (w : Str)
    (hw : ∀ x ∈ w, x ≠ m ∧ x ≠ '\n') :
    jiraBold (m :: w ++ [m])
      = (if m = '*' then '*' :: '*' :: w ++ ['*', '*'] else '*' :: w ++ ['*']) := by
  have h1 := jiraBoldF_fire (w.length + 1) none rfl m hm w [] hw
  rw [jiraBoldF_nil, List.append_nil] at h1
  show jiraBoldF ((m :: w ++ [m]).length) none (m :: w ++ [m]) = _
  rw [show (m :: w ++ [m]).length = (w.length + 1) + 1 from by simp]
  exact h1

/-- The `jira_to_markdown` stages after the emphasis pass are inert on a
single-line, space-free string of stars and plain characters. -/
theorem j2m_tail_star (t : Str)
    (hchar : ∀ x ∈ ('*' :: t), x = '*' ∨ x = '*' ∨ plainChar x = true)
    (hsp : ' ' ∉ ('*' :: t)) :
    joinLines (convertJiraTables (splitLines
      (subst tryColor
      (subst tryLinkBare
      (subst tryLinkPiped
      (subst tryImgPlain
      (subst tryImgParams
      (subst tryImgAlt
      (subst tryQuote
      (subst tryNoformat
      (subst tryCodeBlock
      (subst tryStrike
      (subst trySub
      (subst trySup
      (subst tryIns
      (subst tryCitation
      (subst tryInlineCode
      (onLines headerLineOpt
      (onLines listLineOpt ('*' :: t)))))))))))))))))))) = '*' :: t := by
  have hneT : ∀ (u : Char), u ≠ '*' → plainChar u = false → ∀ x ∈ ('*' :: t), x ≠ u :=
    fun u h1 h2 x hx => tri_char_ne (hchar x hx) h1 h1 h2
  have hnl : '\n' ∉ ('*' :: t) :=
    fun hmem => (hneT '\n' (by decide) (by decide) _ hmem) rfl
  have e3 : onLines listLineOpt ('*' :: t) = '*' :: t := by
    rw [onLines_no_nl _ _ hnl]
    exact lineApply_none (listLineOpt_none_noSpace _ hsp)
  have e4 : onLines headerLineOpt ('*' :: t) = '*' :: t := by
    rw [onLines_no_nl _ _ hnl]
    exact lineApply_none (headerLineOpt_none (show ('*' : Char) ≠ 'h' by decide) t)
  have e5 : subst tryInlineCode ('*' :: t) = '*' :: t :=
    substF_eq_self_of_head
      (fun x cs hx => tryInlineCode_none (tri_char_ne hx (by decide) (by decide) (by decide)))
      _ _ hchar
  have e6 : subst tryCitation ('*' :: t) = '*' :: t :=
    substF_eq_self_of_head
      (fun x cs hx => tryCitation_none (tri_char_ne hx (by decide) (by decide) (by decide)))
      _ _ hchar
  have e7 : subst tryIns ('*' :: t) = '*' :: t :=
    substF_eq_self_of_head
      (fun x cs hx => tryIns_none (tri_char_ne hx (by decide) (by decide) (by decide)))
      _ _ hchar
  have e8 : subst trySup ('*' :: t) = '*' :: t :=
    substF_eq_self_of_head
      (fun x cs hx => trySup_none (tri_char_ne hx (by decide) (by decide) (by decide)))
      _ _ hchar
  have e9 : subst trySub ('*' :: t) = '*' :: t :=
    substF_eq_self_of_head
      (fun x cs hx => trySub_none (tri_char_ne hx (by decide) (by decide) (by decide)))
      _ _ hchar
  have e10 : subst tryStrike ('*' :: t) = '*' :: t :=
    substF_eq_self_of_replSelf tryStrike_replSelf _ _
  have e11 : subst tryCodeBlock ('*' :: t) = '*' :: t :=
    substF_eq_self_of_head
      (fun x cs hx => tryCodeBlock_none (tri_char_ne hx (by decide) (by decide) (by decide)))
      _ _ hchar
  have e12 : subst tryNoformat ('*' :: t) = '*' :: t :=
    substF_eq_self_of_head
      (fun x cs hx => tryNoformat_none (tri_char_ne hx (by decide) (by decide) (by decide)))
      _ _ hchar
  have e13 : subst tryQuote ('*' :: t) = '*' :: t :=
    substF_eq_self_of_head
      (fun x cs hx => tryQuote_none (tri_char_ne hx (by decide) (by decide) (by decide)))
      _ _ hchar
  have e14 : subst tryImgAlt ('*' :: t) = '*' :: t :=
    substF_eq_self_of_head
      (fun x cs hx => tryImgAlt_none (tri_char_ne hx (by decide) (by decide) (by decide)))
      _ _ hchar
  have e15 : subst tryImgParams ('*' :: t) = '*' :: t :=
    substF_eq_self_of_head
      (fun x cs hx => tryImgParams_none (tri_char_ne hx (by decide) (by decide) (by decide)))
      _ _ hchar
  have e16 : subst tryImgPlain ('*' :: t) = '*' :: t :=
    substF_eq_self_of_head
      (fun x cs hx => tryImgPlain_none (tri_char_ne hx (by decide) (by decide) (by decide)))
      _ _ hchar
  have e17 : subst tryLinkPiped ('*' :: t) = '*' :: t :=
    substF_eq_self_of_head
      (fun x cs hx => tryLinkPiped_none (tri_char_ne hx (by decide) (by decide) (by decide)))
      _ _ hchar
  have e18 : subst tryLinkBare ('*' :: t) = '*' :: t :=
    substF_eq_self_of_head
      (fun x cs hx => tryLinkBare_none (tri_char_ne hx (by decide) (by decide) (by decide)))
      _ _ hchar
  have e19 : subst tryColor ('*' :: t) = '*' :: t :=
    substF_eq_self_of_head
      (fun x cs hx => tryColor_none (tri_char_ne hx (by decide) (by decide) (by decide)))
      _ _ hchar
  have etab := jiraTablesStage_single ('*' :: t) hnl
    (containsSub_eq_false_of_head _ (fun x hx => hneT '|' (by decide) (by decide) x hx))
  rw [e3, e4, e5, e6, e7, e8, e9, e10, e11, e12, e13, e14, e15, e16, e17, e18, e19, etab]

/-- `jira_to_markdown` turns `*w*` into `**w**` for alphanumeric `w`. -/
theorem emStar_j2m (w : Str) (hw : ∀ x ∈ w, alnum x = true) :
    jira_to_markdown ('*' :: w ++ ['*']) = '*' :: '*' :: w ++ ['*', '*'] := by
  have hchar : ∀ x ∈ ('*' :: w ++ ['*']), x = '*' ∨ x = '*' ∨ plainChar x = true := by
    intro x hx
    rcases List.mem_cons.mp hx with rfl | hx
    · exact Or.inl rfl
    rcases List.mem_append.mp hx with h1 | h2
    · exact Or.inr (Or.inr (alnum_plain (hw x h1)))
    · simp only [List.mem_cons, List.not_mem_nil, or_false] at h2
      exact Or.inl h2
  have hneT : ∀ (u : Char), u ≠ '*' → plainChar u = false →
      ∀ x ∈ ('*' :: w ++ ['*']), x ≠ u :=
    fun u h1 h2 x hx => tri_char_ne (hchar x hx) h1 h1 h2
  have hnl : '\n' ∉ ('*' :: w ++ ['*']) :=
    fun hmem => (hneT '\n' (by decide) (by decide) _ hmem) rfl
  have e1 : onLines bqLineOpt ('*' :: w ++ ['*']) = ('*' :: w ++ ['*']) := by
    rw [onLines_no_nl _ _ hnl]
    exact lineApply_none (bqLineOpt_none (by decide))
  have e2 : jiraBold ('*' :: w ++ ['*']) = '*' :: '*' :: w ++ ['*', '*'] := by
    rw [jiraBold_fire_single '*' (Or.inl rfl) w
      (fun x hx => ⟨alnum_ne (hw x hx) (by decide), alnum_ne (hw x hx) (by decide)⟩)]
    rw [if_pos rfl]
  have hchar2 : ∀ x ∈ ('*' :: ('*' :: w ++ ['*', '*'])),
      x = '*' ∨ x = '*' ∨ plainChar x = true := by
    intro x hx
    rcases List.mem_cons.mp hx with rfl | hx
    · exact Or.inl rfl
    rcases List.mem_cons.mp hx with rfl | hx
    · exact Or.inl rfl
    rcases List.mem_append.mp hx with h1 | h2
    · exact Or.inr (Or.inr (alnum_plain (hw x h1)))
    · simp only [List.mem_cons, List.not_mem_nil, or_false] at h2
      rcases h2 with rfl | rfl
      · exact Or.inl rfl
      · exact Or.inl rfl
  have hsp2 : ' ' ∉ ('*' :: ('*' :: w ++ ['*', '*'])) := by
    intro hmem
    rcases List.mem_cons.mp hmem with h0 | hmem
    · exact absurd h0 (by decide)
    rcases List.mem_cons.mp hmem with h0 | hmem
    · exact absurd h0 (by decide)
    rcases List.mem_append.mp hmem with h1 | h2
    · exact absurd (hw ' ' h1) (by decide)
    · simp at h2
  rw [jira_to_markdown_pipeline _ (by simp)]
  rw [e1, e2]
  exact j2m_tail_star ('*' :: w ++ ['*', '*']) hchar2 hsp2

/-- `jira_to_markdown` turns `_w_` into `*w*` for alphanumeric `w`. -/
theorem emUnd_j2m (w : Str) (hw : ∀ x ∈ w, alnum x = true) :
    jira_to_markdown ('_' :: w ++ ['_']) = '*' :: w ++ ['*'] := by
  have hnlIn : '\n' ∉ ('_' :: w ++ ['_']) := by
    intro hmem
    rcases List.mem_cons.mp hmem with h0 | hx
    · exact absurd h0.symm (by decide)
    rcases List.mem_append.mp hx with h1 | h2
    · exact absurd (hw _ h1) (by decide)
    · simp only [List.mem_cons, List.not_mem_nil, or_false] at h2
      exact absurd h2.symm (by decide)
  have e1 : onLines bqLineOpt ('_' :: w ++ ['_']) = ('_' :: w ++ ['_']) := by
    rw [onLines_no_nl _ _ hnlIn]
    exact lineApply_none (bqLineOpt_none (by decide))
  have e2 : jiraBold ('_' :: w ++ ['_']) = '*' :: w ++ ['*'] := by
    rw [jiraBold_fire_single '_' (Or.inr rfl) w
      (fun x hx => ⟨alnum_ne (hw x hx) (by decide), alnum_ne (hw x hx) (by decide)⟩)]
    rw [if_neg (by decide)]
  have hchar2 : ∀ x ∈ ('*' :: (w ++ ['*'])), x = '*' ∨ x = '*' ∨ plainChar x = true := by
    intro x hx
    rcases List.mem_cons.mp hx with rfl | hx
    · exact Or.inl rfl
    rcases List.mem_append.mp hx with h1 | h2
    · exact Or.inr (Or.inr (alnum_plain (hw x h1)))
    · simp only [List.mem_cons, List.not_mem_nil, or_false] at h2
      exact Or.inl h2
  have hsp2 : ' ' ∉ ('*' :: (w ++ ['*'])) := by
    intro hmem
    rcases List.mem_cons.mp hmem with h0 | hmem
    · exact absurd h0 (by decide)
    rcases List.mem_append.mp hmem with h1 | h2
    · exact absurd (hw ' ' h1) (by decide)
    · simp at h2
  rw [jira_to_markdown_pipeline _ (by simp)]
  rw [e1, e2]
  exact j2m_tail_star (w ++ ['*']) hchar2 hsp2

theorem emChar_false_of_alnum {x : Char} (h : alnum x = true) : emChar x = false := by
  have h1 := alnum_ne h (show alnum '*' = false by decide)
  have h2 := alnum_ne h (show alnum '_' = false by decide)
  simp [emChar, h1, h2]

/-- The Markdown emphasis rule on a whole-string `**w**` match. -/
theorem tryMdBold_fire_double (w0 : Char) (w' : Str)
    (hw : ∀ x ∈ (w0 :: w'), alnum x = true) :
    tryMdBold ('*' :: '*' :: (w0 :: w') ++ ['*', '*'])
      = some ('*' :: (w0 :: w') ++ ['*'], []) := by
  have hs2 : spanP emChar ((w0 :: w') ++ ['*', '*']) = ([], (w0 :: w') ++ ['*', '*']) :=
    spanP_cons_false (emChar_false_of_alnum (hw w0 (by simp)))
  have hspan : spanP emChar ('*' :: '*' :: (w0 :: w') ++ ['*', '*'])
      = (['*', '*'], (w0 :: w') ++ ['*', '*']) := by
    have h := spanP_append_all (p := emChar) ['*', '*'] (by decide) ((w0 :: w') ++ ['*', '*'])
    rw [hs2] at h
    simpa using h
  have hfind : findSplitNoNL (['*', '*'] : Str) ((w0 :: w') ++ ['*', '*'])
      = some (w0 :: w', []) := by
    have h0 := @findSplitNoNL_append_self (['*', '*'] : Str) (by simp) []
    rw [List.append_nil] at h0
    have h1 := findSplitNoNL_append_plain rfl (w0 :: w')
      (fun x hx => ⟨alnum_ne (hw x hx) (by decide), alnum_ne (hw x hx) (by decide)⟩) h0
    simpa using h1
  unfold tryMdBold
  rw [hspan]
  dsimp only
  rw [show (((List.range (List.length (['*', '*'] : Str))).reverse).map (fun x => x + 1))
      = [2, 1] from rfl]
  simp only [mdBoldIter, List.take, List.drop, List.nil_append]
  rw [hfind]
  simp

/-- The Markdown emphasis rule on a whole-string `*w*` match. -/
theorem tryMdBold_fire_star (w0 : Char) (w' : Str)
    (hw : ∀ x ∈ (w0 :: w'), alnum x = true) :
    tryMdBold ('*' :: (w0 :: w') ++ ['*']) = some ('_' :: (w0 :: w') ++ ['_'], []) := by
  have hs2 : spanP emChar ((w0 :: w') ++ ['*']) = ([], (w0 :: w') ++ ['*']) :=
    spanP_cons_false (emChar_false_of_alnum (hw w0 (by simp)))
  have hspan : spanP emChar ('*' :: (w0 :: w') ++ ['*'])
      = (['*'], (w0 :: w') ++ ['*']) := by
    have h := spanP_append_all (p := emChar) ['*'] (by decide) ((w0 :: w') ++ ['*'])
    rw [hs2] at h
    simpa using h
  have hfind : findSplitNoNL (['*'] : Str) ((w0 :: w') ++ ['*']) = some (w0 :: w', []) := by
    have h0 := @findSplitNoNL_append_self (['*'] : Str) (by simp) []
    rw [List.append_nil] at h0
    have h1 := findSplitNoNL_append_plain rfl (w0 :: w')
      (fun x hx => ⟨alnum_ne (hw x hx) (by decide), alnum_ne (hw x hx) (by decide)⟩) h0
    simpa using h1
  unfold tryMdBold
  rw [hspan]
  dsimp only
  rw [show (((List.range (List.length (['*'] : Str))).reverse).map (fun x => x + 1))
      = [1] from rfl]
  simp only [mdBoldIter, List.take, List.drop, List.nil_append]
  rw [hfind]
  simp

/-- The `markdown_to_jira` stages after the emphasis rule are inert on a
single-line string of emphasis markers and plain characters whose head is not
whitespace or a dash. -/
theorem m2j_tail_em (c : Char) (t : Str)
    (hchar : ∀ x ∈ (c :: t), x = '*' ∨ x = '_' ∨ plainChar x = true)
    (hc1 : pyWs c = false) (hc2 : c ≠ '-') :
    joinLines (mdTablePass (splitLines
      (subst tryMdAuto
      (subst tryMdLink
      (subst tryMdImgAlt
      (subst tryMdImgNoAlt
      (subst tryMdStrike
      (subst tryMdColor
      (subst (tryTag ("<sub>".toList) ("</sub>".toList) (['~']))
      (subst (tryTag ("<sup>".toList) ("</sup>".toList) (['^']))
      (subst (tryTag ("<ins>".toList) ("</ins>".toList) (['+']))
      (subst (tryTag ("<del>".toList) ("</del>".toList) (['-']))
      (subst (tryTag ("<cite>".toList) ("</cite>".toList) ("??".toList))
      (onLines numberedLineOpt
      (onLines bulletLineOpt (c :: t)))))))))))))))) = c :: t := by
  have hneT : ∀ (u : Char), u ≠ '*' → u ≠ '_' → plainChar u = false →
      ∀ x ∈ (c :: t), x ≠ u :=
    fun u h1 h2 h3 x hx => tri_char_ne (hchar x hx) h1 h2 h3
  have hnl : '\n' ∉ (c :: t) :=
    fun hmem => (hneT '\n' (by decide) (by decide) (by decide) _ hmem) rfl
  have e6 : onLines bulletLineOpt (c :: t) = c :: t := by
    rw [onLines_no_nl _ _ hnl]
    exact lineApply_none (bulletLineOpt_none hc1 hc2)
  have e7 : onLines numberedLineOpt (c :: t) = c :: t := by
    rw [onLines_no_nl _ _ hnl]
    exact lineApply_none (numberedLineOpt_none hc1)
  have etagC : subst (tryTag ("<cite>".toList) ("</cite>".toList) ("??".toList)) (c :: t)
      = c :: t :=
    substF_eq_self_of_head
      (fun x cs hx =>
        tryTag_none_head (tri_char_ne hx (by decide) (by decide) (by decide)))
      _ _ hchar
  have etagD : subst (tryTag ("<del>".toList) ("</del>".toList) (['-'])) (c :: t)
      = c :: t :=
    substF_eq_self_of_head
      (fun x cs hx =>
        tryTag_none_head (tri_char_ne hx (by decide) (by decide) (by decide)))
      _ _ hchar
  have etagI : subst (tryTag ("<ins>".toList) ("</ins>".toList) (['+'])) (c :: t)
      = c :: t :=
    substF_eq_self_of_head
      (fun x cs hx =>
        tryTag_none_head (tri_char_ne hx (by decide) (by decide) (by decide)))
      _ _ hchar
  have etagS : subst (tryTag ("<sup>".toList) ("</sup>".toList) (['^'])) (c :: t)
      = c :: t :=
    substF_eq_self_of_head
      (fun x cs hx =>
        tryTag_none_head (tri_char_ne hx (by decide) (by decide) (by decide)))
      _ _ hchar
  have etagB : subst (tryTag ("<sub>".toList) ("</sub>".toList) (['~'])) (c :: t)
      = c :: t :=
    substF_eq_self_of_head
      (fun x cs hx =>
        tryTag_none_head (tri_char_ne hx (by decide) (by decide) (by decide)))
      _ _ hchar
  have ecolor : subst tryMdColor (c :: t) = c :: t :=
    substF_eq_self_of_head
      (fun x cs hx =>
        tryMdColor_none (tri_char_ne hx (by decide) (by decide) (by decide)))
      _ _ hchar
  have estrike : subst tryMdStrike (c :: t) = c :: t :=
    substF_eq_self_of_head
      (fun x cs hx =>
        tryMdStrike_none (tri_char_ne hx (by decide) (by decide) (by decide)))
      _ _ hchar
  have eimg1 : subst tryMdImgNoAlt (c :: t) = c :: t :=
    substF_eq_self_of_head
      (fun x cs hx =>
        tryMdImgNoAlt_none (tri_char_ne hx (by decide) (by decide) (by decide)))
      _ _ hchar
  have eimg2 : subst tryMdImgAlt (c :: t) = c :: t :=
    substF_eq_self_of_head
      (fun x cs hx =>
        tryMdImgAlt_none (tri_char_ne hx (by decide) (by decide) (by decide)))
      _ _ hchar
  have elink : subst tryMdLink (c :: t) = c :: t :=
    substF_eq_self_of_head
      (fun x cs hx =>
        tryMdLink_none (tri_char_ne hx (by decide) (by decide) (by decide)))
      _ _ hchar
  have eauto : subst tryMdAuto (c :: t) = c :: t :=
    substF_eq_self_of_head
      (fun x cs hx =>
        tryMdAuto_none (tri_char_ne hx (by decide) (by decide) (by decide)))
      _ _ hchar
  have etab := mdTablesStage_single (c :: t) hnl
  rw [e6, e7, etagC, etagD, etagI, etagS, etagB, ecolor, estrike, eimg1, eimg2, elink,
    eauto, etab]

/-- `markdown_to_jira` turns `**w**` into `*w*` for nonempty alphanumeric `w`. -/
theorem emStar_m2j (w0 : Char) (w' : Str) (hw : ∀ x ∈ (w0 :: w'), alnum x = true) :
    markdown_to_jira ('*' :: '*' :: (w0 :: w') ++ ['*', '*'])
      = '*' :: (w0 :: w') ++ ['*'] := by
  have hchar : ∀ x ∈ ('*' :: '*' :: (w0 :: w') ++ ['*', '*']),
      x = '*' ∨ x = '_' ∨ plainChar x = true := by
    intro x hx
    rcases List.mem_cons.mp hx with rfl | hx
    · exact Or.inl rfl
    rcases List.mem_cons.mp hx with rfl | hx
    · exact Or.inl rfl
    rcases List.mem_append.mp hx with h1 | h2
    · exact Or.inr (Or.inr (alnum_plain (hw x h1)))
    · simp only [List.mem_cons, List.not_mem_nil, or_false] at h2
      rcases h2 with rfl | rfl
      · exact Or.inl rfl
      · exact Or.inl rfl
  have hneT : ∀ (u : Char), u ≠ '*' → u ≠ '_' → plainChar u = false →
      ∀ x ∈ ('*' :: '*' :: (w0 :: w') ++ ['*', '*']), x ≠ u :=
    fun u h1 h2 h3 x hx => tri_char_ne (hchar x hx) h1 h2 h3
  have hnl : '\n' ∉ ('*' :: '*' :: (w0 :: w') ++ ['*', '*']) :=
    fun hmem => (hneT '\n' (by decide) (by decide) (by decide) _ hmem) rfl
  have e1 : subst tryMdCodeBlock ('*' :: '*' :: (w0 :: w') ++ ['*', '*'])
      = ('*' :: '*' :: (w0 :: w') ++ ['*', '*']) :=
    substF_eq_self_of_head
      (fun x cs hx =>
        tryMdCodeBlock_none (tri_char_ne hx (by decide) (by decide) (by decide)))
      _ _ hchar
  have e2 : subst tryMdInline ('*' :: '*' :: (w0 :: w') ++ ['*', '*'])
      = ('*' :: '*' :: (w0 :: w') ++ ['*', '*']) :=
    substF_eq_self_of_head
      (fun x cs hx =>
        tryMdInline_none (tri_char_ne hx (by decide) (by decide) (by decide)))
      _ _ hchar
  have e3 := setextStage_single _ hnl
  have e4 : onLines atxLineOpt ('*' :: '*' :: (w0 :: w') ++ ['*', '*'])
      = ('*' :: '*' :: (w0 :: w') ++ ['*', '*']) := by
    rw [onLines_no_nl _ _ hnl]
    exact lineApply_none (atxLineOpt_none (by decide))
  have e5 : subst tryMdBold ('*' :: '*' :: (w0 :: w') ++ ['*', '*'])
      = '*' :: (w0 :: w') ++ ['*'] :=
    subst_head_all (tryMdBold_fire_double w0 w' hw)
  have hchar2 : ∀ x ∈ ('*' :: ((w0 :: w') ++ ['*'])),
      x = '*' ∨ x = '_' ∨ plainChar x = true := by
    intro x hx
    rcases List.mem_cons.mp hx with rfl | hx
    · exact Or.inl rfl
    rcases List.mem_append.mp hx with h1 | h2
    · exact Or.inr (Or.inr (alnum_plain (hw x h1)))
    · simp only [List.mem_cons, List.not_mem_nil, or_false] at h2
      exact Or.inl h2
  rw [markdown_to_jira_pipeline _ (by simp)]
  rw [e1, e2, e3, e4, e5]
  exact m2j_tail_em '*' ((w0 :: w') ++ ['*']) hchar2 (by decide) (by decide)

/-- `markdown_to_jira` turns `*w*` into `_w_` for nonempty alphanumeric `w`. -/
theorem emUnd_m2j (w0 : Char) (w' : Str) (hw : ∀ x ∈ (w0 :: w'), alnum x = true) :
    markdown_to_jira ('*' :: (w0 :: w') ++ ['*']) = '_' :: (w0 :: w') ++ ['_'] := by
  have hchar : ∀ x ∈ ('*' :: (w0 :: w') ++ ['*']),
      x = '*' ∨ x = '_' ∨ plainChar x = true := by
    intro x hx
    rcases List.mem_cons.mp hx with rfl | hx
    · exact Or.inl rfl
    rcases List.mem_append.mp hx with h1 | h2
    · exact Or.inr (Or.inr (alnum_plain (hw x h1)))
    · simp only [List.mem_cons, List.not_mem_nil, or_false] at h2
      exact Or.inl h2
  have hneT : ∀ (u : Char), u ≠ '*' → u ≠ '_' → plainChar u = false →
      ∀ x ∈ ('*' :: (w0 :: w') ++ ['*']), x ≠ u :=
    fun u h1 h2 h3 x hx => tri_char_ne (hchar x hx) h1 h2 h3
  have hnl : '\n' ∉ ('*' :: (w0 :: w') ++ ['*']) :=
    fun hmem => (hneT '\n' (by decide) (by decide) (by decide) _ hmem) rfl
  have e1 : subst tryMdCodeBlock ('*' :: (w0 :: w') ++ ['*'])
      = ('*' :: (w0 :: w') ++ ['*']) :=
    substF_eq_self_of_head
      (fun x cs hx =>
        tryMdCodeBlock_none (tri_char_ne hx (by decide) (by decide) (by decide)))
      _ _ hchar
  have e2 : subst tryMdInline ('*' :: (w0 :: w') ++ ['*'])
      = ('*' :: (w0 :: w') ++ ['*']) :=
    substF_eq_self_of_head
      (fun x cs hx =>
        tryMdInline_none (tri_char_ne hx (by decide) (by decide) (by decide)))
      _ _ hchar
  have e3 := setextStage_single _ hnl
  have e4 : onLines atxLineOpt ('*' :: (w0 :: w') ++ ['*'])
      = ('*' :: (w0 :: w') ++ ['*']) := by
    rw [onLines_no_nl _ _ hnl]
    exact lineApply_none (atxLineOpt_none (by decide))
  have e5 : subst tryMdBold ('*' :: (w0 :: w') ++ ['*'])
      = '_' :: (w0 :: w') ++ ['_'] :=
    subst_head_all (tryMdBold_fire_star w0 w' hw)
  have hchar2 : ∀ x ∈ ('_' :: ((w0 :: w') ++ ['_'])),
      x = '*' ∨ x = '_' ∨ plainChar x = true := by
    intro x hx
    rcases List.mem_cons.mp hx with rfl | hx
    · exact Or.inr (Or.inl rfl)
    rcases List.mem_append.mp hx with h1 | h2
    · exact Or.inr (Or.inr (alnum_plain (hw x h1)))
    · simp only [List.mem_cons, List.not_mem_nil, or_false] at h2
      exact Or.inr (Or.inl h2)
  rw [markdown_to_jira_pipeline _ (by simp)]
  rw [e1, e2, e3, e4, e5]
  exact m2j_tail_em '_' ((w0 :: w') ++ ['_']) hchar2 (by decide) (by decide)

/-! ## Identity of `jira_to_markdown` on token-free text (for the idempotence
claim) -/

theorem noWiki_j2m_id (y : Str) (h : noWikiTokens y = true) : jira_to_markdown y = y := by
  by_cases hy : y = []
  · subst hy
    rfl
  unfold noWikiTokens at h
  simp only [Bool.and_eq_true, Bool.not_eq_true', List.all_eq_true] at h
  obtain ⟨⟨⟨⟨⟨⟨⟨⟨⟨⟨⟨⟨⟨⟨⟨hlines, hbold⟩, hic⟩, hcit⟩, hins⟩, hsup⟩, hsub⟩, hcode⟩,
    hnof⟩, hquote⟩, hia⟩, hip⟩, hipl⟩, hlp⟩, hlb⟩, hcol⟩ := h
  have hlq : ∀ l ∈ splitLines y,
      (bqLineOpt l).isNone = true ∧ (listLineOpt l).isNone = true ∧
        (headerLineOpt l).isNone = true ∧ containsSub ("||".toList) l = false := by
    intro l hl
    have := hlines l hl
    simp only [Bool.and_eq_true, Bool.not_eq_true'] at this
    exact ⟨this.1.1.1, this.1.1.2, this.1.2, this.2⟩
  have e1 : onLines bqLineOpt y = y :=
    onLines_eq_self _ _ (fun l hl => Option.isNone_iff_eq_none.mp (hlq l hl).1)
  have e2 : jiraBold y = y := jiraBoldHasF_eq_self y.length none y hbold
  have e3 : onLines listLineOpt y = y :=
    onLines_eq_self _ _ (fun l hl => Option.isNone_iff_eq_none.mp (hlq l hl).2.1)
  have e4 : onLines headerLineOpt y = y :=
    onLines_eq_self _ _ (fun l hl => Option.isNone_iff_eq_none.mp (hlq l hl).2.2.1)
  have e5 : subst tryInlineCode y = y := substF_eq_self_of_not_hasMatch _ _ hic
  have e6 : subst tryCitation y = y := substF_eq_self_of_not_hasMatch _ _ hcit
  have e7 : subst tryIns y = y := substF_eq_self_of_not_hasMatch _ _ hins
  have e8 : subst trySup y = y := substF_eq_self_of_not_hasMatch _ _ hsup
  have e9 : subst trySub y = y := substF_eq_self_of_not_hasMatch _ _ hsub
  have e10 : subst tryStrike y = y := substF_eq_self_of_replSelf tryStrike_replSelf _ _
  have e11 : subst tryCodeBlock y = y := substF_eq_self_of_not_hasMatch _ _ hcode
  have e12 : subst tryNoformat y = y := substF_eq_self_of_not_hasMatch _ _ hnof
  have e13 : subst tryQuote y = y := substF_eq_self_of_not_hasMatch _ _ hquote
  have e14 : subst tryImgAlt y = y := substF_eq_self_of_not_hasMatch _ _ hia
  have e15 : subst tryImgParams y = y := substF_eq_self_of_not_hasMatch _ _ hip
  have e16 : subst tryImgPlain y = y := substF_eq_self_of_not_hasMatch _ _ hipl
  have e17 : subst tryLinkPiped y = y := substF_eq_self_of_not_hasMatch _ _ hlp
  have e18 : subst tryLinkBare y = y := substF_eq_self_of_not_hasMatch _ _ hlb
  have e19 : subst tryColor y = y := substF_eq_self_of_not_hasMatch _ _ hcol
  have etab : convertJiraTables (splitLines y) = splitLines y :=
    convertJiraTables_id _ (fun l hl => (hlq l hl).2.2.2)
  rw [jira_to_markdown_pipeline _ hy]
  rw [e1, e2, e3, e4, e5, e6, e7, e8, e9, e10, e11, e12, e13, e14, e15, e16, e17, e18,
    e19, etab, joinLines_splitLines]

/-! ## The soup mention decision in closed form -/

theorem linkMentionF_eq_spec (fuel : Nat) (ch : List HNode) :
    linkMentionF fuel ch = specLinkMentionF fuel ch := by
  unfold linkMentionF specLinkMentionF linkMentionCase2F
  cases hf : findElemF "ri:user" fuel ch with
  | none =>
    cases hb : findElemF "ac:link-body" fuel ch with
    | none => rfl
    | some n =>
      cases n with
      | htext s => rfl
      | elem nm attrs ch2 =>
        by_cases hat : ((getTextStrip fuel ch2).toList.contains '@') = true
        · simp only [if_pos hat]
        · simp only [if_neg hat]
  | some n =>
    cases n with
    | htext s =>
      dsimp only
      cases hb : findElemF "ac:link-body" fuel ch with
      | none => rfl
      | some m =>
        cases m with
        | htext s2 => rfl
        | elem nm attrs ch2 =>
          dsimp only
          by_cases hat : ((getTextStrip fuel ch2).toList.contains '@') = true
          · simp only [if_pos hat]
          · simp only [if_neg hat]
    | elem nm attrs ch2 =>
      dsimp only
      cases hl : attrs.lookup "ri:account-id" with
      | some v => rfl
      | none =>
        cases hb : findElemF "ac:link-body" fuel ch with
        | none => rfl
        | some m =>
          cases m with
          | htext s2 => rfl
          | elem nm2 attrs2 ch3 =>
            dsimp only
            by_cases hat : ((getTextStrip fuel ch3).toList.contains '@') = true
            · simp only [if_pos hat, hl]
            · simp only [if_neg hat]

/-! ## Cache lemmas -/

theorem lookup_cons_self (id v : Str) (l : List (Str × Str)) :
    ((id, v) :: l).lookup id = some v := by
  simp [List.lookup]

theorem cachedFindUser_hit (user : Str → Str) (st : UserCache) (id v : Str)
    (h : st.entries.lookup id = some v) :
    (cachedFindUser user st id).1 = v ∧ (cachedFindUser user st id).2.2 = 0 := by
  unfold cachedFindUser
  rw [h]
  exact ⟨rfl, rfl⟩

theorem cachedFindUser_miss (user : Str → Str) (st : UserCache) (id : Str)
    (h : st.entries.lookup id = none) :
    (cachedFindUser user st id).1 = user id ∧ (cachedFindUser user st id).2.2 = 1 := by
  unfold cachedFindUser
  rw [h]
  exact ⟨rfl, rfl⟩

theorem cachedFindUser_repeat (user : Str → Str) (st : UserCache) (id : Str) :
    (cachedFindUser user (cachedFindUser user st id).2.1 id).2.2 = 0 := by
  obtain ⟨v, rest, hh⟩ :
      ∃ v rest, (cachedFindUser user st id).2.1.entries = (id, v) :: rest := by
    unfold cachedFindUser
    cases h : st.entries.lookup id with
    | some v => exact ⟨v, _, rfl⟩
    | none => exact ⟨user id, st.entries.take 99, rfl⟩
  generalize hst2 : (cachedFindUser user st id).2.1 = st2 at hh
  unfold cachedFindUser
  rw [hh, lookup_cons_self]

theorem filter_length_lt_of_lookup : ∀ (l : List (Str × Str)) (id v : Str),
    l.lookup id = some v →
    (l.filter (fun p => !(p.1 = id : Bool))).length < l.length := by
  intro l
  induction l with
  | nil => intro id v h; simp [List.lookup] at h
  | cons e rest ih =>
    intro id v h
    obtain ⟨k, w⟩ := e
    rw [List.lookup] at h
    cases hk : (id == k) with
    | true =>
      have hki : k = id := (eq_of_beq hk).symm
      have hle := List.length_filter_le (fun p => !(p.1 = id : Bool)) rest
      rw [List.filter_cons]
      rw [if_neg (by simp [hki])]
      simp only [List.length_cons]
      omega
    | false =>
      rw [hk] at h
      have hne : ¬(k = id) := fun he => by
        rw [he] at hk
        simp at hk
      have hrec := ih id v h
      rw [List.filter_cons]
      rw [if_pos (by simp [hne])]
      simp only [List.length_cons]
      omega

theorem cachedFindUser_bound (user : Str → Str) (st : UserCache) (id : Str)
    (h : st.entries.length ≤ 100) :
    (cachedFindUser user st id).2.1.entries.length ≤ 100 := by
  unfold cachedFindUser
  cases hl : st.entries.lookup id with
  | some v =>
    dsimp only
    have := filter_length_lt_of_lookup st.entries id v hl
    simp only [List.length_cons]
    omega
  | none =>
    dsimp only
    simp [List.length_take]

/-! ## Mention-pass lemmas -/

theorem findMentionIdsF_nil (fuel : Nat) : findMentionIdsF fuel [] = [] := by
  cases fuel <;> rfl

theorem findMentionIds_single (id : Str) (hid : ∀ x ∈ id, x ≠ ']' ∧ x ≠ '\n') :
    findMentionIds (mentionTok id) = [id] := by
  have hsplit : findSplitNoNL ([']'] : Str) (id ++ [']']) = some (id, []) := by
    have h0 := @findSplitNoNL_append_self ([']'] : Str) (by simp) ([] : Str)
    rw [List.append_nil] at h0
    have h1 := findSplitNoNL_append_plain rfl id hid h0
    simpa using h1
  show findMentionIdsF (mentionTok id).length (mentionTok id) = [id]
  rw [show (mentionTok id).length
      = ((("~accountid:".toList) ++ (id ++ [']'])).length) + 1 from by simp [mentionTok]]
  rw [show mentionTok id = '[' :: (("~accountid:".toList) ++ (id ++ [']'])) from by
    simp [mentionTok]]
  simp only [findMentionIdsF]
  rw [show matchLit ("[~accountid:".toList)
      ('[' :: (("~accountid:".toList) ++ (id ++ [']'])))
      = some (id ++ [']']) from by
    have h2 := matchLit_append ("[~accountid:".toList) (id ++ [']'])
    simpa using h2]
  dsimp only
  rw [hsplit]
  dsimp only
  rw [findMentionIdsF_nil]

theorem processMentions_all_fail (lookup : Str → Option Str) :
    ∀ (ids : List Str) (t : Str), (∀ id ∈ ids, lookup id = none) →
      ids.foldl (fun t id =>
        match lookup id with
        | some name => replaceAll (mentionTok id) ('@' :: '<' :: name ++ ['>']) t
        | none => t) t = t := by
  intro ids
  induction ids with
  | nil => intro t _; rfl
  | cons i rest ih =>
    intro t h
    simp only [List.foldl_cons]
    rw [h i (by simp)]
    exact ih t (fun id hid => h id (by simp [hid]))

theorem processMentions_none_id (lookup : Str → Option Str) (text : Str)
    (h : ∀ id ∈ findMentionIds text, lookup id = none) :
    processMentions lookup text = text :=
  processMentions_all_fail lookup (findMentionIds text) text h

theorem replaceAll_whole (needle repl : Str) (n0 : Char) (nt : Str) (hn : needle = n0 :: nt) :
    replaceAll needle repl needle = repl := by
  subst hn
  show subst (replTM (n0 :: nt) repl) (n0 :: nt) = repl
  apply subst_head_all
  have h := replTM_here (n0 :: nt) repl [] (by simp)
  rwa [List.append_nil] at h

theorem processMentions_single (lookup : Str → Option Str) (id name : Str)
    (hid : ∀ x ∈ id, x ≠ ']' ∧ x ≠ '\n') (hl : lookup id = some name) :
    processMentions lookup (mentionTok id) = '@' :: '<' :: name ++ ['>'] := by
  unfold processMentions
  rw [findMentionIds_single id hid]
  simp only [List.foldl_cons, List.foldl_nil]
  rw [hl]
  exact replaceAll_whole _ _ '[' (("~accountid:".toList) ++ (id ++ [']'])) rfl

theorem findMentionIdsF_skip (a : Str) (ha : ∀ x ∈ a, x ≠ '[') :
    ∀ (s : Str) (fuel : Nat), findMentionIdsF (a.length + fuel) (a ++ s)
      = findMentionIdsF fuel s := by
  induction a with
  | nil => intro s fuel; simp
  | cons x a' ih =>
    intro s fuel
    have hx : x ≠ '[' := ha x (by simp)
    rw [show (x :: a').length + fuel = ((a'.length + fuel) + 1) from by simp; omega]
    rw [show (x :: a') ++ s = x :: (a' ++ s) from rfl]
    simp only [findMentionIdsF]
    rw [show matchLit ("[~accountid:".toList) (x :: (a' ++ s)) = none from
      matchLit_cons_none hx]
    exact ih (fun y hy => ha y (by simp [hy])) s fuel

theorem findMentionIdsF_tok (id : Str) (hid : ∀ x ∈ id, x ≠ ']' ∧ x ≠ '\n')
    (s : Str) (fuel : Nat) :
    findMentionIdsF (fuel + 1) (mentionTok id ++ s) = id :: findMentionIdsF fuel s := by
  have hsplit : findSplitNoNL ([']'] : Str) (id ++ ']' :: s) = some (id, s) := by
    have h0 := @findSplitNoNL_append_self ([']'] : Str) (by simp) s
    have h1 := findSplitNoNL_append_plain rfl id hid h0
    simpa using h1
  rw [show mentionTok id ++ s
      = '[' :: (("~accountid:".toList) ++ (id ++ ']' :: s)) from by simp [mentionTok]]
  simp only [findMentionIdsF]
  rw [show matchLit ("[~accountid:".toList)
      ('[' :: (("~accountid:".toList) ++ (id ++ ']' :: s)))
      = some (id ++ ']' :: s) from by
    have h2 := matchLit_append ("[~accountid:".toList) (id ++ ']' :: s)
    simpa using h2]
  dsimp only
  rw [hsplit]

/-- The mention pattern on a text with two occurrences of one token,
separated by `[`-free context. -/
theorem findMentionIds_two (a b c id : Str) (ha : ∀ x ∈ a, x ≠ '[')
    (hb : ∀ x ∈ b, x ≠ '[') (hc : ∀ x ∈ c, x ≠ '[')
    (hid : ∀ x ∈ id, x ≠ ']' ∧ x ≠ '\n') :
    findMentionIds (a ++ mentionTok id ++ (b ++ mentionTok id ++ c)) = [id, id] := by
  have hlen : (a ++ mentionTok id ++ (b ++ mentionTok id ++ c)).length
      = a.length + ((b.length + ((c.length + (2 * (mentionTok id).length - 2)) + 1)) + 1) := by
    have hm : 1 ≤ (mentionTok id).length := by simp [mentionTok]
    simp only [List.length_append]
    omega
  show findMentionIdsF _ _ = [id, id]
  rw [hlen]
  rw [show a ++ mentionTok id ++ (b ++ mentionTok id ++ c)
      = a ++ (mentionTok id ++ (b ++ (mentionTok id ++ c))) from by simp]
  rw [findMentionIdsF_skip a ha]
  rw [findMentionIdsF_tok id hid]
  rw [findMentionIdsF_skip b hb]
  rw [findMentionIdsF_tok id hid]
  have hcend : findMentionIdsF (c.length + (2 * (mentionTok id).length - 2)) c = [] := by
    have h := findMentionIdsF_skip c hc [] (2 * (mentionTok id).length - 2)
    rw [List.append_nil] at h
    rw [h, findMentionIdsF_nil]
  rw [hcend]

/-- One global pass replaces both of two non-overlapping occurrences. -/
theorem replaceAll_two (n0 : Char) (nt repl a b c : Str)
    (ha : ∀ x ∈ a, x ≠ n0) (hb : ∀ x ∈ b, x ≠ n0) (hc : ∀ x ∈ c, x ≠ n0) :
    replaceAll (n0 :: nt) repl (a ++ (n0 :: nt) ++ (b ++ (n0 :: nt) ++ c))
      = a ++ repl ++ (b ++ repl ++ c) := by
  have hP : ∀ (x : Char) (cs : Str), x ≠ n0 → replTM (n0 :: nt) repl (x :: cs) = none :=
    fun x cs hx => replTM_none rfl hx
  have h1 := replTM_here (n0 :: nt) repl (b ++ ((n0 :: nt) ++ c)) (by simp)
  have h2 := replTM_here (n0 :: nt) repl c (by simp)
  show substF (replTM (n0 :: nt) repl)
      ((a ++ (n0 :: nt) ++ (b ++ (n0 :: nt) ++ c)).length)
      (a ++ (n0 :: nt) ++ (b ++ (n0 :: nt) ++ c))
      = a ++ repl ++ (b ++ repl ++ c)
  rw [show a ++ (n0 :: nt) ++ (b ++ (n0 :: nt) ++ c)
      = a ++ ((n0 :: nt) ++ (b ++ ((n0 :: nt) ++ c))) from by simp]
  rw [show (a ++ ((n0 :: nt) ++ (b ++ ((n0 :: nt) ++ c)))).length
      = a.length + ((b.length + ((nt.length + (nt.length + c.length)) + 1)) + 1) from by
    simp only [List.length_append, List.length_cons]
    omega]
  rw [substF_append_head hP a _ _ (fun x hx => ha x hx)]
  rw [show (n0 :: nt) ++ (b ++ ((n0 :: nt) ++ c))
      = n0 :: (nt ++ (b ++ ((n0 :: nt) ++ c))) from rfl]
  rw [substF_cons_some _
    (show replTM (n0 :: nt) repl (n0 :: (nt ++ (b ++ ((n0 :: nt) ++ c))))
        = some (repl, b ++ ((n0 :: nt) ++ c)) from h1)]
  rw [substF_append_head hP b _ _ (fun x hx => hb x hx)]
  rw [show (n0 :: nt) ++ c = n0 :: (nt ++ c) from rfl]
  rw [substF_cons_some _
    (show replTM (n0 :: nt) repl (n0 :: (nt ++ c)) = some (repl, c) from h2)]
  rw [substF_eq_self_of_head hP _ _ (fun x hx => hc x hx)]
  simp

/-- `_process_mentions` on a text with two occurrences of a resolvable token:
both occurrences are replaced. -/
theorem processMentions_two (lookup : Str → Option Str) (a b c id name : Str)
    (ha : ∀ x ∈ a, x ≠ '[') (hb : ∀ x ∈ b, x ≠ '[') (hc : ∀ x ∈ c, x ≠ '[')
    (hid : ∀ x ∈ id, x ≠ ']' ∧ x ≠ '\n') (hname : ∀ x ∈ name, x ≠ '[')
    (hl : lookup id = some name) :
    processMentions lookup (a ++ mentionTok id ++ (b ++ mentionTok id ++ c))
      = a ++ ('@' :: '<' :: name ++ ['>']) ++ (b ++ ('@' :: '<' :: name ++ ['>']) ++ c) := by
  have hrepl : ∀ x ∈ ('@' :: '<' :: name ++ ['>']), x ≠ '[' := by
    intro x hx
    rcases List.mem_cons.mp hx with rfl | hx
    · decide
    rcases List.mem_cons.mp hx with rfl | hx
    · decide
    rcases List.mem_append.mp hx with h1 | h2
    · exact hname x h1
    · simp only [List.mem_cons, List.not_mem_nil, or_false] at h2
      subst h2
      decide
  unfold processMentions
  rw [findMentionIds_two a b c id ha hb hc hid]
  simp only [List.foldl_cons, List.foldl_nil]
  rw [hl]
  dsimp only
  rw [show mentionTok id = '[' :: (("~accountid:".toList) ++ (id ++ [']'])) from by
    simp [mentionTok]]
  rw [replaceAll_two '[' (("~accountid:".toList) ++ (id ++ [']']))
    ('@' :: '<' :: name ++ ['>']) a b c ha hb hc]
  exact substF_eq_self_of_head
    (fun x cs hx => replTM_none rfl hx) _ _
    (by
      intro x hx
      rcases List.mem_append.mp hx with h1 | h2
      · rcases List.mem_append.mp h1 with h3 | h4
        · exact ha x h3
        · exact hrepl x h4
      · rcases List.mem_append.mp h2 with h5 | h6
        · rcases List.mem_append.mp h5 with h7 | h8
          · exact hb x h7
          · exact hrepl x h8
        · exact hc x h6)

/-! ## Smart-link lemmas -/

theorem findSmartLinksF_nil (fuel : Nat) : findSmartLinksF fuel [] = [] := by
  cases fuel <;> rfl

theorem trySmartLink_fire (t u : Str) (ht : ∀ x ∈ t, x ≠ '|' ∧ x ≠ '\n')
    (hu : ∀ x ∈ u, x ≠ '|' ∧ x ≠ '\n') :
    trySmartLink ('[' :: (t ++ '|' :: (u ++ ("|smart-link]".toList))))
      = some (t, u, []) := by
  have h1 : findSplitNoNL (['|'] : Str) (t ++ '|' :: (u ++ ("|smart-link]".toList)))
      = some (t, u ++ ("|smart-link]".toList)) := by
    have h0 := @findSplitNoNL_append_self (['|'] : Str) (by simp)
      (u ++ ("|smart-link]".toList))
    have h2 := findSplitNoNL_append_plain rfl t ht h0
    simpa using h2
  have h3 : findSplitNoNL ("|smart-link]".toList) (u ++ ("|smart-link]".toList))
      = some (u, []) := by
    have h0 := @findSplitNoNL_append_self ("|smart-link]".toList) (by simp)
      ([] : Str)
    rw [List.append_nil] at h0
    have h2 := findSplitNoNL_append_plain rfl u hu h0
    simpa using h2
  unfold trySmartLink
  dsimp only
  rw [if_pos rfl]
  rw [h1]
  dsimp only
  rw [h3]

theorem findSmartLinks_single (t u : Str) (ht : ∀ x ∈ t, x ≠ '|' ∧ x ≠ '\n')
    (hu : ∀ x ∈ u, x ≠ '|' ∧ x ≠ '\n') :
    findSmartLinks (smartLinkFull t u) = [(t, u)] := by
  show findSmartLinksF (smartLinkFull t u).length (smartLinkFull t u) = [(t, u)]
  rw [show (smartLinkFull t u).length
      = ((t ++ '|' :: (u ++ ("|smart-link]".toList))).length) + 1 from by
    simp [smartLinkFull]]
  rw [show smartLinkFull t u = '[' :: (t ++ '|' :: (u ++ ("|smart-link]".toList))) from by
    simp [smartLinkFull]]
  simp only [findSmartLinksF]
  rw [trySmartLink_fire t u ht hu]
  dsimp only
  rw [findSmartLinksF_nil]

theorem processSmartLinks_issue (baseUrl t u key : Str)
    (ht : ∀ x ∈ t, x ≠ '|' ∧ x ≠ '\n') (hu : ∀ x ∈ u, x ≠ '|' ∧ x ≠ '\n')
    (hk : searchIssueKey u = some key) :
    processSmartLinks baseUrl (smartLinkFull t u)
      = '[' :: key ++ ("](".toList) ++ baseUrl ++ ("/browse/".toList) ++ key ++ [')'] := by
  unfold processSmartLinks
  rw [findSmartLinks_single t u ht hu]
  simp only [List.foldl_cons, List.foldl_nil]
  rw [hk]
  exact replaceAll_whole _ _ '[' (t ++ '|' :: (u ++ ("|smart-link]".toList)))
    (by simp [smartLinkFull])

/-! ## Table-pass lemmas -/

theorem replaceAll_table_row (a b : Str) (ha : ∀ x ∈ a, x ≠ '|') (hb : ∀ x ∈ b, x ≠ '|') :
    replaceAll ("||".toList) (['|']) ('|' :: '|' :: (a ++ '|' :: '|' :: (b ++ ['|', '|'])))
      = '|' :: (a ++ '|' :: (b ++ ['|'])) := by
  have hP : ∀ (c : Char) (cs : Str), c ≠ '|' →
      replTM ("||".toList) (['|']) (c :: cs) = none :=
    fun c cs hc => replTM_none rfl hc
  have h1 := replTM_here ("||".toList) (['|']) (a ++ '|' :: '|' :: (b ++ ['|', '|']))
    (by simp)
  have h2 := replTM_here ("||".toList) (['|']) (b ++ ['|', '|']) (by simp)
  have h3 : replTM ("||".toList) (['|']) (['|', '|'] : Str) = some (['|'], []) := by
    have h0 := replTM_here ("||".toList) (['|']) [] (by simp)
    rwa [List.append_nil] at h0
  show substF (replTM ("||".toList) (['|']))
      (('|' :: '|' :: (a ++ '|' :: '|' :: (b ++ ['|', '|']))).length)
      ('|' :: '|' :: (a ++ '|' :: '|' :: (b ++ ['|', '|'])))
      = '|' :: (a ++ '|' :: (b ++ ['|']))
  rw [show ('|' :: '|' :: (a ++ '|' :: '|' :: (b ++ ['|', '|']))).length
      = (a.length + (b.length + 5)) + 1 from by simp; omega]
  rw [substF_cons_some _ (by simpa using h1)]
  rw [show a ++ '|' :: '|' :: (b ++ ['|', '|']) = a ++ ('|' :: '|' :: (b ++ ['|', '|']))
      from rfl]
  rw [substF_append_head hP a ('|' :: '|' :: (b ++ ['|', '|'])) (b.length + 5)
      (fun c hc => ha c hc)]
  rw [show (b.length + 5) = (b.length + 4) + 1 from rfl]
  rw [substF_cons_some _ (by simpa using h2)]
  rw [substF_append_head hP b (['|', '|']) 4 (fun c hc => hb c hc)]
  rw [show (4 : Nat) = 3 + 1 from rfl]
  rw [substF_cons_some _ h3]
  rw [substF_nil]
  simp

theorem countC_table_row (a b : Str) (ha : ∀ x ∈ a, x ≠ '|') (hb : ∀ x ∈ b, x ≠ '|') :
    countC '|' ('|' :: (a ++ '|' :: (b ++ ['|']))) = 3 := by
  rw [show ('|' :: (a ++ '|' :: (b ++ ['|'])))
      = ['|'] ++ (a ++ (['|'] ++ (b ++ ['|']))) from by simp]
  rw [countC_append, countC_append, countC_append, countC_append]
  rw [countC_eq_zero '|' a ha, countC_eq_zero '|' b hb]
  rfl

theorem convertJiraTables_row2 (a b : Str) (rest : List Str)
    (ha : ∀ x ∈ a, x ≠ '|') (hb : ∀ x ∈ b, x ≠ '|') :
    convertJiraTables (('|' :: '|' :: (a ++ '|' :: '|' :: (b ++ ['|', '|']))) :: rest)
      = ('|' :: (a ++ '|' :: (b ++ ['|']))) :: sepLine 2 :: convertJiraTables rest := by
  have hcont : containsSub ("||".toList)
      ('|' :: '|' :: (a ++ '|' :: '|' :: (b ++ ['|', '|']))) = true := by
    have h0 := containsSub_of_here ("||".toList) (a ++ '|' :: '|' :: (b ++ ['|', '|']))
      (by simp)
    simpa using h0
  conv_lhs => rw [convertJiraTables]
  rw [if_pos hcont]
  dsimp only
  rw [replaceAll_table_row a b ha hb]
  rw [countC_table_row a b ha hb]
  rw [if_pos (show (0 : Nat) < 3 - 1 by norm_num)]

theorem natToStr_digit (d : Char) (hd : d ∈ (['1', '2', '3', '4', '5', '6'] : List Char)) :
    natToStr (d.toNat - 48) = [d] := by
  fin_cases hd <;> rfl

theorem processMentionsC_calls (lookup : Str → Option Str) :
    ∀ (ids : List Str) (t : Str) (n : Nat),
      (ids.foldl (fun acc id =>
        match lookup id with
        | some name => (replaceAll (mentionTok id) ('@' :: '<' :: name ++ ['>']) acc.1,
            acc.2 + 1)
        | none => (acc.1, acc.2 + 1)) (t, n)).2 = n + ids.length := by
  intro ids
  induction ids with
  | nil => intro t n; simp
  | cons i rest ih =>
    intro t n
    simp only [List.foldl_cons]
    cases h : lookup i with
    | some name =>
      simp only [h]
      rw [ih _ (n + 1)]
      simp only [List.length_cons]
      omega
    | none =>
      simp only [h]
      rw [ih t (n + 1)]
      simp only [List.length_cons]
      omega

theorem processMentionsC_fst (lookup : Str → Option Str) :
    ∀ (ids : List Str) (t : Str) (n : Nat),
      (ids.foldl (fun acc id =>
        match lookup id with
        | some name => (replaceAll (mentionTok id) ('@' :: '<' :: name ++ ['>']) acc.1,
            acc.2 + 1)
        | none => (acc.1, acc.2 + 1)) (t, n)).1
      = ids.foldl (fun t id =>
        match lookup id with
        | some name => replaceAll (mentionTok id) ('@' :: '<' :: name ++ ['>']) t
        | none => t) t := by
  intro ids
  induction ids with
  | nil => intro t n; rfl
  | cons i rest ih =>
    intro t n
    simp only [List.foldl_cons]
    cases h : lookup i with
    | some name =>
      simp only [h]
      rw [ih _ (n + 1)]
    | none =>
      simp only [h]
      rw [ih t (n + 1)]

/-- The counting pass computes the same text as `processMentions`, and makes
one external call per located mention occurrence. -/
theorem processMentionsC_spec (lookup : Str → Option Str) (text : Str) :
    (processMentionsC lookup text).1 = processMentions lookup text
  ∧ (processMentionsC lookup text).2 = (findMentionIds text).length :=
  ⟨processMentionsC_fst lookup (findMentionIds text) text 0,
   by
    have h := processMentionsC_calls lookup (findMentionIds text) text 0
    simpa using h⟩

/-! ## The claims -/

/-- C1 (code bug): `markdown_to_jira` does not shield extracted code content
from the later rewrite rules: the saved code text is substituted back into
the working string immediately, so the emphasis rule rewrites `**bold**`
inside a fenced block to `*bold*`. -/
theorem claim_C1 :
    markdown_to_jira (("```\n**bold**\n```").toList)
      = (("\x7bcode\x7d*bold*\n\x7bcode\x7d").toList)
  ∧ (("\x7bcode\x7d*bold*\n\x7bcode\x7d").toList)
      ≠ (("\x7bcode\x7d**bold**\n\x7bcode\x7d").toList) :=
  ⟨by decide, by decide⟩

/-- C2 (corrected): `jira_to_markdown` preserves fenced `\x7bcode\x7d` content
byte-for-byte inside the resulting backtick fence whenever the content is
inert (letters, digits, spaces); a `\x7bnoformat\x7d` block converts the same
way.  The frozen claim's ordering clause fails: emphasis runs before the
code-block rule (see the counterexample). -/
theorem claim_C2 :
    (∀ (c : Str), (∀ x ∈ c, plainChar x = true) →
       jira_to_markdown (("\x7bcode\x7d".toList) ++ c ++ ("\x7bcode\x7d".toList))
         = ("```\n".toList) ++ c ++ ("\n```".toList))
  ∧ jira_to_markdown (("\x7bnoformat\x7dabc\x7bnoformat\x7d").toList)
      = (("```\nabc\n```").toList) :=
  ⟨fence_j2m, by decide⟩

/-- C2 counterexample: the bold rule runs before code-block extraction, so
`\x7bcode\x7d*x*\x7bcode\x7d` reaches the fence with its content rewritten
to `**x**` rather than byte-identical `*x*`. -/
theorem claim_C2_counterexample :
    jira_to_markdown (("\x7bcode\x7d*x*\x7bcode\x7d").toList) = (("```\n**x**\n```").toList)
  ∧ (("```\n**x**\n```").toList) ≠ ("```\n".toList ++ ("*x*").toList ++ ("\n```".toList)) :=
  ⟨by decide, by decide⟩

/-- C2 witness: the inert-content preservation instantiated at `abc`. -/
theorem claim_C2_witness :
    jira_to_markdown (("\x7bcode\x7d".toList) ++ ("abc".toList) ++ ("\x7bcode\x7d".toList))
      = ("```\n".toList) ++ ("abc".toList) ++ ("\n```".toList) :=
  claim_C2.1 (("abc").toList) (by decide)

set_option maxRecDepth 10000 in
/-- C3 (corrected): the `lru_cache`-wrapped resolver behaves exactly as
claimed — a hit returns the stored value with no external call, a miss issues
exactly one external call, resolving the same id right after any resolve is a
hit with no call, the cache never exceeds 100 entries, and after 101 distinct
lookups the least-recently-used key is evicted (its next resolve calls out
again) while a fresher key is still cached.  The engine's mention pass,
however, never consults that cache: `_process_mentions` calls
`jira_client.user` directly, one external call per located mention occurrence
(last conjunct; see the counterexample for a repeated id). -/
theorem claim_C3 :
    (∀ (user : Str → Str) (st : UserCache) (id v : Str),
       st.entries.lookup id = some v →
       (cachedFindUser user st id).1 = v ∧ (cachedFindUser user st id).2.2 = 0)
  ∧ (∀ (user : Str → Str) (st : UserCache) (id : Str),
       st.entries.lookup id = none →
       (cachedFindUser user st id).1 = user id ∧ (cachedFindUser user st id).2.2 = 1)
  ∧ (∀ (user : Str → Str) (st : UserCache) (id : Str),
       (cachedFindUser user (cachedFindUser user st id).2.1 id).2.2 = 0)
  ∧ (∀ (user : Str → Str) (st : UserCache) (id : Str),
       st.entries.length ≤ 100 →
       (cachedFindUser user st id).2.1.entries.length ≤ 100)
  ∧ ((cachedFindUser (fun _ => ("u").toList)
        (resolveMany (fun _ => ("u").toList) ⟨[]⟩
          ((List.range 101).map (fun n => [Char.ofNat (48 + n)])))
        ([Char.ofNat 48])).2.2 = 1
     ∧ (cachedFindUser (fun _ => ("u").toList)
        (resolveMany (fun _ => ("u").toList) ⟨[]⟩
          ((List.range 101).map (fun n => [Char.ofNat (48 + n)])))
        ([Char.ofNat 49])).2.2 = 0)
  ∧ (∀ (lookup : Str → Option Str) (text : Str),
       (processMentionsC lookup text).2 = (findMentionIds text).length) :=
  ⟨cachedFindUser_hit, cachedFindUser_miss, cachedFindUser_repeat, cachedFindUser_bound,
   ⟨by decide, by decide⟩, fun lookup text => (processMentionsC_spec lookup text).2⟩

/-- C3 counterexample: a text mentioning the same account id twice makes the
mention pass issue two external calls (the second resolve is not a cache
hit), while the actual `lru_cache`-wrapped resolver answers the repeat with
zero calls. -/
theorem claim_C3_counterexample :
    (processMentionsC (fun id => if id = ("42").toList then some (("Ada").toList) else none)
       (("x [~accountid:42] y [~accountid:42] z").toList)).2 = 2
  ∧ (cachedFindUser (fun _ => ("u").toList)
       (cachedFindUser (fun _ => ("u").toList) ⟨[]⟩ (("42").toList)).2.1
       (("42").toList)).2.2 = 0 :=
  ⟨by decide, by decide⟩

/-- C3 witness: hit, miss and bound instantiated on a one-entry cache. -/
theorem claim_C3_witness :
    ((cachedFindUser (fun _ => ("u").toList) ⟨[(("a").toList, ("v").toList)]⟩
        (("a").toList)).1 = ("v").toList
     ∧ (cachedFindUser (fun _ => ("u").toList) ⟨[(("a").toList, ("v").toList)]⟩
        (("a").toList)).2.2 = 0)
  ∧ ((cachedFindUser (fun _ => ("u").toList) ⟨[]⟩ (("a").toList)).1 = ("u").toList
     ∧ (cachedFindUser (fun _ => ("u").toList) ⟨[]⟩ (("a").toList)).2.2 = 1)
  ∧ (cachedFindUser (fun _ => ("u").toList) ⟨[(("a").toList, ("v").toList)]⟩
       (("a").toList)).2.1.entries.length ≤ 100 :=
  ⟨claim_C3.1 _ _ _ _ (by decide), claim_C3.2.1 _ _ _ (by decide),
   claim_C3.2.2.2.1 _ _ _ (by decide)⟩

/-- C4 (confirmed): a mention token whose lookup succeeds with display name
`d` is replaced by `@<d>`; when every found id's lookup fails the text is
returned unchanged (no exception propagates — failures are per-mention); a
failing mention leaves its token in place while other mentions are still
resolved; and a successful id replaces every occurrence of its token. -/
theorem claim_C4 :
    (∀ (lookup : Str → Option Str) (id name : Str),
       (∀ x ∈ id, x ≠ ']' ∧ x ≠ '\n') → lookup id = some name →
       processMentions lookup (mentionTok id) = '@' :: '<' :: name ++ ['>'])
  ∧ (∀ (lookup : Str → Option Str) (text : Str),
       (∀ id ∈ findMentionIds text, lookup id = none) →
       processMentions lookup text = text)
  ∧ processMentions (fun id => if id = ("42").toList then some (("Ada").toList) else none)
      (("see [~accountid:42] and [~accountid:7] end").toList)
      = (("see @<Ada> and [~accountid:7] end").toList)
  ∧ processMentions (fun id => if id = ("42").toList then some (("Ada").toList) else none)
      (("x [~accountid:42] y [~accountid:42] z").toList)
      = (("x @<Ada> y @<Ada> z").toList)
  ∧ (∀ (lookup : Str → Option Str) (a b c id name : Str),
       (∀ x ∈ a, x ≠ '[') → (∀ x ∈ b, x ≠ '[') → (∀ x ∈ c, x ≠ '[') →
       (∀ x ∈ id, x ≠ ']' ∧ x ≠ '\n') → (∀ x ∈ name, x ≠ '[') →
       lookup id = some name →
       processMentions lookup (a ++ mentionTok id ++ (b ++ mentionTok id ++ c))
         = a ++ ('@' :: '<' :: name ++ ['>'])
             ++ (b ++ ('@' :: '<' :: name ++ ['>']) ++ c)) :=
  ⟨processMentions_single, processMentions_none_id, by decide, by decide,
   processMentions_two⟩

/-- C4 witness: the success case at id `42` / name `Ada`, the all-fail case
on a text with one mention, and the two-occurrence replacement at concrete
context strings. -/
theorem claim_C4_witness :
    processMentions (fun _ => some (("Ada").toList)) (mentionTok (("42").toList))
      = '@' :: '<' :: ("Ada").toList ++ ['>']
  ∧ processMentions (fun _ => none) (("hi [~accountid:9]").toList)
      = (("hi [~accountid:9]").toList)
  ∧ processMentions (fun _ => some (("Ada").toList))
      (("x ").toList ++ mentionTok (("42").toList)
        ++ ((" y ").toList ++ mentionTok (("42").toList) ++ (" z").toList))
      = ("x ").toList ++ ('@' :: '<' :: ("Ada").toList ++ ['>'])
          ++ ((" y ").toList ++ ('@' :: '<' :: ("Ada").toList ++ ['>']) ++ (" z").toList) :=
  ⟨claim_C4.1 _ (("42").toList) (("Ada").toList) (by decide) rfl,
   claim_C4.2.1 _ (("hi [~accountid:9]").toList) (fun id _ => rfl),
   claim_C4.2.2.2.2 _ (("x ").toList) ((" y ").toList) ((" z").toList)
     (("42").toList) (("Ada").toList)
     (by decide) (by decide) (by decide) (by decide) (by decide) rfl⟩

/-- C5 (corrected): the Markdown-to-Dialect conversion applied after the
Dialect-to-Markdown conversion reproduces headers and emphasis spans
byte-identically; fenced code-block content is reproduced with one newline
appended before the closing fence (so not byte-identical, see the
counterexample). -/
theorem claim_C5 :
    (∀ (d : Char), d ∈ (['1', '2', '3', '4', '5', '6'] : List Char) →
       ∀ (rest : Str), (∀ x ∈ rest, plainChar x = true) →
       markdown_to_jira (jira_to_markdown ('h' :: d :: '.' :: rest)) = 'h' :: d :: '.' :: rest)
  ∧ (∀ (w0 : Char) (w' : Str), (∀ x ∈ (w0 :: w'), alnum x = true) →
       markdown_to_jira (jira_to_markdown ('*' :: (w0 :: w') ++ ['*']))
         = '*' :: (w0 :: w') ++ ['*'])
  ∧ (∀ (w0 : Char) (w' : Str), (∀ x ∈ (w0 :: w'), alnum x = true) →
       markdown_to_jira (jira_to_markdown ('_' :: (w0 :: w') ++ ['_']))
         = '_' :: (w0 :: w') ++ ['_'])
  ∧ (∀ (c : Str), (∀ x ∈ c, plainChar x = true) →
       markdown_to_jira
           (jira_to_markdown (("\x7bcode\x7d".toList) ++ c ++ ("\x7bcode\x7d".toList)))
         = ("\x7bcode\x7d".toList) ++ c ++ ('\n' :: ("\x7bcode\x7d".toList))) := by
  refine ⟨?_, ?_, ?_, ?_⟩
  · intro d hd rest hrest
    rw [header_j2m d hd rest hrest]
    have hdig : natToStr (d.toNat - 48) = [d] := natToStr_digit d hd
    rw [header_m2j (d.toNat - 48) (by fin_cases hd <;> decide) rest hrest
      (by
        rw [hdig]
        intro x hx
        simp only [List.mem_singleton] at hx
        subst hx
        fin_cases hd <;> decide)]
    rw [hdig]
    rfl
  · intro w0 w' hw
    rw [emStar_j2m (w0 :: w') hw]
    exact emStar_m2j w0 w' hw
  · intro w0 w' hw
    rw [emUnd_j2m (w0 :: w') hw]
    exact emUnd_m2j w0 w' hw
  · intro c hc
    rw [fence_j2m c hc]
    exact fence_m2j c hc

/-- C5 counterexample: the code-block round trip appends a newline, so the
composition is not byte-identical on `\x7bcode\x7dabc\x7bcode\x7d`. -/
theorem claim_C5_counterexample :
    markdown_to_jira (jira_to_markdown (("\x7bcode\x7dabc\x7bcode\x7d").toList))
      = (("\x7bcode\x7dabc\n\x7bcode\x7d").toList)
  ∧ (("\x7bcode\x7dabc\n\x7bcode\x7d").toList) ≠ (("\x7bcode\x7dabc\x7bcode\x7d").toList) :=
  ⟨by decide, by decide⟩

/-- C5 witness: the round trip instantiated on a header, both emphasis
markers, and a code block. -/
theorem claim_C5_witness :
    markdown_to_jira (jira_to_markdown ('h' :: '2' :: '.' :: (" Title").toList))
      = 'h' :: '2' :: '.' :: (" Title").toList
  ∧ markdown_to_jira (jira_to_markdown ('*' :: ('b' :: ("old").toList) ++ ['*']))
      = '*' :: ('b' :: ("old").toList) ++ ['*']
  ∧ markdown_to_jira (jira_to_markdown ('_' :: ('i' :: ("tal").toList) ++ ['_']))
      = '_' :: ('i' :: ("tal").toList) ++ ['_']
  ∧ markdown_to_jira
        (jira_to_markdown (("\x7bcode\x7d".toList) ++ ("abc").toList ++ ("\x7bcode\x7d".toList)))
      = ("\x7bcode\x7d".toList) ++ ("abc").toList ++ ('\n' :: ("\x7bcode\x7d".toList)) :=
  ⟨claim_C5.1 '2' (by decide) ((" Title").toList) (by decide),
   claim_C5.2.1 'b' (("old").toList) (by decide),
   claim_C5.2.2.1 'i' (("tal").toList) (by decide),
   claim_C5.2.2.2 (("abc").toList) (by decide)⟩

/-- C6 (confirmed): on text in which no wiki-markup pattern matches anywhere,
`jira_to_markdown` is the identity. -/
theorem claim_C6 (y : Str) (h : noWikiTokens y = true) : jira_to_markdown y = y :=
  noWiki_j2m_id y h

/-- C6 witness: identity on plain text. -/
theorem claim_C6_witness :
    jira_to_markdown (("plain text 42").toList) = (("plain text 42").toList) :=
  claim_C6 (("plain text 42").toList) (by decide)

/-- C7 (confirmed): a line of `||`-delimited cells becomes the same line with
single `|` delimiters, with the synthetic `|---|`-per-column separator row
inserted immediately below it, once, and scanning continues after the
inserted row; concretely `||Col1||Col2||` becomes `|Col1|Col2|` over
`|---|---|`. -/
theorem claim_C7 :
    (∀ (a b : Str) (rest : List Str), (∀ x ∈ a, x ≠ '|') → (∀ x ∈ b, x ≠ '|') →
       convertJiraTables (('|' :: '|' :: (a ++ '|' :: '|' :: (b ++ ['|', '|']))) :: rest)
         = ('|' :: (a ++ '|' :: (b ++ ['|']))) :: sepLine 2 :: convertJiraTables rest)
  ∧ jira_to_markdown (("||Col1||Col2||").toList) = (("|Col1|Col2|\n|---|---|").toList) :=
  ⟨fun a b rest ha hb => convertJiraTables_row2 a b rest ha hb, by decide⟩

/-- C7 witness: the two-column row conversion at `Col1`, `Col2`. -/
theorem claim_C7_witness :
    convertJiraTables
        (('|' :: '|' :: ((("Col1").toList) ++ '|' :: '|' :: ((("Col2").toList) ++ ['|', '|'])))
          :: [])
      = ('|' :: ((("Col1").toList) ++ '|' :: ((("Col2").toList) ++ ['|'])))
          :: sepLine 2 :: convertJiraTables [] :=
  claim_C7.1 (("Col1").toList) (("Col2").toList) [] (by decide) (by decide)

/-- C8 (confirmed): a smart link whose url yields an issue key through the
`browse/` pattern is rewritten to a Markdown link showing the key and
targeting the caller-supplied base url plus `/browse/` plus the key;
concretely the `PROJ-7` example. -/
theorem claim_C8 :
    (∀ (baseUrl t u key : Str),
       (∀ x ∈ t, x ≠ '|' ∧ x ≠ '\n') → (∀ x ∈ u, x ≠ '|' ∧ x ≠ '\n') →
       searchIssueKey u = some key →
       processSmartLinks baseUrl (smartLinkFull t u)
         = '[' :: key ++ ("](".toList) ++ baseUrl ++ ("/browse/".toList) ++ key ++ [')'])
  ∧ processSmartLinks (("https://host").toList)
      (("see [Bug Report|https://host/browse/PROJ-7|smart-link] end").toList)
      = (("see [PROJ-7](https://host/browse/PROJ-7) end").toList) :=
  ⟨processSmartLinks_issue, by decide⟩

/-- C8 witness: the issue-link rewrite at the `PROJ-7` smart link. -/
theorem claim_C8_witness :
    processSmartLinks (("https://host").toList)
        (smartLinkFull (("Bug Report").toList) (("https://host/browse/PROJ-7").toList))
      = '[' :: (("PROJ-7").toList) ++ ("](".toList) ++ (("https://host").toList)
          ++ ("/browse/".toList) ++ (("PROJ-7").toList) ++ [')'] :=
  claim_C8.1 (("https://host").toList) (("Bug Report").toList)
    (("https://host/browse/PROJ-7").toList) (("PROJ-7").toList)
    (by decide) (by decide) (by decide)

/-- C9 (corrected): a "link" element is replaced by the plain text node
`@user_<accountId>` exactly when its first document-order user-reference
descendant (at any depth, not only the two shapes of the frozen claim)
carries an account-id attribute; elements without such a descendant are kept
with children processed recursively, and non-link elements are untouched. -/
theorem claim_C9 :
    (∀ (fuel : Nat) (ch : List HNode), linkMentionF fuel ch = specLinkMentionF fuel ch)
  ∧ (∀ (fuel : Nat) (a : List (String × String)) (ch rest : List HNode) (id : String),
       specLinkMentionF fuel ch = some id →
       procSoupF (fuel + 1) (HNode.elem "ac:link" a ch :: rest)
         = HNode.htext ("@user_" ++ id) :: procSoupF fuel rest)
  ∧ (∀ (fuel : Nat) (a : List (String × String)) (ch rest : List HNode),
       specLinkMentionF fuel ch = none →
       procSoupF (fuel + 1) (HNode.elem "ac:link" a ch :: rest)
         = HNode.elem "ac:link" a (procSoupF fuel ch) :: procSoupF fuel rest)
  ∧ (∀ (fuel : Nat) (n : String) (a : List (String × String)) (ch rest : List HNode),
       n ≠ "ac:link" →
       procSoupF (fuel + 1) (HNode.elem n a ch :: rest)
         = HNode.elem n a (procSoupF fuel ch) :: procSoupF fuel rest) := by
  refine ⟨linkMentionF_eq_spec, ?_, ?_, ?_⟩
  · intro fuel a ch rest id h
    simp only [procSoupF]
    rw [if_pos trivial]
    rw [linkMentionF_eq_spec fuel ch, h]
  · intro fuel a ch rest h
    simp only [procSoupF]
    rw [if_pos trivial]
    rw [linkMentionF_eq_spec fuel ch, h]
  · intro fuel n a ch rest hn
    simp only [procSoupF]
    rw [if_neg hn]

/-- C9 counterexample: a user reference nested two levels below the link (in
neither shape of the frozen claim) is still replaced with `@user_42`. -/
theorem claim_C9_counterexample :
    procSoupF 20
        [HNode.elem "ac:link" []
          [HNode.elem "b" [] [HNode.elem "ri:user" [("ri:account-id", "42")] []]]]
      = [HNode.htext "@user_42"]
  ∧ claimShapeDirect
        [HNode.elem "b" [] [HNode.elem "ri:user" [("ri:account-id", "42")] []]] = false
  ∧ claimShapeSibling 20
        [HNode.elem "b" [] [HNode.elem "ri:user" [("ri:account-id", "42")] []]] = false :=
  ⟨rfl, rfl, rfl⟩

/-- C9 witness: the replacement, skip and non-link cases at concrete trees. -/
theorem claim_C9_witness :
    procSoupF (3 + 1)
        (HNode.elem "ac:link" [] [HNode.elem "ri:user" [("ri:account-id", "7")] []] :: [])
      = HNode.htext ("@user_" ++ "7") :: procSoupF 3 []
  ∧ procSoupF (3 + 1) (HNode.elem "ac:link" [] [] :: [])
      = HNode.elem "ac:link" [] (procSoupF 3 []) :: procSoupF 3 []
  ∧ procSoupF (3 + 1) (HNode.elem "p" [] [] :: [])
      = HNode.elem "p" [] (procSoupF 3 []) :: procSoupF 3 [] :=
  ⟨claim_C9.2.1 3 [] [HNode.elem "ri:user" [("ri:account-id", "7")] []] [] "7" rfl,
   claim_C9.2.2.1 3 [] [] [] rfl,
   claim_C9.2.2.2 3 "p" [] [] [] (by decide)⟩

/-- C10 (confirmed): the empty input is returned as the empty string by
`clean_jira_text` (for every lookup, base url and HTML collaborator, so no
external call can be consulted) and by both converters. -/
theorem claim_C10 :
    (∀ (lookup : Str → Option Str) (baseUrl : Str) (md : Str → Str),
       clean_jira_text lookup baseUrl md [] = [])
  ∧ jira_to_markdown [] = []
  ∧ markdown_to_jira [] = [] :=
  ⟨fun _ _ _ => rfl, rfl, rfl⟩

end JiraPrep
